import Mathlib

/-! # Calcolatrice TCP/UDP: request processing of the two calculator servers

A shallow embedding of `processData` of `Test_Calcolatrice_TCP/Server/Server.c`
(the stream server) and of `Test_Calcolatrice_UDP/Server/Server.c` (the datagram
server), together with the parts of the C library they call.

* The message buffer `char msg[BUFFERSIZE]` is a `List Char`, one element per
  byte; `processData` maps the buffer before the call to the buffer after it.
  The response is the C string the buffer then holds (`cstr`).
* A pointer into the buffer is a split of the list: the bytes before the pointer
  and the bytes from the pointer on.  The end of the list acts as a terminator
  for reads; a write beyond the end makes the list longer.
* `double` is IEEE-754 binary64 (`Dbl`), `int` is a 32-bit two's complement
  integer held in an `Int`.
* The C library is the GNU C library on x86-64 (`long` has 64 bits): `sscanf`,
  `printf` and the arithmetic on NaN follow that platform.
-/

namespace Calc

/-! ## C strings in the message buffer -/

/-- The terminating byte of a C string. -/
def NUL : Char := Char.ofNat 0

/-- The C string stored at the start of `m`: the bytes before the first `NUL`. -/
def cstr (m : List Char) : List Char :=
  m.takeWhile (fun c => c ≠ NUL)

/-- `strlen(m)`. -/
def strlen (m : List Char) : Nat :=
  (cstr m).length

/-- `strcpy(msg, s)`: the bytes of `s` and a terminator overwrite the start of
the buffer, the bytes behind them stay. -/
def strcpy (msg s : List Char) : List Char :=
  s ++ NUL :: msg.drop (s.length + 1)

/-- `sprintf(msg, ...)`, given the formatted text: an unbounded write. -/
def sprintf (msg text : List Char) : List Char :=
  strcpy msg text

/-- `snprintf(msg, n, ...)`, given the formatted text: nothing is written when
`n = 0`, otherwise the first `n - 1` bytes of the text and a terminator.  The
text is formatted from the arguments as they are before the call. -/
def snprintf (msg : List Char) (n : Nat) (text : List Char) : List Char :=
  if n = 0 then msg else strcpy msg (text.take (n - 1))

/-- `isspace` in the C locale. -/
def isspace (c : Char) : Bool :=
  c = ' ' || (9 ≤ c.toNat && c.toNat ≤ 13)

/-- A byte that `strtok(_, " ")` keeps inside a token. -/
def tokenByte (c : Char) : Bool :=
  c ≠ ' ' && c ≠ NUL

/-- One call of `strtok(p, " ")` (or `strtok(NULL, " ")` with saved pointer `p`),
on the bytes `s` from `p` on.  Returns the token (`none` for `NULL`), the bytes
between `p` and the new saved pointer as the call leaves them, and the bytes
from the new saved pointer on. -/
def strtok (s : List Char) : Option (List Char) × List Char × List Char :=
  let blanks := s.takeWhile (fun c => c = ' ')
  let s1 := s.dropWhile (fun c => c = ' ')
  let token := s1.takeWhile tokenByte
  if token = [] then (none, blanks, s1)
  else
    match s1.dropWhile tokenByte with
    | ' ' :: behind => (some token, blanks ++ token ++ [NUL], behind)
    | s2 => (some token, blanks ++ token, s2)

/-! ## IEEE-754 binary64 -/

/-- A `double`.  A finite value is held as a multiple of the smallest
subnormal, `(-1)^neg * k * 2^(-1074)`; `k` is a double when it has at most 53
significant bits and `k < 2^2098`.  A NaN keeps its sign bit, which `printf`
shows. -/
inductive Dbl where
  | finite (neg : Bool) (k : Nat)
  | inf (neg : Bool)
  | nan (neg : Bool)
  deriving DecidableEq

/-- Number of bits of `n` (`0` for `0`), by halving at most `fuel` times. -/
def bitLengthAux : Nat → Nat → Nat
  | 0, _ => 0
  | fuel + 1, n => if n = 0 then 0 else bitLengthAux fuel (n / 2) + 1

/-- Number of bits of `n`. -/
def bitLength (n : Nat) : Nat :=
  bitLengthAux n n

/-- The integer nearest to `num / den`, ties to even. -/
def roundHalfEven (num den : Nat) : Nat :=
  let q := num / den
  let r := num % den
  if 2 * r < den then q
  else if den < 2 * r then q + 1
  else if q % 2 = 0 then q else q + 1

/-- One unit in the first place: `2^1074` smallest subnormals. -/
def Dbl.one : Nat := 2 ^ 1074

/-- Round to nearest, ties to even: the double nearest to
`(-1)^neg * (num / den) * 2^(-1074)`, infinite from `2^1024` on. -/
def Dbl.round (neg : Bool) (num den : Nat) : Dbl :=
  let shift := bitLength (num / den) - 53
  let k := roundHalfEven num (den * 2 ^ shift) * 2 ^ shift
  if k < 2 ^ 2098 then .finite neg k else .inf neg

/-- Conversion of an `int` to `double` (exact for every 32-bit value). -/
def Dbl.ofInt (a : Int) : Dbl :=
  .finite (decide (a < 0)) (a.natAbs * Dbl.one)

/-- Unary minus. -/
def Dbl.neg : Dbl → Dbl
  | .finite s k => .finite (!s) k
  | .inf s => .inf (!s)
  | .nan s => .nan (!s)

/-- The C expression `a + b` on doubles, as the SSE2 unit of an x86-64
processor computes it: a NaN operand is the result (the first one when both
are NaN), an invalid operation gives the NaN with the sign bit set. -/
def Dbl.add : Dbl → Dbl → Dbl
  | .nan s, _ => .nan s
  | _, .nan t => .nan t
  | .inf s, .inf t => if s = t then .inf s else .nan true
  | .inf s, .finite _ _ => .inf s
  | .finite _ _, .inf t => .inf t
  | .finite s a, .finite t b =>
    if s = t then Dbl.round s (a + b) 1
    else if b < a then Dbl.round s (a - b) 1
    else if a < b then Dbl.round t (b - a) 1
    else .finite false 0

/-- The C expression `a - b` on doubles: the sum of `a` and `-b`, except that a
NaN operand `b` is passed on with its sign. -/
def Dbl.sub (a b : Dbl) : Dbl :=
  match b with
  | .nan t => Dbl.add a (.nan t)
  | _ => Dbl.add a (Dbl.neg b)

/-- The C expression `a * b` on doubles. -/
def Dbl.mul : Dbl → Dbl → Dbl
  | .nan s, _ => .nan s
  | _, .nan t => .nan t
  | .inf s, .inf t => .inf (s != t)
  | .inf s, .finite t b => if b = 0 then .nan true else .inf (s != t)
  | .finite s a, .inf t => if a = 0 then .nan true else .inf (s != t)
  | .finite s a, .finite t b => Dbl.round (s != t) (a * b) Dbl.one

/-- The C expression `a / b` on doubles. -/
def Dbl.div : Dbl → Dbl → Dbl
  | .nan s, _ => .nan s
  | _, .nan t => .nan t
  | .inf _, .inf _ => .nan true
  | .inf s, .finite t _ => .inf (s != t)
  | .finite s _, .inf t => .finite (s != t) 0
  | .finite s a, .finite t b =>
    if b = 0 then (if a = 0 then .nan true else .inf (s != t))
    else Dbl.round (s != t) (a * Dbl.one) b

/-- The C expression `b != 0` on a double. -/
def Dbl.nonzero : Dbl → Bool
  | .finite _ k => k != 0
  | _ => true

/-- The text `printf("%.2f", x)` writes: the value rounded to two decimals
(ties to even on the exact binary value), with the sign of the double; an
infinity is written `inf`, a NaN `nan`, each with `-` when the sign bit is
set. -/
def fmt2 : Dbl → List Char
  | .finite s k =>
    let n := roundHalfEven (k * 100) Dbl.one
    (if s then ['-'] else []) ++ Nat.toDigits 10 (n / 100)
      ++ ['.', Nat.digitChar (n / 10 % 10), Nat.digitChar (n % 10)]
  | .inf s => (if s then ['-'] else []) ++ ['i', 'n', 'f']
  | .nan s => (if s then ['-'] else []) ++ ['n', 'a', 'n']

/-! ## Number scanning -/

/-- Value of a run of decimal digits. -/
def digitsVal (ds : List Char) : Nat :=
  ds.foldl (fun acc c => 10 * acc + (c.toNat - 48)) 0

/-- Conversion to `int`: reduction modulo `2^32` into `[-2^31, 2^31)`. -/
def wrap32 (v : Int) : Int :=
  (v + 2 ^ 31) % 2 ^ 32 - 2 ^ 31

/-- An optional sign at the start of a numeral: whether it is `-`, and the
bytes behind it. -/
def scanSign (s : List Char) : Bool × List Char :=
  match s with
  | '-' :: r => (true, r)
  | '+' :: r => (false, r)
  | _ => (false, s)

/-- The result of `strtol` for a numeral of value `v`: values outside the
range of a 64-bit `long` become `LONG_MIN` or `LONG_MAX`. -/
def saturate64 (v : Int) : Int :=
  if v < -2 ^ 63 then -2 ^ 63 else if 2 ^ 63 - 1 < v then 2 ^ 63 - 1 else v

/-- The `int` that the `%d` directive of `sscanf` stores for a numeral of value
`v`: the numeral is converted with `strtol` and the `long` is cast to `int`. -/
def storeInt (v : Int) : Int :=
  wrap32 (saturate64 v)

/-- The test `sscanf(token, "%d", &x) == 1` and the value stored: white space is
skipped, then an optional sign and a non-empty run of digits are read; what
follows the digits is left unread.  A value outside the range of `int` is
stored as `storeInt` gives it. -/
def scanD (token : List Char) : Option Int :=
  let signed := scanSign (token.dropWhile isspace)
  let ds := signed.2.takeWhile Char.isDigit
  if ds = [] then none
  else some (storeInt (if signed.1 then -(digitsVal ds : Int) else (digitsVal ds : Int)))

/-- Value `d * 10^e` of a decimal numeral as a multiple of `2^(-1074)`, rounded
to a double. -/
def Dbl.ofDecimal (neg : Bool) (d : Nat) (e : Int) : Dbl :=
  match e with
  | Int.ofNat n => Dbl.round neg (d * 10 ^ n * Dbl.one) 1
  | Int.negSucc n => Dbl.round neg (d * Dbl.one) (10 ^ (n + 1))

/-- The exponent part of a decimal numeral: `e` or `E`, an optional sign and a
non-empty run of digits; `0` when there is none. -/
def scanExponent (s : List Char) : Int :=
  match s with
  | c :: r =>
    if c = 'e' || c = 'E' then
      let signed := scanSign r
      let ds := signed.2.takeWhile Char.isDigit
      if ds = [] then 0
      else if signed.1 then -(digitsVal ds : Int) else (digitsVal ds : Int)
    else 0
  | [] => 0

/-- Lower-case form of an ASCII letter. -/
def lower (c : Char) : Char :=
  if 65 ≤ c.toNat ∧ c.toNat ≤ 90 then Char.ofNat (c.toNat + 32) else c

/-- Value of a hexadecimal digit, `none` for any other byte. -/
def hexVal (c : Char) : Option Nat :=
  if c.isDigit then some (c.toNat - 48)
  else if 97 ≤ (lower c).toNat ∧ (lower c).toNat ≤ 102 then some ((lower c).toNat - 87)
  else none

/-- Value of a run of hexadecimal digits. -/
def hexDigitsVal (ds : List Char) : Nat :=
  ds.foldl (fun acc c => 16 * acc + (hexVal c).getD 0) 0

/-- The binary exponent part of a hexadecimal numeral: `p` or `P`, an optional
sign and a non-empty run of decimal digits; `0` when there is none. -/
def scanBinExponent (s : List Char) : Int :=
  match s with
  | c :: r =>
    if c = 'p' || c = 'P' then
      let signed := scanSign r
      let ds := signed.2.takeWhile Char.isDigit
      if ds = [] then 0
      else if signed.1 then -(digitsVal ds : Int) else (digitsVal ds : Int)
    else 0
  | [] => 0

/-- Value `h * 2^e` of a hexadecimal numeral, rounded to a double. -/
def Dbl.ofBinary (neg : Bool) (h : Nat) (e : Int) : Dbl :=
  match e with
  | Int.ofNat n => Dbl.round neg (h * 2 ^ n * Dbl.one) 1
  | Int.negSucc n => Dbl.round neg (h * Dbl.one) (2 ^ (n + 1))

/-- The fraction of a numeral, on the bytes behind its integer digits: the
digits behind a point, if there is one, and the bytes behind them. -/
def fraction (digit : Char → Bool) (s : List Char) : List Char × List Char :=
  match s with
  | '.' :: r => (r.takeWhile digit, r.dropWhile digit)
  | _ => ([], s)

/-- The digits of a hexadecimal numeral behind its `0x`: integer digits, an
optional point with fraction digits, an optional binary exponent.  `none` when
there is no digit. -/
def scanHex (neg : Bool) (s : List Char) : Option Dbl :=
  let ip := s.takeWhile (fun c => (hexVal c).isSome)
  let fr := fraction (fun c => (hexVal c).isSome) (s.dropWhile (fun c => (hexVal c).isSome))
  if ip = [] ∧ fr.1 = [] then none
  else some (Dbl.ofBinary neg (hexDigitsVal (ip ++ fr.1))
    (scanBinExponent fr.2 - 4 * (fr.1.length : Int)))

/-- Whether the bytes behind the sign start a word that `sscanf` gives up on
after `inf`: an `i` follows, but not the whole of `inity`. -/
def brokenInfinity (body : List Char) : Bool :=
  ((body.drop 3).take 1).map lower = ['i'] &&
    ((body.drop 3).take 5).map lower != ['i', 'n', 'i', 't', 'y']

/-- Whether the bytes behind the sign are a `0x` with neither a hexadecimal
digit nor a point behind it: `sscanf` has then read the prefix only and
fails. -/
def bareHexPrefix (body : List Char) : Bool :=
  match body with
  | '0' :: x :: r =>
    (x = 'x' || x = 'X') &&
      !(match r with
        | c :: _ => (hexVal c).isSome || c = '.'
        | [] => false)
  | _ => false

/-- The test `sscanf(token, "%lf", &x) == 1` and the value stored.  White space
is skipped, then an optional sign and one of `inf` (or `infinity`), `nan`, a
hexadecimal numeral or a decimal numeral (digits with an optional point and an
optional exponent) are read, and the bytes read are converted as `strtod`
converts them; what follows the numeral is left unread.  The directive fails on
`inf` followed by an incomplete `inity` and on a bare `0x`. -/
def scanLf (token : List Char) : Option Dbl :=
  let signed := scanSign (token.dropWhile isspace)
  let neg := signed.1
  let body := signed.2
  if (body.take 3).map lower = ['i', 'n', 'f'] then
    if brokenInfinity body then none else some (.inf neg)
  else if (body.take 3).map lower = ['n', 'a', 'n'] then some (.nan neg)
  else if bareHexPrefix body then none
  else
    let hex : Option Dbl :=
      match body with
      | '0' :: x :: r => if x = 'x' || x = 'X' then scanHex neg r else none
      | _ => none
    match hex with
    | some v => some v
    | none =>
      let ip := body.takeWhile Char.isDigit
      let fr := fraction Char.isDigit (body.dropWhile Char.isDigit)
      if ip = [] ∧ fr.1 = [] then none
      else some (Dbl.ofDecimal neg (digitsVal (ip ++ fr.1))
        (scanExponent fr.2 - (fr.1.length : Int)))

/-! ## The loops of `processData` -/

/-- Where the current token starts in the buffer: the bytes before the saved
pointer end with the token, and with the terminator that `strtok` wrote behind
it if it wrote one. -/
def tokenOffset (done token : List Char) : Nat :=
  done.length - token.length - (if done.getLast? = some NUL then 1 else 0)

/-- The bytes that `%s` contributes to
`snprintf(msg, strlen(msg), "Invalid operand format: %s", token)`, where the
token lies at offset `s` of the buffer that is written.  When the size leaves
no room behind the fixed text, none of them is written.  Otherwise the token is
read after the fixed text has been written over the first 24 bytes, which C
leaves undefined; the bytes are given as the C library of the build (glibc
2.36) produces them: up to 20 bytes are copied one by one, so that a token
starting inside the fixed text repeats the end of that text, more than 20 bytes
are copied as `memmove` copies them. -/
def tokenAsRead (buf : List Char) (s : Nat) (token : List Char) : List Char :=
  let lit := "Invalid operand format: ".toList
  let room := strlen buf - 1 - lit.length
  if room = 0 then token
  else
    let seen := cstr ((lit ++ buf.drop lit.length).drop s)
    let count := min room seen.length
    if count ≤ 20 ∧ s < lit.length then
      (List.range count).map (fun i => lit.getD (s + i % (lit.length - s)) NUL)
    else seen.take count

/-- The `while` loop that collects the operands, from the state after a call
of `strtok`: `fuel` is `MAXOPERANDS - numOperands`, `done` the bytes before the
saved pointer, `token` the current token, `rest` the bytes from the saved
pointer on.  A token that does not scan ends the function with the truncated
`"Invalid operand format: %s"` in the buffer (`Except.error`); otherwise the
operands and the buffer are returned.  The size passed to `snprintf` is the
length of the request up to its first terminator. -/
def tokenLoop {α : Type} (scan : List Char → Option α) :
    Nat → List Char → Option (List Char) → List Char → List α →
      Except (List Char) (List α × List Char)
  | 0, done, _, rest, operands => .ok (operands, done ++ rest)
  | _ + 1, done, none, rest, operands => .ok (operands, done ++ rest)
  | fuel + 1, done, some token, rest, operands =>
    match scan token with
    | none =>
      .error (snprintf (done ++ rest) (strlen (done ++ rest))
        ("Invalid operand format: ".toList ++
          tokenAsRead (done ++ rest) (tokenOffset done token) token))
    | some v =>
      let next := strtok rest
      tokenLoop scan fuel (done ++ next.2.1) next.1 next.2.2 (operands ++ [v])

/-- How the `for` loop over the operands ends. -/
inductive Outcome where
  | value (result : Dbl)
  | divisionByZero
  | unknownOperator
  deriving DecidableEq

/-- The `for` loop with its `switch`: `result` is folded with the operands
`operands[1..]` from left to right. -/
def forLoop {α : Type} (add sub mult division : Dbl → Dbl → Dbl) (toDouble : α → Dbl)
    (nonzero : α → Bool) (operator : Char) : Dbl → List α → Outcome
  | result, [] => .value result
  | result, x :: xs =>
    if operator = '+' then
      forLoop add sub mult division toDouble nonzero operator (add result (toDouble x)) xs
    else if operator = '-' then
      forLoop add sub mult division toDouble nonzero operator (sub result (toDouble x)) xs
    else if operator = '*' then
      forLoop add sub mult division toDouble nonzero operator (mult result (toDouble x)) xs
    else if operator = '/' then
      if nonzero x then
        forLoop add sub mult division toDouble nonzero operator (division result (toDouble x)) xs
      else .divisionByZero
    else .unknownOperator

/-! ## The stream server (`Test_Calcolatrice_TCP/Server`) -/

namespace TCP

/-- `BUFFERSIZE` of `Server.h`. -/
def BUFFERSIZE : Nat := 512

/-- `MAXOPERANDS` of `Server.h`. -/
def MAXOPERANDS : Nat := 2

/-- `add` of `Calculator.c`. -/
def add (a b : Dbl) : Dbl := Dbl.add a b

/-- `mult` of `Calculator.c`. -/
def mult (a b : Dbl) : Dbl := Dbl.mul a b

/-- `sub` of `Calculator.c`. -/
def sub (a b : Dbl) : Dbl := Dbl.sub a b

/-- `division` of `Calculator.c`: `0.0` for a zero denominator. -/
def division (a b : Dbl) : Dbl :=
  if Dbl.nonzero b then Dbl.div a b else .finite false 0

/-- The write that ends `processData` for each way the `for` loop can end: the
two error returns inside the loop and the final `snprintf` of the result. -/
def answer (msg : List Char) (operator : Char) : Outcome → List Char
  | .divisionByZero => strcpy msg "|Error| -  Division by Zero".toList
  | .unknownOperator => snprintf msg BUFFERSIZE ("Unknown operator: ".toList ++ [operator])
  | .value result => snprintf msg BUFFERSIZE (fmt2 result)

/-- `processData` of the stream server: the buffer after the call. -/
def processData (msg : List Char) : List Char :=
  let operator := msg.headD NUL
  if operator = '=' then snprintf msg ("Bye".length + 1) "Bye".toList
  else
    let first := strtok (msg.drop 2)
    match tokenLoop scanD MAXOPERANDS (msg.take 2 ++ first.2.1) first.1 first.2.2 [] with
    | .error out => out
    | .ok (operands, msg) =>
      if operands.length < 2 then strcpy msg "Insufficient number of operands".toList
      else
        match operands with
        | x :: xs =>
          answer msg operator
            (forLoop add sub mult division Dbl.ofInt (fun (i : Int) => i != 0) operator
              (Dbl.ofInt x) xs)
        | [] => msg

end TCP

/-! ## The datagram server (`Test_Calcolatrice_UDP/Server`) -/

namespace UDP

/-- `BUFFERSIZE` of `Server.h`. -/
def BUFFERSIZE : Nat := 256

/-- `MAXOPERANDS` of `Server.h`. -/
def MAXOPERANDS : Nat := 2

/-- Modelled from the spec: `Calculator.c` of the datagram server is not among
the sources, only its header.  The evaluator computes `accumulator operator
operand` in IEEE-754 double precision; `add` "takes two numbers and returns
their sum". -/
def add (a b : Dbl) : Dbl := Dbl.add a b

/-- Modelled from the spec: `Calculator.c` of the datagram server is not among
the sources.  `mult` "takes two numbers and returns their product", in IEEE-754
double precision. -/
def mult (a b : Dbl) : Dbl := Dbl.mul a b

/-- Modelled from the spec: `Calculator.c` of the datagram server is not among
the sources.  `sub` "returns the result of subtracting the second number from
the first", in IEEE-754 double precision. -/
def sub (a b : Dbl) : Dbl := Dbl.sub a b

/-- Modelled from the spec: `Calculator.c` of the datagram server is not among
the sources.  `division` "returns the result of dividing the first number by
the second", in IEEE-754 double precision; "division by zero is not handled in
this implementation". -/
def division (a b : Dbl) : Dbl := Dbl.div a b

/-- The write that ends `processData` for each way the `for` loop can end: the
two error returns inside the loop and the final `sprintf` of the operands
`x`, `y` and the result. -/
def answer (msg : List Char) (operator : Char) (x y : Dbl) : Outcome → List Char
  | .divisionByZero => strcpy msg "|Error| -  Division by Zero".toList
  | .unknownOperator => snprintf msg BUFFERSIZE ("Unknown operator: ".toList ++ [operator])
  | .value result =>
    sprintf msg (fmt2 x ++ [' ', operator, ' '] ++ fmt2 y ++ [' ', '=', ' '] ++ fmt2 result)

/-- `processData` of the datagram server: the buffer after the call. -/
def processData (msg : List Char) : List Char :=
  let operator := msg.headD NUL
  if operator = '=' then snprintf msg ("Bye".length + 1) "Bye".toList
  else
    let first := strtok (msg.drop 2)
    match tokenLoop scanLf MAXOPERANDS (msg.take 2 ++ first.2.1) first.1 first.2.2 [] with
    | .error out => out
    | .ok (operands, msg) =>
      if operands.length < 2 then strcpy msg "Insufficient number of operands".toList
      else
        match operands with
        | x :: y :: xs =>
          answer msg operator x y
            (forLoop add sub mult division id Dbl.nonzero operator x (y :: xs))
        | _ => msg

end UDP

/-- A request as a server holds it after the receive: the text at the start of
an otherwise zero-filled buffer of `size` bytes. -/
def request (size : Nat) (text : String) : List Char :=
  text.toList ++ List.replicate (size - text.length) NUL

/-- A signed run of digits: the text of an integer numeral. -/
def numeral (neg : Bool) (ds : List Char) : List Char :=
  (if neg then ['-'] else []) ++ ds

/-- The decimal numeral of an integer, as `printf("%d")` writes it. -/
def decimal (a : Int) : List Char :=
  numeral (decide (a < 0)) (Nat.toDigits 10 a.natAbs)

/-- Whether the byte `d` behind the digits `ds` of an integer numeral can belong
to a longer numeral: a digit, a decimal point, an exponent mark, or the `x` of a
hexadecimal prefix behind a single `0`. -/
def continuesNumeral (ds : List Char) (d : Char) : Bool :=
  d.isDigit || d = '.' || d = 'e' || d = 'E' || (ds = ['0'] && (d = 'x' || d = 'X'))

/-- The command `op a b` with single blanks, terminated, in a buffer whose
other bytes are `rest`. -/
def command (op : Char) (a b rest : List Char) : List Char :=
  op :: ' ' :: (a ++ ' ' :: (b ++ NUL :: rest))

/-! ## Receiving, and the loops of the two servers

The network is a script of what the socket calls return; a loop maps the script
to the sequence of socket calls it makes.  A loop that has used up its script is
blocked in its next receive (or `accept`).  Logging is left out. -/

/-- What a call of `recv` or `recvfrom` delivers: some bytes (none when the peer
has closed the connection), or an error. -/
inductive Received where
  | bytes (data : List Char)
  | error
  deriving DecidableEq

/-- The buffer after a receive of `data` into `msg` that asks for `size` bytes:
at most `size` bytes are taken, they overwrite the start of the buffer, the
bytes behind them stay. -/
def recvInto (size : Nat) (msg data : List Char) : List Char :=
  data.take size ++ msg.drop (data.take size).length

namespace TCP

/-- A socket call of the stream server. -/
inductive Action where
  | accept
  | welcome
  | recv
  | send (bytes : List Char)
  | close
  | exit (code : Int)
  deriving DecidableEq

/-- One round of the request loop as the network answers it: what `recv`
delivers and, if `send` is called, the byte count it returns. -/
structure Exchange where
  received : Received
  sent : Int

/-- The request loop of `main` on one connection: the calls it makes, and the
buffer when the loop has ended (`none` while it is blocked in `recv`). -/
def connection : List Char → List Exchange → List Action × Option (List Char)
  | _, [] => ([.recv], none)
  | msg, e :: es =>
    match e.received with
    | .error => ([.recv, .close], some msg)
    | .bytes data =>
      if (data.take BUFFERSIZE).length ≤ 0 then ([.recv, .close], some msg)
      else
        let msg := processData (recvInto BUFFERSIZE msg data)
        if e.sent ≠ (BUFFERSIZE : Int) then
          ([.recv, .send (msg.take BUFFERSIZE), .close], some msg)
        else if cstr msg = "Bye".toList then
          ([.recv, .send (msg.take BUFFERSIZE)], some msg)
        else
          let next := connection msg es
          (.recv :: .send (msg.take BUFFERSIZE) :: next.1, next.2)

/-- The accept loop of `main`: each entry of the script is one `accept`, failed
(`none`) or followed by the rounds of that connection. -/
def main : List Char → List (Option (List Exchange)) → List Action
  | _, [] => [.accept]
  | _, none :: _ => [.accept, .close, .exit (-1)]
  | msg, some es :: conns =>
    match connection msg es with
    | (trace, none) => .accept :: .welcome :: trace
    | (trace, some msg) => .accept :: .welcome :: (trace ++ .close :: main msg conns)

end TCP

namespace UDP

/-- The peer address `recvfrom` stores in `cad`: address and port. -/
structure Addr where
  ip : Nat
  port : Nat
  deriving DecidableEq

/-- A socket call of the datagram server. -/
inductive Action where
  | recvfrom
  | sendto (bytes : List Char) (dest : Addr)
  | close
  | exit (code : Int)
  deriving DecidableEq

/-- One round of the loop as the network answers it: what `recvfrom` delivers
and the peer address it stores, whether `gethostbyaddr` finds the peer, and the
byte count `sendto` returns if it is called. -/
structure Datagram where
  received : Received
  peer : Addr
  resolved : Bool
  sent : Int

/-- The loop of `main`: the calls it makes. -/
def main : List Datagram → List Action
  | [] => [.recvfrom]
  | d :: ds =>
    match d.received with
    | .error => .recvfrom :: main ds
    | .bytes data =>
      if (data.take BUFFERSIZE).length ≤ 0 then .recvfrom :: main ds
      else if d.resolved = false then [.recvfrom, .close, .exit (-1)]
      else
        let msg := processData (recvInto BUFFERSIZE (List.replicate BUFFERSIZE NUL) data)
        if d.sent ≠ (BUFFERSIZE : Int) then
          [.recvfrom, .sendto (msg.take BUFFERSIZE) d.peer, .close, .exit 0]
        else .recvfrom :: .sendto (msg.take BUFFERSIZE) d.peer :: main ds

end UDP

/-! ## The stream client (`Test_Calcolatrice_TCP/Client`) -/

namespace TCPClient

/-- `BUFFERSIZE` of `Client.h`. -/
def BUFFERSIZE : Nat := 512

/-- `sendData`: the bytes handed to `send` and the value returned, given the
byte count `sent` that `send` returns.  The length passed to `send` is
`sizeof(sizeof(char) * BUFFERSIZE)`, the size `sizeT` of a `size_t`. -/
def sendData (sizeT : Nat) (msg : List Char) (sent : Int) : List Char × Int :=
  (msg.take sizeT, if sent ≠ (sizeT : Int) then -1 else 1)

end TCPClient

/-- The test `strcmp(msg, "Bye") == 0` that ends the request loop of the stream
server and the loops of the two clients. -/
def isBye (msg : List Char) : Bool :=
  decide (cstr msg = "Bye".toList)

/-- One `%d` directive of `sscanf`: white space is skipped, then an optional
sign and a non-empty run of digits are read; returns the value stored and the
bytes left unread. -/
def scanInt (s : List Char) : Option (Int × List Char) :=
  let signed := scanSign (s.dropWhile isspace)
  let ds := signed.2.takeWhile Char.isDigit
  if ds = [] then none
  else some (storeInt (if signed.1 then -(digitsVal ds : Int) else (digitsVal ds : Int)),
    signed.2.dropWhile Char.isDigit)

namespace UDP

/-- Whether the loop of `main` goes on to the next `recvfrom` after the round
`d`: nothing was received, or the peer was found and `sendto` sent the whole
buffer. -/
def served (d : Datagram) : Bool :=
  match d.received with
  | .error => true
  | .bytes data =>
    decide ((data.take BUFFERSIZE).length ≤ 0) || (d.resolved && decide (d.sent = (BUFFERSIZE : Int)))

end UDP

namespace TCPClient

/-- The check of `inputString` for an arithmetic command: the line is not the
terminate command, `sscanf(msg, "%c %d %d", ...)` returns 3 and the operator
is one of `+ - * /`.  Returns the operator and the two integers as the client
reads them. -/
def accepted (line : List Char) : Option (Char × Int × Int) :=
  match cstr line with
  | [] => none
  | op :: s =>
    if op = '=' then none
    else
      match scanInt s with
      | none => none
      | some (n1, s1) =>
        match scanInt s1 with
        | none => none
        | some (n2, _) =>
          if op = '+' ∨ op = '-' ∨ op = '*' ∨ op = '/' then some (op, n1, n2) else none

/-- How a call of `receiveData` ends. -/
inductive Reception where
  | blocked
  | failed
  | terminated (index : Nat)
  deriving DecidableEq

/-- The receive loop of `receiveData`: `total` is `total_bytes_received`, each
`recv` asks for the `len - total` bytes still missing; a `recv` that delivers
nothing or fails returns `-1`.  When `len` bytes are there the loop ends and
the terminator is stored at `msg[total]`. -/
def receiveLoop (len : Nat) : Nat → List Received → Reception
  | total, [] => if total < len then .blocked else .terminated total
  | total, r :: rs =>
    if total < len then
      match r with
      | .error => .failed
      | .bytes data =>
        if (data.take (len - total)).length ≤ 0 then .failed
        else receiveLoop len (total + (data.take (len - total)).length) rs
    else .terminated total

/-- `receiveData(c_socket, string_len, msg)` over the script of its `recv`
calls. -/
def receiveData (string_len : Nat) (script : List Received) : Reception :=
  receiveLoop string_len 0 script

end TCPClient

/-! ## The datagram client (`Test_Calcolatrice_UDP/Client`) -/

namespace UDPClient

/-- `BUFFERSIZE` of `Client.h`. -/
def BUFFERSIZE : Nat := 256

/-- How a call of `receiveData` ends: the process exits, or the function
returns `code` after storing the terminator at `msg[index]`. -/
inductive Reception where
  | exit
  | returned (code : Int) (index : Int)
  deriving DecidableEq

/-- `receiveData`: `reply` is what `recvfrom` delivers, `fromAddr` the source
address it leaves in `*fromAddr`, `server` the address the request was sent to
(`*echoServAddr`), `resolved` whether `gethostbyaddr` finds the source. -/
def receiveData (reply : Received) (fromAddr server : UDP.Addr) (resolved : Bool) :
    Reception :=
  let respStringLen : Int :=
    match reply with
    | .bytes data => ((data.take BUFFERSIZE).length : Int)
    | .error => -1
  if server.ip ≠ fromAddr.ip then .exit
  else if resolved = false then .returned (-1) respStringLen
  else .returned 0 respStringLen

end UDPClient

/-! ## Lists and C strings -/

theorem takeWhile_stop (p : Char → Bool) (s : List Char) (x : Char) (r : List Char)
    (hs : ∀ c ∈ s, p c = true) (hx : p x = false) : (s ++ x :: r).takeWhile p = s := by
  induction s with
  | nil => simp [List.takeWhile, hx]
  | cons c s ih =>
    have hc : p c = true := hs c (List.mem_cons_self c s)
    have ih2 := ih (fun d hd => hs d (List.mem_cons_of_mem c hd))
    simp [List.takeWhile, hc, ih2]

theorem dropWhile_stop (p : Char → Bool) (s : List Char) (x : Char) (r : List Char)
    (hs : ∀ c ∈ s, p c = true) (hx : p x = false) : (s ++ x :: r).dropWhile p = x :: r := by
  induction s with
  | nil => simp [List.dropWhile, hx]
  | cons c s ih =>
    have hc : p c = true := hs c (List.mem_cons_self c s)
    have ih2 := ih (fun d hd => hs d (List.mem_cons_of_mem c hd))
    simp [List.dropWhile, hc, ih2]

theorem cstr_append_nul (s r : List Char) (h : ∀ c ∈ s, c ≠ NUL) : cstr (s ++ NUL :: r) = s := by
  unfold cstr
  apply takeWhile_stop
  · intro c hc
    simpa using h c hc
  · simp

theorem cstr_strcpy (m s : List Char) (h : ∀ c ∈ s, c ≠ NUL) : cstr (strcpy m s) = s := by
  unfold strcpy
  exact cstr_append_nul s _ h

theorem cstr_sprintf (m s : List Char) (h : ∀ c ∈ s, c ≠ NUL) : cstr (sprintf m s) = s :=
  cstr_strcpy m s h

theorem cstr_snprintf (m s : List Char) (n : Nat) (h : ∀ c ∈ s, c ≠ NUL) (hn : s.length < n) :
    cstr (snprintf m n s) = s := by
  unfold snprintf
  have h0 : n ≠ 0 := by omega
  rw [if_neg h0, List.take_of_length_le (by omega)]
  exact cstr_strcpy m s h

/-! ## Tokens -/

theorem tokenByte_ne_blank {c : Char} (h : tokenByte c = true) : c ≠ ' ' := by
  intro hc
  subst hc
  simp [tokenByte] at h

theorem tokenByte_ne_nul {c : Char} (h : tokenByte c = true) : c ≠ NUL := by
  intro hc
  subst hc
  simp [tokenByte] at h

theorem strtok_token (t : List Char) (x : Char) (r : List Char) (ht : t ≠ [])
    (hb : ∀ c ∈ t, tokenByte c = true) (hx : tokenByte x = false) :
    ∃ u r2, strtok (t ++ x :: r) = (some t, u, r2) := by
  obtain ⟨c, t2, rfl⟩ := List.exists_cons_of_ne_nil ht
  have hc : c ≠ ' ' := tokenByte_ne_blank (hb c (List.mem_cons_self c t2))
  have h1 : ((c :: t2) ++ x :: r).dropWhile (fun c => decide (c = ' ')) = (c :: t2) ++ x :: r := by
    simp [List.dropWhile, hc]
  have h2 : ((c :: t2) ++ x :: r).takeWhile tokenByte = c :: t2 := takeWhile_stop _ _ _ _ hb hx
  have h3 : ((c :: t2) ++ x :: r).dropWhile tokenByte = x :: r := dropWhile_stop _ _ _ _ hb hx
  unfold strtok
  simp only [h1, h2, h3]
  rw [if_neg (by simp)]
  split
  · exact ⟨_, _, rfl⟩
  · exact ⟨_, _, rfl⟩

theorem strtok_nul (r : List Char) : strtok (NUL :: r) = (none, [], NUL :: r) := by
  have h0 : NUL ≠ ' ' := by decide
  have h1 : tokenByte NUL = false := by decide
  simp [strtok, List.takeWhile, List.dropWhile, h0, h1]

theorem strtok_last (t r : List Char) (ht : t ≠ []) (hb : ∀ c ∈ t, tokenByte c = true) :
    strtok (t ++ NUL :: r) = (some t, t, NUL :: r) := by
  obtain ⟨c, t2, rfl⟩ := List.exists_cons_of_ne_nil ht
  have hc : c ≠ ' ' := tokenByte_ne_blank (hb c (List.mem_cons_self c t2))
  have hx : tokenByte NUL = false := by decide
  have h0 : ((c :: t2) ++ NUL :: r).takeWhile (fun c => decide (c = ' ')) = [] := by
    simp [List.takeWhile, hc]
  have h1 : ((c :: t2) ++ NUL :: r).dropWhile (fun c => decide (c = ' ')) = (c :: t2) ++ NUL :: r := by
    simp [List.dropWhile, hc]
  have h2 : ((c :: t2) ++ NUL :: r).takeWhile tokenByte = c :: t2 := takeWhile_stop _ _ _ _ hb hx
  have h3 : ((c :: t2) ++ NUL :: r).dropWhile tokenByte = NUL :: r := dropWhile_stop _ _ _ _ hb hx
  unfold strtok
  simp only [h0, h1, h2, h3]
  rw [if_neg (by simp)]
  split
  · next heq => 
    have : NUL = ' ' := by injection heq
    exact absurd this (by decide)
  · simp

/-! ## The operand loop -/

theorem tokenLoop_two {α : Type} (scan : List Char → Option α) (d t1 t2 u r1 r2 : List Char)
    (v1 v2 : α) (h1 : scan t1 = some v1) (hs : strtok r1 = (some t2, u, r2))
    (h2 : scan t2 = some v2) :
    ∃ m, tokenLoop scan 2 d (some t1) r1 [] = .ok ([v1, v2], m) := by
  simp [tokenLoop, h1, hs, h2]

theorem tokenLoop_one {α : Type} (scan : List Char → Option α) (d t1 u r1 r2 : List Char)
    (v1 : α) (h1 : scan t1 = some v1) (hs : strtok r1 = (none, u, r2)) :
    ∃ m, tokenLoop scan 2 d (some t1) r1 [] = .ok ([v1], m) := by
  simp [tokenLoop, h1, hs]

theorem cstr_append_nul_any (s r : List Char) : cstr (s ++ NUL :: r) = cstr s := by
  unfold cstr
  induction s with
  | nil => simp [List.takeWhile]
  | cons c s ih =>
    by_cases h : c = NUL
    · simp [List.takeWhile, h]
    · simp only [List.cons_append, List.takeWhile, h, ne_eq, not_false_eq_true, decide_True]
      exact congrArg (List.cons c) ih

theorem cstr_strcpy_any (m s : List Char) : cstr (strcpy m s) = cstr s := by
  unfold strcpy
  exact cstr_append_nul_any s _

theorem cstr_snprintf_any (m s : List Char) (n : Nat) (hn : n ≠ 0) :
    cstr (snprintf m n s) = cstr (s.take (n - 1)) := by
  unfold snprintf
  rw [if_neg hn]
  exact cstr_strcpy_any m _

theorem strtok_blank (t r : List Char) (ht : t ≠ []) (hb : ∀ c ∈ t, tokenByte c = true) :
    strtok (t ++ ' ' :: r) = (some t, t ++ [NUL], r) := by
  obtain ⟨c, t2, rfl⟩ := List.exists_cons_of_ne_nil ht
  have hc : c ≠ ' ' := tokenByte_ne_blank (hb c (List.mem_cons_self c t2))
  have hx : tokenByte ' ' = false := by decide
  have h0 : ((c :: t2) ++ ' ' :: r).takeWhile (fun c => decide (c = ' ')) = [] := by
    simp [List.takeWhile, hc]
  have h1 : ((c :: t2) ++ ' ' :: r).dropWhile (fun c => decide (c = ' ')) = (c :: t2) ++ ' ' :: r := by
    simp [List.dropWhile, hc]
  have h2 : ((c :: t2) ++ ' ' :: r).takeWhile tokenByte = c :: t2 := takeWhile_stop _ _ _ _ hb hx
  have h3 : ((c :: t2) ++ ' ' :: r).dropWhile tokenByte = ' ' :: r := dropWhile_stop _ _ _ _ hb hx
  unfold strtok
  simp only [h0, h1, h2, h3]
  rw [if_neg (by simp)]
  simp

/-! ## `processData` on a command with two operand tokens -/

theorem tcp_processData_bye (rest : List Char) :
    cstr (TCP.processData ('=' :: rest)) = "Bye".toList := by
  unfold TCP.processData
  simp only [List.headD_cons, if_true]
  exact cstr_snprintf _ _ _ (by decide) (by decide)

theorem udp_processData_bye (rest : List Char) :
    cstr (UDP.processData ('=' :: rest)) = "Bye".toList := by
  unfold UDP.processData
  simp only [List.headD_cons, if_true]
  exact cstr_snprintf _ _ _ (by decide) (by decide)

theorem tcp_processData_two (c sp : Char) (t1 t2 : List Char) (x : Char) (r : List Char)
    (v1 v2 : Int) (hc : c ≠ '=') (ht1 : t1 ≠ []) (hb1 : ∀ c ∈ t1, tokenByte c = true)
    (ht2 : t2 ≠ []) (hb2 : ∀ c ∈ t2, tokenByte c = true) (hx : tokenByte x = false)
    (h1 : scanD t1 = some v1) (h2 : scanD t2 = some v2) :
    ∃ m, TCP.processData (c :: sp :: (t1 ++ ' ' :: (t2 ++ x :: r))) =
      TCP.answer m c (forLoop TCP.add TCP.sub TCP.mult TCP.division Dbl.ofInt
        (fun (i : Int) => i != 0) c (Dbl.ofInt v1) [v2]) := by
  obtain ⟨u, r2, hs⟩ := strtok_token t2 x r ht2 hb2 hx
  obtain ⟨m, hm⟩ := tokenLoop_two scanD ([c, sp] ++ (t1 ++ [NUL])) t1 t2 u (t2 ++ x :: r) r2
    v1 v2 h1 hs h2
  refine ⟨m, ?_⟩
  unfold TCP.processData
  simp only [List.headD_cons, if_neg hc, List.drop_succ_cons, List.drop_zero,
    strtok_blank t1 _ ht1 hb1, List.take_succ_cons, List.take_zero, TCP.MAXOPERANDS, hm]
  simp

theorem udp_processData_two (c sp : Char) (t1 t2 : List Char) (x : Char) (r : List Char)
    (v1 v2 : Dbl) (hc : c ≠ '=') (ht1 : t1 ≠ []) (hb1 : ∀ c ∈ t1, tokenByte c = true)
    (ht2 : t2 ≠ []) (hb2 : ∀ c ∈ t2, tokenByte c = true) (hx : tokenByte x = false)
    (h1 : scanLf t1 = some v1) (h2 : scanLf t2 = some v2) :
    ∃ m, UDP.processData (c :: sp :: (t1 ++ ' ' :: (t2 ++ x :: r))) =
      UDP.answer m c v1 v2 (forLoop UDP.add UDP.sub UDP.mult UDP.division id
        Dbl.nonzero c v1 [v2]) := by
  obtain ⟨u, r2, hs⟩ := strtok_token t2 x r ht2 hb2 hx
  obtain ⟨m, hm⟩ := tokenLoop_two scanLf ([c, sp] ++ (t1 ++ [NUL])) t1 t2 u (t2 ++ x :: r) r2
    v1 v2 h1 hs h2
  refine ⟨m, ?_⟩
  unfold UDP.processData
  simp only [List.headD_cons, if_neg hc, List.drop_succ_cons, List.drop_zero,
    strtok_blank t1 _ ht1 hb1, List.take_succ_cons, List.take_zero, UDP.MAXOPERANDS, hm]
  simp

theorem tcp_cstr_answer (m1 m2 : List Char) (c : Char) (o : Outcome) :
    cstr (TCP.answer m1 c o) = cstr (TCP.answer m2 c o) := by
  cases o with
  | value result =>
    simp only [TCP.answer]
    rw [cstr_snprintf_any _ _ _ (by decide), cstr_snprintf_any _ _ _ (by decide)]
  | divisionByZero =>
    simp only [TCP.answer]
    rw [cstr_strcpy_any, cstr_strcpy_any]
  | unknownOperator =>
    simp only [TCP.answer]
    rw [cstr_snprintf_any _ _ _ (by decide), cstr_snprintf_any _ _ _ (by decide)]

theorem udp_cstr_answer (m1 m2 : List Char) (c : Char) (x y : Dbl) (o : Outcome) :
    cstr (UDP.answer m1 c x y o) = cstr (UDP.answer m2 c x y o) := by
  cases o with
  | value result =>
    simp only [UDP.answer, sprintf]
    rw [cstr_strcpy_any, cstr_strcpy_any]
  | divisionByZero =>
    simp only [UDP.answer]
    rw [cstr_strcpy_any, cstr_strcpy_any]
  | unknownOperator =>
    simp only [UDP.answer]
    rw [cstr_snprintf_any _ _ _ (by decide), cstr_snprintf_any _ _ _ (by decide)]

/-! ## Claims on the control flow of `processData` -/

/-- C3: a message whose first byte is `=` is answered with exactly `Bye` by both
servers, whatever follows the `=`. -/
theorem C3_terminate (rest : List Char) :
    cstr (TCP.processData ('=' :: rest)) = "Bye".toList ∧
    cstr (UDP.processData ('=' :: rest)) = "Bye".toList :=
  ⟨tcp_processData_bye rest, udp_processData_bye rest⟩

theorem tcp_processData_none (c sp : Char) (r : List Char) (hc : c ≠ '=') :
    cstr (TCP.processData (c :: sp :: NUL :: r)) = "Insufficient number of operands".toList := by
  unfold TCP.processData
  simp only [List.headD_cons, if_neg hc, List.drop_succ_cons, List.drop_zero, strtok_nul,
    TCP.MAXOPERANDS, tokenLoop]
  exact cstr_strcpy _ _ (by decide)

theorem udp_processData_none (c sp : Char) (r : List Char) (hc : c ≠ '=') :
    cstr (UDP.processData (c :: sp :: NUL :: r)) = "Insufficient number of operands".toList := by
  unfold UDP.processData
  simp only [List.headD_cons, if_neg hc, List.drop_succ_cons, List.drop_zero, strtok_nul,
    UDP.MAXOPERANDS, tokenLoop]
  exact cstr_strcpy _ _ (by decide)

theorem tcp_processData_single (c sp : Char) (a r : List Char) (hc : c ≠ '=') (ha : a ≠ [])
    (hb : ∀ c ∈ a, tokenByte c = true) (hs : scanD a ≠ none) :
    cstr (TCP.processData (c :: sp :: (a ++ NUL :: r))) =
      "Insufficient number of operands".toList := by
  obtain ⟨v, hv⟩ := Option.ne_none_iff_exists'.mp hs
  obtain ⟨m, hm⟩ := tokenLoop_one scanD ([c, sp] ++ a) a [] (NUL :: r) (NUL :: r) v hv
    (strtok_nul r)
  unfold TCP.processData
  simp only [List.headD_cons, if_neg hc, List.drop_succ_cons, List.drop_zero,
    strtok_last a r ha hb, List.take_succ_cons, List.take_zero, TCP.MAXOPERANDS, hm]
  exact cstr_strcpy _ _ (by decide)

theorem udp_processData_single (c sp : Char) (a r : List Char) (hc : c ≠ '=') (ha : a ≠ [])
    (hb : ∀ c ∈ a, tokenByte c = true) (hs : scanLf a ≠ none) :
    cstr (UDP.processData (c :: sp :: (a ++ NUL :: r))) =
      "Insufficient number of operands".toList := by
  obtain ⟨v, hv⟩ := Option.ne_none_iff_exists'.mp hs
  obtain ⟨m, hm⟩ := tokenLoop_one scanLf ([c, sp] ++ a) a [] (NUL :: r) (NUL :: r) v hv
    (strtok_nul r)
  unfold UDP.processData
  simp only [List.headD_cons, if_neg hc, List.drop_succ_cons, List.drop_zero,
    strtok_last a r ha hb, List.take_succ_cons, List.take_zero, UDP.MAXOPERANDS, hm]
  exact cstr_strcpy _ _ (by decide)

theorem arithmetic_ne_eq {op : Char} (hop : op = '+' ∨ op = '-' ∨ op = '*' ∨ op = '/') :
    op ≠ '=' := by
  rcases hop with h | h | h | h <;> subst h <;> decide

/-- For an arithmetic operator `op`, both servers answer the messages `op`
(in a buffer whose byte behind the terminator is `NUL` as well, as in a
zero-filled buffer), `op ` and `op a`, where `a` is one token that scans as a
number, with exactly `Insufficient number of operands`. -/
theorem insufficient_operands_zero_behind (op : Char) (a rest : List Char)
    (hop : op = '+' ∨ op = '-' ∨ op = '*' ∨ op = '/')
    (ha : a ≠ []) (hb : ∀ c ∈ a, tokenByte c = true) :
    (cstr (TCP.processData (op :: NUL :: NUL :: rest))
        = "Insufficient number of operands".toList ∧
      cstr (TCP.processData (op :: ' ' :: NUL :: rest))
        = "Insufficient number of operands".toList ∧
      (scanD a ≠ none → cstr (TCP.processData (op :: ' ' :: (a ++ NUL :: rest)))
        = "Insufficient number of operands".toList)) ∧
    (cstr (UDP.processData (op :: NUL :: NUL :: rest))
        = "Insufficient number of operands".toList ∧
      cstr (UDP.processData (op :: ' ' :: NUL :: rest))
        = "Insufficient number of operands".toList ∧
      (scanLf a ≠ none → cstr (UDP.processData (op :: ' ' :: (a ++ NUL :: rest)))
        = "Insufficient number of operands".toList)) := by
  have hc := arithmetic_ne_eq hop
  exact ⟨⟨tcp_processData_none op NUL rest hc, tcp_processData_none op ' ' rest hc,
      fun hs => tcp_processData_single op ' ' a rest hc ha hb hs⟩,
    ⟨udp_processData_none op NUL rest hc, udp_processData_none op ' ' rest hc,
      fun hs => udp_processData_single op ' ' a rest hc ha hb hs⟩⟩

set_option maxRecDepth 100000 in
set_option exponentiation.threshold 3000 in
/-- C4 at the message `+` alone in the stream server, with bytes of an earlier
request behind its terminator.  After the request `/ 25 2`, answered `12.50`,
the two bytes of `+` and its terminator leave `.50` at `msg + 2`: the token does
not scan, the size passed to `snprintf` is 1 and the response is the empty
string.  With `3 4` behind the terminator the response is `7.00`.  In neither
case is it `Insufficient number of operands`. -/
theorem C4_operator_alone_reads_behind_terminator :
    (TCP.connection (List.replicate 512 NUL)
      [⟨.bytes ("/ 25 2".toList ++ [NUL]), 512⟩, ⟨.bytes ['+', NUL], 512⟩]).1
      = [.recv, .send (request 512 "12.50"), .recv,
          .send (NUL :: NUL :: ".50".toList ++ List.replicate 507 NUL), .recv] ∧
    cstr (NUL :: NUL :: ".50".toList ++ List.replicate 507 NUL) = [] ∧
    cstr (TCP.processData ('+' :: NUL :: "3 4".toList ++ [NUL])) = "7.00".toList := by
  decide

theorem forLoop_unknown {α : Type} (f1 f2 f3 f4 : Dbl → Dbl → Dbl) (toD : α → Dbl)
    (nz : α → Bool) (c : Char) (x : Dbl) (y : α) (ys : List α)
    (h1 : c ≠ '+') (h2 : c ≠ '-') (h3 : c ≠ '*') (h4 : c ≠ '/') :
    forLoop f1 f2 f3 f4 toD nz c x (y :: ys) = .unknownOperator := by
  simp [forLoop, h1, h2, h3, h4]

theorem unknown_text_no_nul (c : Char) (hn : c ≠ NUL) :
    ∀ d ∈ "Unknown operator: ".toList ++ [c], d ≠ NUL := by
  intro d hd
  rcases List.mem_append.mp hd with h | h
  · have hall : ∀ e ∈ "Unknown operator: ".toList, e ≠ NUL := by decide
    exact hall d h
  · rw [List.mem_singleton.mp h]
    exact hn

/-- C5: for a first character `c` other than `+ - * / =` (and other than the
terminator) and two operand tokens that scan as numbers, both servers answer
`c a b` with `Unknown operator: ` followed by `c`. -/
theorem C5_unknown_operator (c : Char) (a b rest : List Char)
    (h1 : c ≠ '+') (h2 : c ≠ '-') (h3 : c ≠ '*') (h4 : c ≠ '/') (h5 : c ≠ '=') (hn : c ≠ NUL)
    (ha : a ≠ []) (hta : ∀ d ∈ a, tokenByte d = true)
    (hb : b ≠ []) (htb : ∀ d ∈ b, tokenByte d = true) :
    (scanD a ≠ none → scanD b ≠ none →
      cstr (TCP.processData (c :: ' ' :: (a ++ ' ' :: (b ++ NUL :: rest))))
        = "Unknown operator: ".toList ++ [c]) ∧
    (scanLf a ≠ none → scanLf b ≠ none →
      cstr (UDP.processData (c :: ' ' :: (a ++ ' ' :: (b ++ NUL :: rest))))
        = "Unknown operator: ".toList ++ [c]) := by
  constructor
  · intro hsa hsb
    obtain ⟨v1, hv1⟩ := Option.ne_none_iff_exists'.mp hsa
    obtain ⟨v2, hv2⟩ := Option.ne_none_iff_exists'.mp hsb
    obtain ⟨m, hm⟩ := tcp_processData_two c ' ' a b NUL rest v1 v2 h5 ha hta hb htb
      (by decide) hv1 hv2
    rw [hm, forLoop_unknown _ _ _ _ _ _ c _ _ _ h1 h2 h3 h4]
    exact cstr_snprintf _ _ _ (unknown_text_no_nul c hn) (by simp [TCP.BUFFERSIZE])
  · intro hsa hsb
    obtain ⟨v1, hv1⟩ := Option.ne_none_iff_exists'.mp hsa
    obtain ⟨v2, hv2⟩ := Option.ne_none_iff_exists'.mp hsb
    obtain ⟨m, hm⟩ := udp_processData_two c ' ' a b NUL rest v1 v2 h5 ha hta hb htb
      (by decide) hv1 hv2
    rw [hm, forLoop_unknown _ _ _ _ _ _ c _ _ _ h1 h2 h3 h4]
    exact cstr_snprintf _ _ _ (unknown_text_no_nul c hn) (by simp [UDP.BUFFERSIZE])

/-- C5 at `& 3 4`: both servers answer `Unknown operator: &`. -/
theorem C5_unknown_operator_witness :
    cstr (TCP.processData ('&' :: ' ' :: (['3'] ++ ' ' :: (['4'] ++ NUL :: []))))
        = "Unknown operator: ".toList ++ ['&'] ∧
    cstr (UDP.processData ('&' :: ' ' :: (['3'] ++ ' ' :: (['4'] ++ NUL :: []))))
        = "Unknown operator: ".toList ++ ['&'] :=
  have h := C5_unknown_operator '&' ['3'] ['4'] [] (by decide) (by decide) (by decide)
    (by decide) (by decide) (by decide) (by decide) (by decide) (by decide) (by decide)
  ⟨h.1 (by decide) (by decide), h.2 (by decide) (by decide)⟩

/-- C8: when the first two operand tokens scan as numbers, whatever follows the
blank behind the second token is ignored: both servers answer `c a b extra`
exactly as they answer `c a b`. -/
theorem C8_operand_cap (c : Char) (a b extra rest : List Char)
    (ha : a ≠ []) (hta : ∀ d ∈ a, tokenByte d = true)
    (hb : b ≠ []) (htb : ∀ d ∈ b, tokenByte d = true) :
    (scanD a ≠ none → scanD b ≠ none →
      cstr (TCP.processData (c :: ' ' :: (a ++ ' ' :: (b ++ ' ' :: extra))))
        = cstr (TCP.processData (c :: ' ' :: (a ++ ' ' :: (b ++ NUL :: rest))))) ∧
    (scanLf a ≠ none → scanLf b ≠ none →
      cstr (UDP.processData (c :: ' ' :: (a ++ ' ' :: (b ++ ' ' :: extra))))
        = cstr (UDP.processData (c :: ' ' :: (a ++ ' ' :: (b ++ NUL :: rest))))) := by
  by_cases h5 : c = '='
  · subst h5
    exact ⟨fun _ _ => by rw [tcp_processData_bye, tcp_processData_bye],
      fun _ _ => by rw [udp_processData_bye, udp_processData_bye]⟩
  constructor
  · intro hsa hsb
    obtain ⟨v1, hv1⟩ := Option.ne_none_iff_exists'.mp hsa
    obtain ⟨v2, hv2⟩ := Option.ne_none_iff_exists'.mp hsb
    obtain ⟨m, hm⟩ := tcp_processData_two c ' ' a b ' ' extra v1 v2 h5 ha hta hb htb
      (by decide) hv1 hv2
    obtain ⟨m2, hm2⟩ := tcp_processData_two c ' ' a b NUL rest v1 v2 h5 ha hta hb htb
      (by decide) hv1 hv2
    rw [hm, hm2]
    exact tcp_cstr_answer m m2 c _
  · intro hsa hsb
    obtain ⟨v1, hv1⟩ := Option.ne_none_iff_exists'.mp hsa
    obtain ⟨v2, hv2⟩ := Option.ne_none_iff_exists'.mp hsb
    obtain ⟨m, hm⟩ := udp_processData_two c ' ' a b ' ' extra v1 v2 h5 ha hta hb htb
      (by decide) hv1 hv2
    obtain ⟨m2, hm2⟩ := udp_processData_two c ' ' a b NUL rest v1 v2 h5 ha hta hb htb
      (by decide) hv1 hv2
    rw [hm, hm2]
    exact udp_cstr_answer m m2 c _ _ _

/-- C8 at `+ 1 2 x` against `+ 1 2`. -/
theorem C8_operand_cap_witness :
    cstr (TCP.processData ('+' :: ' ' :: (['1'] ++ ' ' :: (['2'] ++ ' ' :: ['x', NUL]))))
        = cstr (TCP.processData ('+' :: ' ' :: (['1'] ++ ' ' :: (['2'] ++ NUL :: [])))) ∧
    cstr (UDP.processData ('+' :: ' ' :: (['1'] ++ ' ' :: (['2'] ++ ' ' :: ['x', NUL]))))
        = cstr (UDP.processData ('+' :: ' ' :: (['1'] ++ ' ' :: (['2'] ++ NUL :: [])))) :=
  have h := C8_operand_cap '+' ['1'] ['2'] ['x', NUL] [] (by decide) (by decide) (by decide)
    (by decide)
  ⟨h.1 (by decide) (by decide), h.2 (by decide) (by decide)⟩

set_option maxRecDepth 100000 in
/-- C6: on `+ 3 x` and on `+ x 4` both servers leave `In` in the buffer, the
first two characters of `Invalid operand format: x`: the size handed to
`snprintf` is the length of the request up to the end of its first token. -/
theorem C6_invalid_operand_truncated :
    cstr (TCP.processData (request TCP.BUFFERSIZE "+ 3 x")) = "In".toList ∧
    cstr (TCP.processData (request TCP.BUFFERSIZE "+ x 4")) = "In".toList ∧
    cstr (UDP.processData (request UDP.BUFFERSIZE "+ 3 x")) = "In".toList ∧
    cstr (UDP.processData (request UDP.BUFFERSIZE "+ x 4")) = "In".toList := by
  decide

/-! ## Decimal digits -/

theorem digitChar_isDigit (m : Nat) (hm : m < 10) :
    (Nat.digitChar m).isDigit = true ∧ (Nat.digitChar m).toNat - 48 = m := by
  have all : ∀ k : Fin 10,
      (Nat.digitChar k.val).isDigit = true ∧ (Nat.digitChar k.val).toNat - 48 = k.val := by
    decide
  exact all ⟨m, hm⟩

theorem digitsVal_snoc (ds : List Char) (d : Char) :
    digitsVal (ds ++ [d]) = 10 * digitsVal ds + (d.toNat - 48) := by
  simp [digitsVal, List.foldl_append]

theorem toDigitsCore_run : ∀ (fuel n : Nat) (tail : List Char), n < fuel →
    ∃ run : List Char, run ≠ [] ∧ (∀ c ∈ run, c.isDigit = true) ∧ digitsVal run = n ∧
      Nat.toDigitsCore 10 fuel n tail = run ++ tail := by
  intro fuel
  induction fuel with
  | zero => intro n tail h; omega
  | succ fuel ih =>
    intro n tail hn
    have hd := digitChar_isDigit (n % 10) (Nat.mod_lt n (by decide))
    unfold Nat.toDigitsCore
    by_cases h0 : n / 10 = 0
    · simp only [h0, if_true]
      refine ⟨[Nat.digitChar (n % 10)], by simp, ?_, ?_, rfl⟩
      · intro c hc
        rw [List.mem_singleton.mp hc]
        exact hd.1
      · have := digitsVal_snoc [] (Nat.digitChar (n % 10))
        simp only [List.nil_append] at this
        rw [this, hd.2]
        simp only [digitsVal, List.foldl_nil]
        omega
    · simp only [h0, if_false]
      obtain ⟨run, _, h3, h4, h1⟩ := ih (n / 10) (Nat.digitChar (n % 10) :: tail) (by omega)
      refine ⟨run ++ [Nat.digitChar (n % 10)], by simp, ?_, ?_, by rw [h1]; simp⟩
      · intro c hc
        rcases List.mem_append.mp hc with h | h
        · exact h3 c h
        · rw [List.mem_singleton.mp h]
          exact hd.1
      · rw [digitsVal_snoc, h4, hd.2]
        omega

theorem toDigits_run (n : Nat) :
    Nat.toDigits 10 n ≠ [] ∧ (∀ c ∈ Nat.toDigits 10 n, c.isDigit = true) ∧
      digitsVal (Nat.toDigits 10 n) = n := by
  obtain ⟨run, h2, h3, h4, h1⟩ := toDigitsCore_run (n + 1) n [] (by omega)
  have : Nat.toDigits 10 n = run := by
    unfold Nat.toDigits
    rw [h1]
    simp
  rw [this]
  exact ⟨h2, h3, h4⟩

theorem toDigitsCore_length (fuel : Nat) : ∀ (n k : Nat) (acc : List Char), n < fuel →
    n < 10 ^ (k + 1) → (Nat.toDigitsCore 10 fuel n acc).length ≤ k + 1 + acc.length := by
  induction fuel with
  | zero => intro n k acc h; omega
  | succ fuel ih =>
    intro n k acc hn hk
    unfold Nat.toDigitsCore
    by_cases h0 : n / 10 = 0
    · simp only [h0, if_true, List.length_cons]
      omega
    · simp only [h0, if_false]
      cases k with
      | zero =>
        exfalso
        apply h0
        have : n < 10 := by simpa using hk
        omega
      | succ k =>
        have hk2 : n / 10 < 10 ^ (k + 1) := by
          rw [Nat.div_lt_iff_lt_mul (by decide)]
          calc n < 10 ^ (k + 1 + 1) := hk
            _ = 10 ^ (k + 1) * 10 := by rw [Nat.pow_succ]
        have := ih (n / 10) k (Nat.digitChar (n % 10) :: acc) (by omega) hk2
        simp only [List.length_cons] at this
        omega

theorem toDigits_length (n k : Nat) (h : n < 10 ^ (k + 1)) :
    (Nat.toDigits 10 n).length ≤ k + 1 := by
  have := toDigitsCore_length (n + 1) n k [] (by omega) h
  simpa [Nat.toDigits] using this

theorem isDigit_tokenByte {c : Char} (h : c.isDigit = true) : tokenByte c = true := by
  have h1 : c ≠ ' ' := by
    intro hc
    subst hc
    exact absurd h (by decide)
  have h2 : c ≠ NUL := by
    intro hc
    subst hc
    exact absurd h (by decide)
  simp [tokenByte, h1, h2]

theorem isDigit_not_space {c : Char} (h : c.isDigit = true) : isspace c = false := by
  have h48 : 48 ≤ c.toNat := by
    simp only [Char.isDigit, Bool.and_eq_true, decide_eq_true_eq] at h
    have := h.1
    simpa [Char.toNat, UInt32.le_def] using this
  have h1 : c ≠ ' ' := by
    intro hc
    subst hc
    exact absurd h (by decide)
  simp only [isspace, h1, decide_False, Bool.false_or, Bool.and_eq_false_imp, decide_eq_true_eq,
    decide_eq_false_iff_not]
  intro _
  omega

/-! ## Scanning integer numerals -/

theorem takeWhile_run (p : Char → Bool) (s junk : List Char) (hs : ∀ c ∈ s, p c = true)
    (hj : ∀ c, junk.head? = some c → p c = false) : (s ++ junk).takeWhile p = s := by
  cases junk with
  | nil =>
    rw [List.append_nil]
    exact List.takeWhile_eq_self_iff.mpr hs
  | cons x r => exact takeWhile_stop p s x r hs (hj x rfl)

theorem dropWhile_run (p : Char → Bool) (s junk : List Char) (hs : ∀ c ∈ s, p c = true)
    (hj : ∀ c, junk.head? = some c → p c = false) : (s ++ junk).dropWhile p = junk := by
  cases junk with
  | nil =>
    rw [List.append_nil]
    exact List.dropWhile_eq_nil_iff.mpr hs
  | cons x r => exact dropWhile_stop p s x r hs (hj x rfl)

theorem wrap32_id (v : Int) (h1 : -2 ^ 31 ≤ v) (h2 : v < 2 ^ 31) : wrap32 v = v := by
  unfold wrap32
  omega

theorem saturate64_id (v : Int) (h1 : -2 ^ 63 ≤ v) (h2 : v < 2 ^ 63) : saturate64 v = v := by
  unfold saturate64
  rw [if_neg (by omega), if_neg (by omega)]

theorem storeInt_id (v : Int) (h1 : -2 ^ 31 ≤ v) (h2 : v < 2 ^ 31) : storeInt v = v := by
  unfold storeInt
  rw [saturate64_id v (by omega) (by omega)]
  exact wrap32_id v h1 h2

theorem scanSign_digit (d : Char) (r : List Char) (hd : d.isDigit = true) :
    scanSign (d :: r) = (false, d :: r) := by
  have hm : d ≠ '-' := by
    intro h
    subst h
    exact absurd hd (by decide)
  have hp : d ≠ '+' := by
    intro h
    subst h
    exact absurd hd (by decide)
  unfold scanSign
  split
  · next heq =>
    have : d = '-' := by injection heq
    exact absurd this hm
  · next heq =>
    have : d = '+' := by injection heq
    exact absurd this hp
  · rfl

theorem scanSign_numeral (neg : Bool) (ds junk : List Char) (hds : ds ≠ [])
    (hd : ∀ c ∈ ds, c.isDigit = true) :
    scanSign ((numeral neg ds ++ junk).dropWhile isspace) = (neg, ds ++ junk) := by
  cases neg with
  | true =>
    have h1 : (numeral true ds ++ junk).dropWhile isspace = '-' :: (ds ++ junk) := by
      have : isspace '-' = false := by decide
      simp [numeral, List.dropWhile, this]
    rw [h1]
    rfl
  | false =>
    obtain ⟨d, ds2, rfl⟩ := List.exists_cons_of_ne_nil hds
    have hdd : d.isDigit = true := hd d (List.mem_cons_self d ds2)
    have h1 : (numeral false (d :: ds2) ++ junk).dropWhile isspace = d :: (ds2 ++ junk) := by
      simp [numeral, List.dropWhile, isDigit_not_space hdd]
    rw [h1]
    exact scanSign_digit d _ hdd

theorem scanD_numeral (neg : Bool) (ds junk : List Char) (hds : ds ≠ [])
    (hd : ∀ c ∈ ds, c.isDigit = true) (hj : ∀ c, junk.head? = some c → c.isDigit = false) :
    scanD (numeral neg ds ++ junk)
      = some (storeInt (if neg then -(digitsVal ds : Int) else (digitsVal ds : Int))) := by
  have htw : (ds ++ junk).takeWhile Char.isDigit = ds := takeWhile_run _ ds junk hd hj
  unfold scanD
  simp only [scanSign_numeral neg ds junk hds hd, htw, if_neg hds]

theorem numeral_ne_nil (neg : Bool) (ds : List Char) (hds : ds ≠ []) : numeral neg ds ≠ [] := by
  cases neg <;> simp [numeral, hds]

theorem numeral_tokenByte (neg : Bool) (ds : List Char) (hd : ∀ c ∈ ds, c.isDigit = true) :
    ∀ c ∈ numeral neg ds, tokenByte c = true := by
  intro c hc
  unfold numeral at hc
  rcases List.mem_append.mp hc with h | h
  · cases neg with
    | true =>
      simp only [if_true, List.mem_singleton] at h
      subst h
      decide
    | false => simp at h
  · exact isDigit_tokenByte (hd c h)

theorem scanD_decimal (a : Int) (junk : List Char)
    (hj : ∀ c, junk.head? = some c → c.isDigit = false) :
    scanD (decimal a ++ junk) = some (storeInt a) := by
  obtain ⟨h1, h2, h3⟩ := toDigits_run a.natAbs
  unfold decimal
  rw [scanD_numeral _ _ junk h1 h2 hj, h3]
  by_cases h : a < 0
  · simp only [h, decide_True, if_true]
    congr 2
    omega
  · simp only [h, decide_False]
    congr 2
    simp only [Bool.false_eq_true, if_false]
    omega

/-! ## Doubles that hold integers -/

theorem bitLengthAux_le (fuel : Nat) : ∀ (n b : Nat), n < 2 ^ b → bitLengthAux fuel n ≤ b := by
  induction fuel with
  | zero => intro n b _; simp [bitLengthAux]
  | succ fuel ih =>
    intro n b h
    unfold bitLengthAux
    by_cases h0 : n = 0
    · simp [h0]
    · simp only [h0, if_false]
      cases b with
      | zero => simp at h; omega
      | succ b =>
        have : n / 2 < 2 ^ b := by
          rw [Nat.div_lt_iff_lt_mul (by decide)]
          calc n < 2 ^ (b + 1) := h
            _ = 2 ^ b * 2 := by rw [Nat.pow_succ]
        have := ih (n / 2) b this
        omega

theorem roundHalfEven_exact (num den : Nat) (hden : 0 < den) (h : den ∣ num) :
    roundHalfEven num den = num / den := by
  have h0 : num % den = 0 := Nat.mod_eq_zero_of_dvd h
  unfold roundHalfEven
  simp only [h0, Nat.mul_zero]
  rw [if_pos hden]

set_option exponentiation.threshold 3000 in
theorem one_eq (e : Nat) (he : e = 1074) : Dbl.one = 2 ^ e := by
  subst he
  rfl

set_option exponentiation.threshold 3000 in
theorem one_pos : 0 < Dbl.one := by
  rw [one_eq _ rfl]
  exact Nat.two_pow_pos _

set_option exponentiation.threshold 3000 in
theorem mul_one_lt (n b e : Nat) (hn : n < 2 ^ b) (he : e = b + 1074) :
    n * Dbl.one < 2 ^ e := by
  subst he
  rw [Nat.pow_add, ← one_eq _ rfl]
  exact Nat.mul_lt_mul_of_lt_of_le hn (Nat.le_refl _) one_pos

set_option exponentiation.threshold 3000 in
theorem round_exact (s : Bool) (n den : Nat) (hden : 0 < den) (hn : n < 2 ^ 53) :
    Dbl.round s (n * Dbl.one * den) den = .finite s (n * Dbl.one) := by
  have hq : n * Dbl.one * den / den = n * Dbl.one := Nat.mul_div_cancel _ hden
  have hlt : n * Dbl.one < 2 ^ (53 + 1074) := mul_one_lt n 53 _ hn rfl
  have hbits : bitLength (n * Dbl.one) ≤ 53 + 1074 := bitLengthAux_le _ _ _ hlt
  unfold Dbl.round
  simp only [hq]
  have hshift : bitLength (n * Dbl.one) - 53 ≤ 1074 := by omega
  generalize bitLength (n * Dbl.one) - 53 = shift at hshift ⊢
  obtain ⟨t, ht⟩ : ∃ t, Dbl.one = 2 ^ shift * t := by
    obtain ⟨t, ht⟩ := Nat.pow_dvd_pow 2 hshift
    exact ⟨t, by rw [one_eq _ rfl]; exact ht⟩
  have hpos : 0 < den * 2 ^ shift := Nat.mul_pos hden (Nat.pos_pow_of_pos shift (by decide))
  have hnum : n * Dbl.one * den = n * t * (den * 2 ^ shift) := by
    rw [ht]
    ring
  have hdvd : den * 2 ^ shift ∣ n * Dbl.one * den := ⟨n * t, by rw [hnum]; ring⟩
  rw [roundHalfEven_exact _ _ hpos hdvd, hnum, Nat.mul_div_cancel _ hpos]
  have hk : n * t * 2 ^ shift = n * Dbl.one := by
    rw [ht]
    ring
  have hbig : n * Dbl.one < 2 ^ 2098 :=
    Nat.lt_of_lt_of_le hlt (Nat.pow_le_pow_right (by decide) (by decide))
  rw [hk, if_pos hbig]

theorem round_int (s : Bool) (n : Nat) (hn : n < 2 ^ 53) :
    Dbl.round s (n * Dbl.one) 1 = .finite s (n * Dbl.one) := by
  have h := round_exact s n 1 (by decide) hn
  rwa [Nat.mul_one] at h

theorem add_finite_int (s t : Bool) (x y : Nat) (h : x + y < 2 ^ 53) :
    Dbl.add (.finite s (x * Dbl.one)) (.finite t (y * Dbl.one)) =
      if s = t then .finite s ((x + y) * Dbl.one)
      else if y < x then .finite s ((x - y) * Dbl.one)
      else if x < y then .finite t ((y - x) * Dbl.one)
      else .finite false 0 := by
  have hlt : ∀ u v : Nat, u * Dbl.one < v * Dbl.one ↔ u < v := fun u v =>
    Nat.mul_lt_mul_right one_pos
  unfold Dbl.add
  simp only [hlt]
  by_cases hst : s = t
  · rw [if_pos hst, if_pos hst, ← Nat.add_mul, round_int s _ h]
  · rw [if_neg hst, if_neg hst]
    by_cases h1 : y < x
    · rw [if_pos h1, if_pos h1, ← Nat.sub_mul, round_int s _ (by omega)]
    · rw [if_neg h1, if_neg h1]
      by_cases h2 : x < y
      · rw [if_pos h2, if_pos h2, ← Nat.sub_mul, round_int t _ (by omega)]
      · rw [if_neg h2, if_neg h2]

theorem add_ofInt (a b : Int) (h : a.natAbs + b.natAbs < 2 ^ 53) :
    Dbl.add (Dbl.ofInt a) (Dbl.ofInt b) = Dbl.ofInt (a + b) := by
  unfold Dbl.ofInt
  rw [add_finite_int _ _ _ _ h]
  by_cases ha : a < 0 <;> by_cases hb : b < 0
  · have h1 : a + b < 0 := by omega
    have h2 : (a + b).natAbs = a.natAbs + b.natAbs := by omega
    simp [ha, hb, h1, h2]
  · simp only [ha, hb, decide_True, decide_False, Bool.true_eq_false, if_false]
    by_cases h1 : b.natAbs < a.natAbs
    · have h2 : a + b < 0 := by omega
      have h3 : (a + b).natAbs = a.natAbs - b.natAbs := by omega
      simp [h1, h2, h3]
    · by_cases h4 : a.natAbs < b.natAbs
      · have h2 : ¬ (a + b < 0) := by omega
        have h3 : (a + b).natAbs = b.natAbs - a.natAbs := by omega
        simp [h1, h4, h2, h3]
      · have h2 : a + b = 0 := by omega
        simp [h1, h4, h2]
  · simp only [ha, hb, decide_True, decide_False, Bool.false_eq_true, if_false]
    by_cases h1 : b.natAbs < a.natAbs
    · have h2 : ¬ (a + b < 0) := by omega
      have h3 : (a + b).natAbs = a.natAbs - b.natAbs := by omega
      simp [h1, h2, h3]
    · by_cases h4 : a.natAbs < b.natAbs
      · have h2 : a + b < 0 := by omega
        have h3 : (a + b).natAbs = b.natAbs - a.natAbs := by omega
        simp [h1, h4, h2, h3]
      · have h2 : a + b = 0 := by omega
        simp [h1, h4, h2]
  · have h1 : ¬ (a + b < 0) := by omega
    have h2 : (a + b).natAbs = a.natAbs + b.natAbs := by omega
    simp [ha, hb, h1, h2]

theorem sub_ofInt (a b : Int) (h : a.natAbs + b.natAbs < 2 ^ 53) :
    Dbl.sub (Dbl.ofInt a) (Dbl.ofInt b) = Dbl.ofInt (a - b) := by
  unfold Dbl.sub Dbl.ofInt Dbl.neg
  rw [add_finite_int _ _ _ _ h]
  by_cases ha : a < 0 <;> by_cases hb : b < 0
  · simp only [ha, hb, decide_True, Bool.not_true, Bool.true_eq_false, if_false]
    by_cases h1 : b.natAbs < a.natAbs
    · have h2 : a - b < 0 := by omega
      have h3 : (a - b).natAbs = a.natAbs - b.natAbs := by omega
      simp [h1, h2, h3]
    · by_cases h4 : a.natAbs < b.natAbs
      · have h2 : ¬ (a - b < 0) := by omega
        have h3 : (a - b).natAbs = b.natAbs - a.natAbs := by omega
        simp [h1, h4, h2, h3]
      · have h2 : a - b = 0 := by omega
        simp [h1, h4, h2]
  · have h1 : a - b < 0 := by omega
    have h2 : (a - b).natAbs = a.natAbs + b.natAbs := by omega
    simp [ha, hb, h1, h2]
  · have h1 : ¬ (a - b < 0) := by omega
    have h2 : (a - b).natAbs = a.natAbs + b.natAbs := by omega
    simp [ha, hb, h1, h2]
  · simp only [ha, hb, decide_False, Bool.not_false, Bool.false_eq_true, if_false]
    by_cases h1 : b.natAbs < a.natAbs
    · have h2 : ¬ (a - b < 0) := by omega
      have h3 : (a - b).natAbs = a.natAbs - b.natAbs := by omega
      simp [h1, h2, h3]
    · by_cases h4 : a.natAbs < b.natAbs
      · have h2 : a - b < 0 := by omega
        have h3 : (a - b).natAbs = b.natAbs - a.natAbs := by omega
        simp [h1, h4, h2, h3]
      · have h2 : a - b = 0 := by omega
        simp [h1, h4, h2]

theorem mul_ofInt (a b : Int) (h : a.natAbs * b.natAbs < 2 ^ 53) :
    Dbl.mul (Dbl.ofInt a) (Dbl.ofInt b)
      = .finite (decide (a < 0) != decide (b < 0)) ((a * b).natAbs * Dbl.one) := by
  simp only [Dbl.ofInt, Dbl.mul]
  have h1 : a.natAbs * Dbl.one * (b.natAbs * Dbl.one) = a.natAbs * b.natAbs * Dbl.one * Dbl.one := by
    ring
  rw [h1, round_exact _ _ _ one_pos h, Int.natAbs_mul]

theorem fmt2_int (s : Bool) (n : Nat) :
    fmt2 (.finite s (n * Dbl.one)) = numeral s (Nat.toDigits 10 n) ++ ['.', '0', '0'] := by
  have h1 : roundHalfEven (n * Dbl.one * 100) Dbl.one = n * 100 := by
    have h2 : n * Dbl.one * 100 = n * 100 * Dbl.one := by ring
    rw [roundHalfEven_exact _ _ one_pos ⟨n * 100, by rw [h2]; ring⟩, h2,
      Nat.mul_div_cancel _ one_pos]
  have h3 : n * 100 / 100 = n := Nat.mul_div_cancel _ (by decide)
  have h4 : n * 100 / 10 % 10 = 0 := by omega
  have h5 : n * 100 % 10 = 0 := by omega
  simp only [fmt2, h1, h3, h4, h5, numeral]
  rfl

theorem fmt2_ofInt (v : Int) : fmt2 (Dbl.ofInt v) = decimal v ++ ['.', '0', '0'] := by
  unfold Dbl.ofInt decimal
  exact fmt2_int _ _

theorem isDigit_ne_nul {c : Char} (h : c.isDigit = true) : c ≠ NUL :=
  tokenByte_ne_nul (isDigit_tokenByte h)

theorem numeral_no_nul (s : Bool) (ds : List Char) (hd : ∀ c ∈ ds, c.isDigit = true) :
    ∀ c ∈ numeral s ds, c ≠ NUL := fun c hc =>
  tokenByte_ne_nul (numeral_tokenByte s ds hd c hc)

theorem fmt2_no_nul (x : Dbl) : ∀ c ∈ fmt2 x, c ≠ NUL := by
  intro c hc
  cases x with
  | finite s k =>
    simp only [fmt2, List.append_assoc, List.mem_append] at hc
    generalize roundHalfEven (k * 100) Dbl.one = n at hc
    have hd1 := (digitChar_isDigit (n / 10 % 10) (Nat.mod_lt _ (by decide))).1
    have hd2 := (digitChar_isDigit (n % 10) (Nat.mod_lt _ (by decide))).1
    rcases hc with h | h | h
    · cases s with
      | true =>
        simp only [if_true, List.mem_singleton] at h
        subst h
        decide
      | false => simp at h
    · exact isDigit_ne_nul ((toDigits_run _).2.1 c h)
    · simp only [List.mem_cons, List.mem_singleton, List.not_mem_nil, or_false] at h
      rcases h with h | h | h
      · subst h
        decide
      · subst h
        exact isDigit_ne_nul hd1
      · subst h
        exact isDigit_ne_nul hd2
  | inf s =>
    cases s with
    | true =>
      simp only [fmt2, if_true, List.cons_append, List.nil_append, List.mem_cons,
        List.not_mem_nil, or_false] at hc
      rcases hc with h | h | h | h <;> subst h <;> decide
    | false =>
      simp only [fmt2, Bool.false_eq_true, if_false, List.nil_append, List.mem_cons,
        List.not_mem_nil, or_false] at hc
      rcases hc with h | h | h <;> subst h <;> decide
  | nan s =>
    cases s with
    | true =>
      simp only [fmt2, if_true, List.cons_append, List.nil_append, List.mem_cons,
        List.not_mem_nil, or_false] at hc
      rcases hc with h | h | h | h <;> subst h <;> decide
    | false =>
      simp only [fmt2, Bool.false_eq_true, if_false, List.nil_append, List.mem_cons,
        List.not_mem_nil, or_false] at hc
      rcases hc with h | h | h <;> subst h <;> decide

/-! ## The stream server on integer operands -/

theorem decimal_ne_nil (a : Int) : decimal a ≠ [] :=
  numeral_ne_nil _ _ (toDigits_run _).1

theorem decimal_tokenByte (a : Int) : ∀ c ∈ decimal a, tokenByte c = true :=
  numeral_tokenByte _ _ (toDigits_run _).2.1

theorem scanD_decimal_self (a : Int) (h1 : -2 ^ 31 ≤ a) (h2 : a < 2 ^ 31) :
    scanD (decimal a) = some a := by
  have h := scanD_decimal a [] (by simp)
  rwa [List.append_nil, storeInt_id a h1 h2] at h

theorem numeral_length (s : Bool) (ds : List Char) : (numeral s ds).length ≤ ds.length + 1 := by
  cases s <;> simp [numeral]

theorem cstr_snprintf_int (m : List Char) (s : Bool) (n : Nat) (hn : n < 2 ^ 53) :
    cstr (snprintf m TCP.BUFFERSIZE (fmt2 (.finite s (n * Dbl.one))))
      = numeral s (Nat.toDigits 10 n) ++ ".00".toList := by
  have h00 : ".00".toList = ['.', '0', '0'] := rfl
  rw [fmt2_int, h00]
  apply cstr_snprintf
  · intro c hc
    rcases List.mem_append.mp hc with h | h
    · exact numeral_no_nul s _ (toDigits_run n).2.1 c h
    · have hall : ∀ e ∈ ['.', '0', '0'], e ≠ NUL := by decide
      exact hall c h
  · have h1 : (Nat.toDigits 10 n).length ≤ 15 + 1 :=
      toDigits_length n 15 (Nat.lt_of_lt_of_le hn (by norm_num))
    have h2 := numeral_length s (Nat.toDigits 10 n)
    simp only [List.length_append, List.length_cons, List.length_nil, TCP.BUFFERSIZE]
    omega

theorem tcp_processData_value (op : Char) (a b : Int) (rest : List Char) (r : Dbl)
    (hop : op ≠ '=') (ha1 : -2 ^ 31 ≤ a) (ha2 : a < 2 ^ 31) (hb1 : -2 ^ 31 ≤ b)
    (hb2 : b < 2 ^ 31)
    (hr : forLoop TCP.add TCP.sub TCP.mult TCP.division Dbl.ofInt (fun (i : Int) => i != 0) op
      (Dbl.ofInt a) [b] = .value r) :
    ∃ m, TCP.processData (command op (decimal a) (decimal b) rest)
      = snprintf m TCP.BUFFERSIZE (fmt2 r) := by
  obtain ⟨m, hm⟩ := tcp_processData_two op ' ' (decimal a) (decimal b) NUL rest a b hop
    (decimal_ne_nil a) (decimal_tokenByte a) (decimal_ne_nil b) (decimal_tokenByte b)
    (by decide) (scanD_decimal_self a ha1 ha2) (scanD_decimal_self b hb1 hb2)
  exact ⟨m, by rw [command, hm, hr]; rfl⟩

/-- C1, amended: for integers `a`, `b` in the signed 32-bit range the stream
server answers `+ a b` and `- a b` with the decimal text of `a + b` and `a - b`
followed by `.00`, and, when `|a * b| < 2^53`, answers `* a b` with the decimal
text of `a * b` followed by `.00`, except that a product that is zero with a
negative factor is written `-0.00`. -/
theorem C1_stream_success (a b : Int) (rest : List Char)
    (ha1 : -2 ^ 31 ≤ a) (ha2 : a < 2 ^ 31) (hb1 : -2 ^ 31 ≤ b) (hb2 : b < 2 ^ 31) :
    cstr (TCP.processData (command '+' (decimal a) (decimal b) rest))
      = decimal (a + b) ++ ".00".toList ∧
    cstr (TCP.processData (command '-' (decimal a) (decimal b) rest))
      = decimal (a - b) ++ ".00".toList ∧
    ((a * b).natAbs < 2 ^ 53 →
      cstr (TCP.processData (command '*' (decimal a) (decimal b) rest))
        = if a * b = 0 ∧ (a < 0 ∨ b < 0) then "-0.00".toList
          else decimal (a * b) ++ ".00".toList) := by
  have hsum : a.natAbs + b.natAbs < 2 ^ 53 := by omega
  refine ⟨?_, ?_, ?_⟩
  · obtain ⟨m, hm⟩ := tcp_processData_value '+' a b rest (Dbl.ofInt (a + b)) (by decide)
      ha1 ha2 hb1 hb2 (by simp [forLoop, TCP.add, add_ofInt a b hsum])
    rw [hm]
    exact cstr_snprintf_int m _ _ (by omega)
  · obtain ⟨m, hm⟩ := tcp_processData_value '-' a b rest (Dbl.ofInt (a - b)) (by decide)
      ha1 ha2 hb1 hb2 (by simp [forLoop, TCP.sub, sub_ofInt a b hsum])
    rw [hm]
    exact cstr_snprintf_int m _ _ (by omega)
  · intro hprod
    have hp : a.natAbs * b.natAbs < 2 ^ 53 := by rwa [← Int.natAbs_mul]
    obtain ⟨m, hm⟩ := tcp_processData_value '*' a b rest _ (by decide)
      ha1 ha2 hb1 hb2 (by simp [forLoop, TCP.mult, mul_ofInt a b hp]; rfl)
    rw [hm, cstr_snprintf_int m _ _ hprod]
    by_cases hz : a * b = 0 ∧ (a < 0 ∨ b < 0)
    · rw [if_pos hz]
      have hs : (decide (a < 0) != decide (b < 0)) = true := by
        rcases Int.mul_eq_zero.mp hz.1 with h0 | h0
        · subst h0
          have hb : b < 0 := by omega
          simp [hb]
        · subst h0
          have ha : a < 0 := by omega
          simp [ha]
      rw [hs, hz.1]
      decide
    · rw [if_neg hz]
      have hs : (decide (a < 0) != decide (b < 0)) = decide (a * b < 0) := by
        by_cases ha : a < 0 <;> by_cases hb : b < 0
        · have : ¬ (a * b < 0) := not_lt.mpr (le_of_lt (Int.mul_pos_of_neg_of_neg ha hb))
          simp [ha, hb, this]
        · have hb0 : b ≠ 0 := fun h0 => hz ⟨by rw [h0, Int.mul_zero], Or.inl ha⟩
          have : a * b < 0 := Int.mul_neg_of_neg_of_pos ha (by omega)
          simp [ha, hb, this]
        · have ha0 : a ≠ 0 := fun h0 => hz ⟨by rw [h0, Int.zero_mul], Or.inr hb⟩
          have : a * b < 0 := Int.mul_neg_of_pos_of_neg (by omega) hb
          simp [ha, hb, this]
        · have : ¬ (a * b < 0) := not_lt.mpr (Int.mul_nonneg (by omega) (by omega))
          simp [ha, hb, this]
      rw [hs]
      rfl

/-- C1 at `3` and `4`: `+ 3 4` yields `7.00`, `- 3 4` yields `-1.00`, `* 3 4`
yields `12.00`. -/
theorem C1_stream_success_witness :
    cstr (TCP.processData (command '+' (decimal 3) (decimal 4) [])) = "7.00".toList ∧
    cstr (TCP.processData (command '-' (decimal 3) (decimal 4) [])) = "-1.00".toList ∧
    cstr (TCP.processData (command '*' (decimal 3) (decimal 4) [])) = "12.00".toList :=
  have h := C1_stream_success 3 4 [] (by decide) (by decide) (by decide) (by decide)
  ⟨h.1.trans (by decide), h.2.1.trans (by decide), (h.2.2 (by decide)).trans (by decide)⟩

set_option maxRecDepth 100000 in
set_option exponentiation.threshold 3000 in
/-- C1 fails at `* 0 -5`: the stream server writes `-0.00`, not the decimal
text `0.00` of the product. -/
theorem C1_counterexample_signed_zero :
    cstr (TCP.processData (request TCP.BUFFERSIZE "* 0 -5")) = "-0.00".toList ∧
    cstr (TCP.processData (request TCP.BUFFERSIZE "* 0 -5"))
      ≠ decimal (0 * -5) ++ ".00".toList := by
  decide

/-! ## Scanning integer numerals as doubles -/

theorem bitLengthAux_pos (fuel : Nat) : ∀ n : Nat, n ≤ fuel → n ≠ 0 →
    1 ≤ bitLengthAux fuel n ∧ 2 ^ (bitLengthAux fuel n - 1) ≤ n := by
  induction fuel with
  | zero => intro n h h0; omega
  | succ fuel ih =>
    intro n hn h0
    unfold bitLengthAux
    simp only [h0, if_false]
    refine ⟨by omega, ?_⟩
    simp only [Nat.add_sub_cancel]
    by_cases h2 : n / 2 = 0
    · have h1 : bitLengthAux fuel (n / 2) = 0 := by
        rw [h2]
        cases fuel <;> simp [bitLengthAux]
      rw [h1]
      simp only [Nat.pow_zero]
      omega
    · obtain ⟨h3, h4⟩ := ih (n / 2) (by omega) h2
      have h5 : 2 ^ bitLengthAux fuel (n / 2) = 2 * 2 ^ (bitLengthAux fuel (n / 2) - 1) := by
        rw [← Nat.pow_succ']
        congr 1
        omega
      rw [h5]
      omega

theorem roundHalfEven_ge (num den : Nat) : num / den ≤ roundHalfEven num den := by
  unfold roundHalfEven
  simp only
  split
  · exact Nat.le_refl _
  · split
    · exact Nat.le_succ _
    · split
      · exact Nat.le_refl _
      · exact Nat.le_succ _

set_option exponentiation.threshold 3000 in
theorem round_nonzero (s : Bool) (num den : Nat) (hden : 0 < den) (h : den ≤ num) :
    Dbl.nonzero (Dbl.round s num den) = true := by
  have hq : 1 ≤ num / den := (Nat.one_le_div_iff hden).mpr h
  obtain ⟨h1, h2⟩ := bitLengthAux_pos (num / den) (num / den) (Nat.le_refl _) (by omega)
  have hsh : 2 ^ (bitLength (num / den) - 53) ≤ num / den :=
    Nat.le_trans (Nat.pow_le_pow_right (by decide) (by unfold bitLength; omega)) h2
  unfold Dbl.round
  simp only
  generalize bitLength (num / den) - 53 = shift at hsh ⊢
  have hpos : 0 < 2 ^ shift := Nat.two_pow_pos shift
  have hle : den * 2 ^ shift ≤ num :=
    Nat.le_trans (Nat.mul_le_mul_left den hsh) (Nat.mul_div_le num den)
  have hr : 1 ≤ roundHalfEven num (den * 2 ^ shift) :=
    Nat.le_trans ((Nat.one_le_div_iff (Nat.mul_pos hden hpos)).mpr hle) (roundHalfEven_ge _ _)
  have hk : roundHalfEven num (den * 2 ^ shift) * 2 ^ shift ≠ 0 :=
    Nat.ne_of_gt (Nat.mul_pos hr hpos)
  split
  · simp [Dbl.nonzero, hk]
  · rfl

set_option exponentiation.threshold 3000 in
theorem round_zero (s : Bool) (den : Nat) : Dbl.round s 0 den = .finite s 0 := by
  have h1 : bitLength 0 = 0 := rfl
  simp [Dbl.round, h1, roundHalfEven]

theorem lower_digit {d : Char} (hd : d.isDigit = true) : lower d = d := by
  have h57 : d.toNat ≤ 57 := by
    simp only [Char.isDigit, Bool.and_eq_true, decide_eq_true_eq] at hd
    have := hd.2
    simpa [Char.toNat, UInt32.le_def] using this
  unfold lower
  rw [if_neg (by omega)]

theorem bareHexPrefix_false (body : List Char)
    (h : ∀ x r, body = '0' :: x :: r → x ≠ 'x' ∧ x ≠ 'X') : bareHexPrefix body = false := by
  unfold bareHexPrefix
  split
  · next x r =>
    have hx := h x r rfl
    simp [hx.1, hx.2]
  · rfl

theorem scanLf_numeral (neg : Bool) (ds junk : List Char) (hds : ds ≠ [])
    (hd : ∀ c ∈ ds, c.isDigit = true)
    (hjc : ∀ c, junk.head? = some c → continuesNumeral ds c = false) :
    scanLf (numeral neg ds ++ junk) = some (Dbl.ofDecimal neg (digitsVal ds) 0) := by
  have hj : ∀ c, junk.head? = some c →
      c.isDigit = false ∧ c ≠ '.' ∧ c ≠ 'e' ∧ c ≠ 'E' ∧ (ds = ['0'] → c ≠ 'x' ∧ c ≠ 'X') := by
    intro c hc
    have h := hjc c hc
    simp only [continuesNumeral, Bool.or_eq_false_iff, Bool.and_eq_false_imp,
      decide_eq_false_iff_not, decide_eq_true_eq] at h
    exact ⟨h.1.1.1.1, h.1.1.1.2, h.1.1.2, h.1.2, fun h0 => h.2 h0⟩
  have hjd : ∀ c, junk.head? = some c → c.isDigit = false := fun c hc => (hj c hc).1
  have htw : (ds ++ junk).takeWhile Char.isDigit = ds := takeWhile_run _ ds junk hd hjd
  have hdw : (ds ++ junk).dropWhile Char.isDigit = junk := dropWhile_run _ ds junk hd hjd
  have hsg := scanSign_numeral neg ds junk hds hd
  obtain ⟨d, ds2, rfl⟩ := List.exists_cons_of_ne_nil hds
  have hdd : d.isDigit = true := hd d (List.mem_cons_self d ds2)
  have hinf : ((d :: ds2 ++ junk).take 3).map lower ≠ ['i', 'n', 'f'] := by
    intro h
    have h1 : lower d = 'i' := by
      simp only [List.cons_append, List.take_succ_cons, List.map_cons] at h
      exact (List.cons.inj h).1
    rw [lower_digit hdd] at h1
    subst h1
    exact absurd hdd (by decide)
  have hnan : ((d :: ds2 ++ junk).take 3).map lower ≠ ['n', 'a', 'n'] := by
    intro h
    have h1 : lower d = 'n' := by
      simp only [List.cons_append, List.take_succ_cons, List.map_cons] at h
      exact (List.cons.inj h).1
    rw [lower_digit hdd] at h1
    subst h1
    exact absurd hdd (by decide)
  have hxx : ∀ x r, d :: ds2 ++ junk = '0' :: x :: r → x ≠ 'x' ∧ x ≠ 'X' := by
    intro x r heq
    cases ds2 with
    | nil =>
      have h1 : junk.head? = some x := by
        simp only [List.cons_append, List.nil_append] at heq
        rw [(List.cons.inj heq).2]
        rfl
      have h0 : d = '0' := by
        simp only [List.cons_append, List.nil_append] at heq
        exact (List.cons.inj heq).1
      exact (hj x h1).2.2.2.2 (by rw [h0])
    | cons e ds3 =>
      have h1 : e = x := by
        simp only [List.cons_append] at heq
        exact (List.cons.inj (List.cons.inj heq).2).1
      have h2 : x.isDigit = true := by
        rw [← h1]
        exact hd e (by simp)
      constructor
      · intro hc
        subst hc
        exact absurd h2 (by decide)
      · intro hc
        subst hc
        exact absurd h2 (by decide)
  have hbare := bareHexPrefix_false _ hxx
  have hhex : (match d :: ds2 ++ junk with
      | '0' :: x :: r => if (x = 'x' || x = 'X') = true then scanHex neg r else none
      | _ => none) = none := by
    split
    · next x r heq =>
      have hx := hxx x r heq
      simp [hx.1, hx.2]
    · rfl
  have hfr : fraction Char.isDigit junk = ([], junk) := by
    unfold fraction
    split
    · next r => exact absurd rfl (hj '.' rfl).2.1
    · rfl
  have hexp : scanExponent junk = 0 := by
    unfold scanExponent
    split
    · next c r =>
      have h1 := hj c rfl
      simp [h1.2.2.1, h1.2.2.2.1]
    · rfl
  unfold scanLf
  simp only [hsg, if_neg hinf, if_neg hnan, hbare, hhex, htw, hdw, hfr, hexp]
  simp

theorem scanLf_decimal (a : Int) :
    scanLf (decimal a) = some (Dbl.ofDecimal (decide (a < 0)) a.natAbs 0) := by
  obtain ⟨h1, h2, h3⟩ := toDigits_run a.natAbs
  have h := scanLf_numeral (decide (a < 0)) _ [] h1 h2 (by simp)
  rwa [List.append_nil, h3] at h

theorem nonzero_ofDecimal_int (s : Bool) (n : Nat) :
    Dbl.nonzero (Dbl.ofDecimal s n 0) = decide (n ≠ 0) := by
  have h0 : Dbl.ofDecimal s n 0 = Dbl.round s (n * 10 ^ 0 * Dbl.one) 1 := rfl
  rw [h0]
  by_cases hn : n = 0
  · subst hn
    simp [round_zero, Dbl.nonzero]
  · have h1 : 1 ≤ n * 10 ^ 0 * Dbl.one := by
      have := one_pos
      have h2 : 1 ≤ n := Nat.one_le_iff_ne_zero.mpr hn
      calc 1 = 1 * 1 := rfl
        _ ≤ n * 10 ^ 0 * Dbl.one := Nat.mul_le_mul (by simpa using h2) this
    rw [round_nonzero s _ 1 (by decide) h1]
    simp [hn]

/-! ## Division by zero -/

theorem cstr_cons (c : Char) (x : List Char) (hc : c ≠ NUL) : cstr (c :: x) = c :: cstr x := by
  simp [cstr, List.takeWhile, hc]

theorem fmt2_head (r : Dbl) : ∃ c tl, fmt2 r = c :: tl ∧ c ≠ '|' ∧ c ≠ NUL := by
  cases r with
  | finite s k =>
    cases s with
    | true => exact ⟨'-', _, rfl, by decide, by decide⟩
    | false =>
      simp only [fmt2, Bool.false_eq_true, if_false, List.nil_append]
      generalize roundHalfEven (k * 100) Dbl.one = n
      obtain ⟨h1, h2, _⟩ := toDigits_run (n / 100)
      obtain ⟨d, ds, hds⟩ := List.exists_cons_of_ne_nil h1
      have hd : d.isDigit = true := h2 d (by rw [hds]; exact List.mem_cons_self d ds)
      refine ⟨d, _, by rw [hds]; rfl, ?_, isDigit_ne_nul hd⟩
      intro hc
      subst hc
      exact absurd hd (by decide)
  | inf s =>
    cases s with
    | true => exact ⟨'-', _, rfl, by decide, by decide⟩
    | false => exact ⟨'i', _, rfl, by decide, by decide⟩
  | nan s =>
    cases s with
    | true => exact ⟨'-', _, rfl, by decide, by decide⟩
    | false => exact ⟨'n', _, rfl, by decide, by decide⟩

theorem tcp_value_ne_error (m : List Char) (r : Dbl) :
    cstr (snprintf m TCP.BUFFERSIZE (fmt2 r)) ≠ "|Error| -  Division by Zero".toList := by
  obtain ⟨c, tl, h1, h2, h3⟩ := fmt2_head r
  rw [cstr_snprintf_any _ _ _ (by decide), h1]
  have h4 : (c :: tl).take (TCP.BUFFERSIZE - 1) = c :: tl.take 510 := rfl
  rw [h4, cstr_cons c _ h3]
  intro h
  exact h2 (List.cons.inj h).1

theorem udp_value_ne_error (m : List Char) (x : Dbl) (t : List Char) :
    cstr (sprintf m (fmt2 x ++ t)) ≠ "|Error| -  Division by Zero".toList := by
  obtain ⟨c, tl, h1, h2, h3⟩ := fmt2_head x
  unfold sprintf
  rw [cstr_strcpy_any, h1, List.cons_append, cstr_cons c _ h3]
  intro h
  exact h2 (List.cons.inj h).1

theorem tcp_division (a b : Int) (rest : List Char) :
    cstr (TCP.processData (command '/' (decimal a) (decimal b) rest))
      = "|Error| -  Division by Zero".toList ↔ storeInt b = 0 := by
  obtain ⟨m, hm⟩ := tcp_processData_two '/' ' ' (decimal a) (decimal b) NUL rest (storeInt a)
    (storeInt b) (by decide) (decimal_ne_nil a) (decimal_tokenByte a) (decimal_ne_nil b)
    (decimal_tokenByte b) (by decide)
    (by have h := scanD_decimal a [] (by simp); rwa [List.append_nil] at h)
    (by have h := scanD_decimal b [] (by simp); rwa [List.append_nil] at h)
  rw [command, hm]
  by_cases hb : storeInt b = 0
  · simp only [hb, iff_true]
    simp only [forLoop, bne_self_eq_false, Bool.false_eq_true, if_false, TCP.answer]
    simp only [Char.reduceEq, if_false, if_true]
    exact cstr_strcpy _ _ (by decide)
  · simp only [hb, iff_false]
    have hnz : (storeInt b != 0) = true := by simp [hb]
    simp only [forLoop, hnz, if_true, TCP.answer, Char.reduceEq, if_false]
    exact tcp_value_ne_error m _

theorem udp_division (a b : Int) (rest : List Char) :
    cstr (UDP.processData (command '/' (decimal a) (decimal b) rest))
      = "|Error| -  Division by Zero".toList ↔ b = 0 := by
  obtain ⟨m, hm⟩ := udp_processData_two '/' ' ' (decimal a) (decimal b) NUL rest _ _
    (by decide) (decimal_ne_nil a) (decimal_tokenByte a) (decimal_ne_nil b)
    (decimal_tokenByte b) (by decide) (scanLf_decimal a) (scanLf_decimal b)
  have hnz := nonzero_ofDecimal_int (decide (b < 0)) b.natAbs
  rw [command, hm]
  generalize Dbl.ofDecimal (decide (a < 0)) a.natAbs 0 = x
  generalize Dbl.ofDecimal (decide (b < 0)) b.natAbs 0 = y at hnz ⊢
  by_cases hb : b = 0
  · have h0 : b.natAbs = 0 := by omega
    have hy : Dbl.nonzero y = false := by rw [hnz, h0]; rfl
    simp only [hb, iff_true]
    simp only [forLoop, id, hy, Bool.false_eq_true, if_false, UDP.answer, Char.reduceEq, if_true]
    exact cstr_strcpy _ _ (by decide)
  · have h0 : b.natAbs ≠ 0 := by omega
    have hy : Dbl.nonzero y = true := by rw [hnz]; exact decide_eq_true h0
    simp only [hb, iff_false]
    simp only [forLoop, id, hy, if_true, UDP.answer, Char.reduceEq, if_false]
    simp only [List.append_assoc]
    exact udp_value_ne_error m _ _

/-- C2, amended: both servers answer `/ a 0` with `|Error| -  Division by Zero`
for every integer `a`; the datagram server answers `/ a b` with that text exactly
when `b = 0`, and so does the stream server for every `b` in the signed 32-bit
range (its operands are 32-bit `int`s). -/
theorem C2_division_by_zero (a b : Int) (rest : List Char) :
    cstr (TCP.processData (command '/' (decimal a) (decimal 0) rest))
      = "|Error| -  Division by Zero".toList ∧
    cstr (UDP.processData (command '/' (decimal a) (decimal 0) rest))
      = "|Error| -  Division by Zero".toList ∧
    (-2 ^ 31 ≤ b → b < 2 ^ 31 →
      (cstr (TCP.processData (command '/' (decimal a) (decimal b) rest))
        = "|Error| -  Division by Zero".toList ↔ b = 0)) ∧
    (cstr (UDP.processData (command '/' (decimal a) (decimal b) rest))
      = "|Error| -  Division by Zero".toList ↔ b = 0) := by
  refine ⟨(tcp_division a 0 rest).mpr (by decide), (udp_division a 0 rest).mpr rfl, ?_,
    udp_division a b rest⟩
  intro h1 h2
  rw [tcp_division a b rest, storeInt_id b h1 h2]

/-- C2 at `a = 5`, `b = 2`: `/ 5 0` is answered with the division-by-zero text by
both servers, `/ 5 2` by neither. -/
theorem C2_division_by_zero_witness :
    cstr (TCP.processData (command '/' (decimal 5) (decimal 0) []))
      = "|Error| -  Division by Zero".toList ∧
    cstr (UDP.processData (command '/' (decimal 5) (decimal 0) []))
      = "|Error| -  Division by Zero".toList ∧
    (cstr (TCP.processData (command '/' (decimal 5) (decimal 2) []))
      = "|Error| -  Division by Zero".toList ↔ (2 : Int) = 0) ∧
    (cstr (UDP.processData (command '/' (decimal 5) (decimal 2) []))
      = "|Error| -  Division by Zero".toList ↔ (2 : Int) = 0) :=
  have h := C2_division_by_zero 5 2 []
  ⟨h.1, h.2.1, h.2.2.1 (by decide) (by decide), h.2.2.2⟩

set_option maxRecDepth 100000 in
/-- C2 fails at `/ 1 4294967296`: the second operand is not zero, yet the stream
server, which stores it in an `int`, answers with the division-by-zero text. -/
theorem C2_counterexample_wrapped_operand :
    cstr (TCP.processData (request TCP.BUFFERSIZE "/ 1 4294967296"))
      = "|Error| -  Division by Zero".toList ∧ (4294967296 : Int) ≠ 0 := by
  decide

/-! ## Operand tokens with trailing characters, and more than two operands -/

theorem tcp_processData_scanned (c : Char) (a b : List Char) (x : Char) (r : List Char)
    (v1 v2 : Int) (hc : c ≠ '=') (ha : a ≠ []) (hta : ∀ d ∈ a, tokenByte d = true)
    (hb : b ≠ []) (htb : ∀ d ∈ b, tokenByte d = true) (hx : tokenByte x = false)
    (h1 : scanD a = some v1) (h2 : scanD b = some v2) :
    cstr (TCP.processData (c :: ' ' :: (a ++ ' ' :: (b ++ x :: r)))) =
      cstr (TCP.answer [] c (forLoop TCP.add TCP.sub TCP.mult TCP.division Dbl.ofInt
        (fun (i : Int) => i != 0) c (Dbl.ofInt v1) [v2])) := by
  obtain ⟨m, hm⟩ := tcp_processData_two c ' ' a b x r v1 v2 hc ha hta hb htb hx h1 h2
  rw [hm]
  exact tcp_cstr_answer m [] c _

theorem udp_processData_scanned (c : Char) (a b : List Char) (x : Char) (r : List Char)
    (v1 v2 : Dbl) (hc : c ≠ '=') (ha : a ≠ []) (hta : ∀ d ∈ a, tokenByte d = true)
    (hb : b ≠ []) (htb : ∀ d ∈ b, tokenByte d = true) (hx : tokenByte x = false)
    (h1 : scanLf a = some v1) (h2 : scanLf b = some v2) :
    cstr (UDP.processData (c :: ' ' :: (a ++ ' ' :: (b ++ x :: r)))) =
      cstr (UDP.answer [] c v1 v2 (forLoop UDP.add UDP.sub UDP.mult UDP.division id
        Dbl.nonzero c v1 [v2])) := by
  obtain ⟨m, hm⟩ := udp_processData_two c ' ' a b x r v1 v2 hc ha hta hb htb hx h1 h2
  rw [hm]
  exact udp_cstr_answer m [] c _ _ _

/-- C9, amended: the evaluation loop is a left fold, on the operands `[x, y, z]`
it yields `(x op y) op z`; `processData`, which collects at most `MAXOPERANDS = 2`
operands, answers `op a b c` with the formatted value of `a op b`. -/
theorem C9_left_fold_capped {α : Type} (f1 f2 f3 f4 : Dbl → Dbl → Dbl) (toD : α → Dbl)
    (nz : α → Bool) (x : Dbl) (y z : α) (op : Char) (a b c rest : List Char)
    (hop : op = '+' ∨ op = '-' ∨ op = '*' ∨ op = '/')
    (ha : a ≠ []) (hta : ∀ d ∈ a, tokenByte d = true)
    (hb : b ≠ []) (htb : ∀ d ∈ b, tokenByte d = true) :
    (forLoop f1 f2 f3 f4 toD nz '+' x [y, z] = .value (f1 (f1 x (toD y)) (toD z)) ∧
      forLoop f1 f2 f3 f4 toD nz '-' x [y, z] = .value (f2 (f2 x (toD y)) (toD z)) ∧
      forLoop f1 f2 f3 f4 toD nz '*' x [y, z] = .value (f3 (f3 x (toD y)) (toD z)) ∧
      (nz y = true → nz z = true →
        forLoop f1 f2 f3 f4 toD nz '/' x [y, z] = .value (f4 (f4 x (toD y)) (toD z)))) ∧
    (∀ v1 v2 : Int, scanD a = some v1 → scanD b = some v2 →
      cstr (TCP.processData (op :: ' ' :: (a ++ ' ' :: (b ++ ' ' :: (c ++ NUL :: rest))))) =
        cstr (TCP.answer [] op (forLoop TCP.add TCP.sub TCP.mult TCP.division Dbl.ofInt
          (fun (i : Int) => i != 0) op (Dbl.ofInt v1) [v2]))) ∧
    (∀ v1 v2 : Dbl, scanLf a = some v1 → scanLf b = some v2 →
      cstr (UDP.processData (op :: ' ' :: (a ++ ' ' :: (b ++ ' ' :: (c ++ NUL :: rest))))) =
        cstr (UDP.answer [] op v1 v2 (forLoop UDP.add UDP.sub UDP.mult UDP.division id
          Dbl.nonzero op v1 [v2]))) := by
  have hc := arithmetic_ne_eq hop
  refine ⟨⟨by simp [forLoop], by simp [forLoop], by simp [forLoop], ?_⟩, ?_, ?_⟩
  · intro hy hz
    simp [forLoop, hy, hz]
  · intro v1 v2 h1 h2
    exact tcp_processData_scanned op a b ' ' _ v1 v2 hc ha hta hb htb (by decide) h1 h2
  · intro v1 v2 h1 h2
    exact udp_processData_scanned op a b ' ' _ v1 v2 hc ha hta hb htb (by decide) h1 h2

set_option maxRecDepth 100000 in
set_option exponentiation.threshold 3000 in
/-- C9 at `- 10 3 2`: the stream server answers `7.00` and the datagram server
`10.00 - 3.00 = 7.00`, the value of `10 - 3`. -/
theorem C9_left_fold_capped_witness :
    cstr (TCP.processData ('-' :: ' ' :: (['1', '0'] ++ ' ' :: (['3'] ++ ' ' ::
      (['2'] ++ NUL :: []))))) = "7.00".toList ∧
    cstr (UDP.processData ('-' :: ' ' :: (['1', '0'] ++ ' ' :: (['3'] ++ ' ' ::
      (['2'] ++ NUL :: []))))) = "10.00 - 3.00 = 7.00".toList :=
  have h := C9_left_fold_capped TCP.add TCP.sub TCP.mult TCP.division Dbl.ofInt
    (fun (i : Int) => i != 0) (Dbl.ofInt 10) (3 : Int) 2 '-' ['1', '0'] ['3'] ['2'] []
    (by decide) (by decide) (by decide) (by decide) (by decide)
  ⟨(h.2.1 10 3 (by decide) (by decide)).trans (by decide),
    (h.2.2 (Dbl.ofInt 10) (Dbl.ofInt 3) (by decide) (by decide)).trans (by decide)⟩

set_option maxRecDepth 100000 in
set_option exponentiation.threshold 3000 in
/-- C9 fails at `- 10 3 2`: the stream server answers `7.00`, while the
formatted value of `(10 - 3) - 2` is `5.00`. -/
theorem C9_counterexample_third_operand :
    cstr (TCP.processData (request TCP.BUFFERSIZE "- 10 3 2")) = "7.00".toList ∧
    fmt2 (TCP.sub (TCP.sub (Dbl.ofInt 10) (Dbl.ofInt 3)) (Dbl.ofInt 2)) = "5.00".toList ∧
    cstr (UDP.processData (request UDP.BUFFERSIZE "- 10 3 2")) = "10.00 - 3.00 = 7.00".toList := by
  decide

theorem append_tokenByte (s j : List Char) (hs : ∀ c ∈ s, tokenByte c = true)
    (hj : ∀ c ∈ j, tokenByte c = true) : ∀ c ∈ s ++ j, tokenByte c = true := by
  intro c hc
  rcases List.mem_append.mp hc with h | h
  · exact hs c h
  · exact hj c h

/-- C7, amended: an operand token that is an integer numeral followed by extra
characters which do not continue the numeral (`continuesNumeral`) is accepted with the value of the
numeral: both servers answer `c a·j1 b·j2` exactly as they answer `c a b`. -/
theorem C7_trailing_characters_ignored (c : Char) (n1 n2 : Bool)
    (ds1 ds2 j1 j2 rest : List Char)
    (h1 : ds1 ≠ []) (hd1 : ∀ d ∈ ds1, d.isDigit = true)
    (h2 : ds2 ≠ []) (hd2 : ∀ d ∈ ds2, d.isDigit = true)
    (ht1 : ∀ d ∈ j1, tokenByte d = true) (ht2 : ∀ d ∈ j2, tokenByte d = true)
    (hj1 : ∀ d, j1.head? = some d → continuesNumeral ds1 d = false)
    (hj2 : ∀ d, j2.head? = some d → continuesNumeral ds2 d = false) :
    cstr (TCP.processData (command c (numeral n1 ds1 ++ j1) (numeral n2 ds2 ++ j2) rest))
      = cstr (TCP.processData (command c (numeral n1 ds1) (numeral n2 ds2) rest)) ∧
    cstr (UDP.processData (command c (numeral n1 ds1 ++ j1) (numeral n2 ds2 ++ j2) rest))
      = cstr (UDP.processData (command c (numeral n1 ds1) (numeral n2 ds2) rest)) := by
  have hn1 := numeral_ne_nil n1 ds1 h1
  have hn2 := numeral_ne_nil n2 ds2 h2
  have hb1 := numeral_tokenByte n1 ds1 hd1
  have hb2 := numeral_tokenByte n2 ds2 hd2
  have hne1 : numeral n1 ds1 ++ j1 ≠ [] := by simp [hn1]
  have hne2 : numeral n2 ds2 ++ j2 ≠ [] := by simp [hn2]
  have hdig : ∀ (ds : List Char) (d : Char), continuesNumeral ds d = false →
      d.isDigit = false := by
    intro ds d h
    simp only [continuesNumeral, Bool.or_eq_false_iff] at h
    exact h.1.1.1.1
  by_cases hc : c = '='
  · subst hc
    simp only [command]
    exact ⟨by rw [tcp_processData_bye, tcp_processData_bye],
      by rw [udp_processData_bye, udp_processData_bye]⟩
  constructor
  · have s1 := scanD_numeral n1 ds1 j1 h1 hd1 (fun d hd => hdig ds1 d (hj1 d hd))
    have s2 := scanD_numeral n2 ds2 j2 h2 hd2 (fun d hd => hdig ds2 d (hj2 d hd))
    have s3 := scanD_numeral n1 ds1 [] h1 hd1 (by simp)
    have s4 := scanD_numeral n2 ds2 [] h2 hd2 (by simp)
    rw [List.append_nil] at s3 s4
    simp only [command]
    rw [tcp_processData_scanned c _ _ NUL rest _ _ hc hne1
        (append_tokenByte _ _ hb1 ht1) hne2 (append_tokenByte _ _ hb2 ht2) (by decide) s1 s2,
      tcp_processData_scanned c _ _ NUL rest _ _ hc hn1 hb1 hn2 hb2 (by decide) s3 s4]
  · have s1 := scanLf_numeral n1 ds1 j1 h1 hd1 hj1
    have s2 := scanLf_numeral n2 ds2 j2 h2 hd2 hj2
    have s3 := scanLf_numeral n1 ds1 [] h1 hd1 (by simp)
    have s4 := scanLf_numeral n2 ds2 [] h2 hd2 (by simp)
    rw [List.append_nil] at s3 s4
    simp only [command]
    rw [udp_processData_scanned c _ _ NUL rest _ _ hc hne1
        (append_tokenByte _ _ hb1 ht1) hne2 (append_tokenByte _ _ hb2 ht2) (by decide) s1 s2,
      udp_processData_scanned c _ _ NUL rest _ _ hc hn1 hb1 hn2 hb2 (by decide) s3 s4]

set_option maxRecDepth 100000 in
set_option exponentiation.threshold 3000 in
/-- C7 at `+ 3abc 4x`: both servers answer as for `+ 3 4`, the stream server
with `7.00`. -/
theorem C7_trailing_characters_ignored_witness :
    (cstr (TCP.processData (command '+' (numeral false ['3'] ++ ['a', 'b', 'c'])
        (numeral false ['4'] ++ ['x']) []))
      = cstr (TCP.processData (command '+' (numeral false ['3']) (numeral false ['4']) [])) ∧
    cstr (UDP.processData (command '+' (numeral false ['3'] ++ ['a', 'b', 'c'])
        (numeral false ['4'] ++ ['x']) []))
      = cstr (UDP.processData (command '+' (numeral false ['3']) (numeral false ['4']) []))) ∧
    cstr (TCP.processData (command '+' (numeral false ['3']) (numeral false ['4']) []))
      = "7.00".toList :=
  ⟨C7_trailing_characters_ignored '+' false false ['3'] ['4'] ['a', 'b', 'c'] ['x'] []
    (by decide) (by decide) (by decide) (by decide) (by decide) (by decide) (by decide)
    (by decide), by decide⟩

set_option maxRecDepth 100000 in
set_option exponentiation.threshold 3000 in
/-- C7 fails at `+ 3abc 4` and at `+ 3 4x`: both servers return a numeric
result, not the invalid-operand response. -/
theorem C7_counterexample_numeric_result :
    cstr (TCP.processData (request TCP.BUFFERSIZE "+ 3abc 4")) = "7.00".toList ∧
    cstr (TCP.processData (request TCP.BUFFERSIZE "+ 3 4x")) = "7.00".toList ∧
    cstr (UDP.processData (request UDP.BUFFERSIZE "+ 3abc 4")) = "3.00 + 4.00 = 7.00".toList ∧
    cstr (UDP.processData (request UDP.BUFFERSIZE "+ 3 4x")) = "3.00 + 4.00 = 7.00".toList := by
  decide

/-! ## Operands with a fractional part -/

theorem scanLf_fraction (neg : Bool) (ip fp : List Char) (hip : ip ≠ [])
    (hd : ∀ c ∈ ip, c.isDigit = true) (hf : ∀ c ∈ fp, c.isDigit = true) :
    scanLf (numeral neg ip ++ '.' :: fp)
      = some (Dbl.ofDecimal neg (digitsVal (ip ++ fp)) (-(fp.length : Int))) := by
  have hpt : ∀ c, ('.' :: fp).head? = some c → c.isDigit = false := by
    intro c hc
    have : c = '.' := by
      simp only [List.head?_cons, Option.some.injEq] at hc
      exact hc.symm
    subst this
    decide
  have htw : (ip ++ '.' :: fp).takeWhile Char.isDigit = ip := takeWhile_run _ ip _ hd hpt
  have hdw : (ip ++ '.' :: fp).dropWhile Char.isDigit = '.' :: fp := dropWhile_run _ ip _ hd hpt
  have hsg := scanSign_numeral neg ip ('.' :: fp) hip hd
  obtain ⟨d, ds2, rfl⟩ := List.exists_cons_of_ne_nil hip
  have hdd : d.isDigit = true := hd d (List.mem_cons_self d ds2)
  have hinf : ((d :: ds2 ++ '.' :: fp).take 3).map lower ≠ ['i', 'n', 'f'] := by
    intro h
    have h1 : lower d = 'i' := by
      simp only [List.cons_append, List.take_succ_cons, List.map_cons] at h
      exact (List.cons.inj h).1
    rw [lower_digit hdd] at h1
    subst h1
    exact absurd hdd (by decide)
  have hnan : ((d :: ds2 ++ '.' :: fp).take 3).map lower ≠ ['n', 'a', 'n'] := by
    intro h
    have h1 : lower d = 'n' := by
      simp only [List.cons_append, List.take_succ_cons, List.map_cons] at h
      exact (List.cons.inj h).1
    rw [lower_digit hdd] at h1
    subst h1
    exact absurd hdd (by decide)
  have hxx : ∀ x r, d :: ds2 ++ '.' :: fp = '0' :: x :: r → x ≠ 'x' ∧ x ≠ 'X' := by
    intro x r heq
    cases ds2 with
    | nil =>
      have h1 : x = '.' := by
        simp only [List.cons_append, List.nil_append] at heq
        exact ((List.cons.inj (List.cons.inj heq).2).1).symm
      subst h1
      exact ⟨by decide, by decide⟩
    | cons e ds3 =>
      have h1 : e = x := by
        simp only [List.cons_append] at heq
        exact (List.cons.inj (List.cons.inj heq).2).1
      have h2 : x.isDigit = true := by
        rw [← h1]
        exact hd e (by simp)
      constructor
      · intro hc
        subst hc
        exact absurd h2 (by decide)
      · intro hc
        subst hc
        exact absurd h2 (by decide)
  have hbare := bareHexPrefix_false _ hxx
  have hhex : (match d :: ds2 ++ '.' :: fp with
      | '0' :: x :: r => if (x = 'x' || x = 'X') = true then scanHex neg r else none
      | _ => none) = none := by
    split
    · next x r heq =>
      have hx := hxx x r heq
      simp [hx.1, hx.2]
    · rfl
  have hfr : fraction Char.isDigit ('.' :: fp) = (fp, []) := by
    simp only [fraction]
    rw [List.takeWhile_eq_self_iff.mpr hf, List.dropWhile_eq_nil_iff.mpr hf]
  have hexp : scanExponent [] = 0 := rfl
  unfold scanLf
  simp only [hsg, if_neg hinf, if_neg hnan, hbare, hhex, htw, hdw, hfr, hexp]
  simp

/-- C10, amended: for operands that are decimal numerals with a fractional
part the datagram server computes with the doubles nearest to the full decimal
values, while the stream server reads the integer part of each operand only and
answers as for the command without the fractions; `+ 1.5 2.5` yields
`1.50 + 2.50 = 4.00` and `3.00`, `/ 5 0.5` yields `5.00 / 0.50 = 10.00` and the
division-by-zero text. -/
theorem C10_decimal_operands (c : Char) (n1 n2 : Bool) (ip1 fp1 ip2 fp2 rest : List Char)
    (hc : c ≠ '=')
    (h1 : ip1 ≠ []) (hd1 : ∀ d ∈ ip1, d.isDigit = true) (hf1 : ∀ d ∈ fp1, d.isDigit = true)
    (h2 : ip2 ≠ []) (hd2 : ∀ d ∈ ip2, d.isDigit = true) (hf2 : ∀ d ∈ fp2, d.isDigit = true) :
    cstr (UDP.processData (command c (numeral n1 ip1 ++ '.' :: fp1)
        (numeral n2 ip2 ++ '.' :: fp2) rest))
      = cstr (UDP.answer [] c
          (Dbl.ofDecimal n1 (digitsVal (ip1 ++ fp1)) (-(fp1.length : Int)))
          (Dbl.ofDecimal n2 (digitsVal (ip2 ++ fp2)) (-(fp2.length : Int)))
          (forLoop UDP.add UDP.sub UDP.mult UDP.division id Dbl.nonzero c
            (Dbl.ofDecimal n1 (digitsVal (ip1 ++ fp1)) (-(fp1.length : Int)))
            [Dbl.ofDecimal n2 (digitsVal (ip2 ++ fp2)) (-(fp2.length : Int))])) ∧
    cstr (TCP.processData (command c (numeral n1 ip1 ++ '.' :: fp1)
        (numeral n2 ip2 ++ '.' :: fp2) rest))
      = cstr (TCP.processData (command c (numeral n1 ip1) (numeral n2 ip2) rest)) ∧
    cstr (UDP.processData (request UDP.BUFFERSIZE "+ 1.5 2.5")) = "1.50 + 2.50 = 4.00".toList ∧
    cstr (TCP.processData (request TCP.BUFFERSIZE "+ 1.5 2.5")) = "3.00".toList ∧
    cstr (UDP.processData (request UDP.BUFFERSIZE "/ 5 0.5")) = "5.00 / 0.50 = 10.00".toList ∧
    cstr (TCP.processData (request TCP.BUFFERSIZE "/ 5 0.5"))
      = "|Error| -  Division by Zero".toList := by
  have hn1 := numeral_ne_nil n1 ip1 h1
  have hn2 := numeral_ne_nil n2 ip2 h2
  have hb1 := numeral_tokenByte n1 ip1 hd1
  have hb2 := numeral_tokenByte n2 ip2 hd2
  have hne1 : numeral n1 ip1 ++ '.' :: fp1 ≠ [] := by simp [hn1]
  have hne2 : numeral n2 ip2 ++ '.' :: fp2 ≠ [] := by simp [hn2]
  have hpt : ∀ (fp : List Char), (∀ d ∈ fp, d.isDigit = true) →
      ∀ d ∈ '.' :: fp, tokenByte d = true := by
    intro fp hfp d hd
    rcases List.mem_cons.mp hd with h | h
    · subst h
      decide
    · exact isDigit_tokenByte (hfp d h)
  have hhead : ∀ (fp : List Char) (d : Char), ('.' :: fp).head? = some d →
      d.isDigit = false := by
    intro fp d hd
    have : d = '.' := by
      simp only [List.head?_cons, Option.some.injEq] at hd
      exact hd.symm
    subst this
    decide
  refine ⟨?_, ?_, ?_, ?_, ?_, ?_⟩
  · simp only [command]
    exact udp_processData_scanned c _ _ NUL rest _ _ hc hne1
      (append_tokenByte _ _ hb1 (hpt fp1 hf1)) hne2 (append_tokenByte _ _ hb2 (hpt fp2 hf2))
      (by decide) (scanLf_fraction n1 ip1 fp1 h1 hd1 hf1) (scanLf_fraction n2 ip2 fp2 h2 hd2 hf2)
  · have s1 := scanD_numeral n1 ip1 ('.' :: fp1) h1 hd1 (hhead fp1)
    have s2 := scanD_numeral n2 ip2 ('.' :: fp2) h2 hd2 (hhead fp2)
    have s3 := scanD_numeral n1 ip1 [] h1 hd1 (by simp)
    have s4 := scanD_numeral n2 ip2 [] h2 hd2 (by simp)
    rw [List.append_nil] at s3 s4
    simp only [command]
    rw [tcp_processData_scanned c _ _ NUL rest _ _ hc hne1
        (append_tokenByte _ _ hb1 (hpt fp1 hf1)) hne2 (append_tokenByte _ _ hb2 (hpt fp2 hf2))
        (by decide) s1 s2,
      tcp_processData_scanned c _ _ NUL rest _ _ hc hn1 hb1 hn2 hb2 (by decide) s3 s4]
  · set_option maxRecDepth 100000 in
    set_option exponentiation.threshold 3000 in
    decide
  · set_option maxRecDepth 100000 in
    set_option exponentiation.threshold 3000 in
    decide
  · set_option maxRecDepth 100000 in
    set_option exponentiation.threshold 3000 in
    decide
  · set_option maxRecDepth 100000 in
    set_option exponentiation.threshold 3000 in
    decide

set_option maxRecDepth 100000 in
set_option exponentiation.threshold 3000 in
/-- C10 at `+ 1.5 2.5`: the datagram server answers `1.50 + 2.50 = 4.00`, the
stream server answers as for `+ 1 2`, with `3.00`. -/
theorem C10_decimal_operands_witness :
    cstr (UDP.processData (command '+' (numeral false ['1'] ++ '.' :: ['5'])
        (numeral false ['2'] ++ '.' :: ['5']) [])) = "1.50 + 2.50 = 4.00".toList ∧
    cstr (TCP.processData (command '+' (numeral false ['1'] ++ '.' :: ['5'])
        (numeral false ['2'] ++ '.' :: ['5']) []))
      = cstr (TCP.processData (command '+' (numeral false ['1']) (numeral false ['2']) [])) ∧
    cstr (TCP.processData (command '+' (numeral false ['1']) (numeral false ['2']) []))
      = "3.00".toList :=
  have h := C10_decimal_operands '+' false false ['1'] ['5'] ['2'] ['5'] [] (by decide)
    (by decide) (by decide) (by decide) (by decide) (by decide) (by decide)
  ⟨h.1.trans (by decide), h.2.1, by decide⟩

set_option maxRecDepth 100000 in
set_option exponentiation.threshold 3000 in
/-- C10 fails for the stream server: it answers `+ 1.5 2.5` with `3.00`, not
`4.00`, and `/ 5 0.5` with the division-by-zero text, not `10.00`. -/
theorem C10_counterexample_stream_truncates :
    cstr (TCP.processData (request TCP.BUFFERSIZE "+ 1.5 2.5")) = "3.00".toList ∧
    cstr (TCP.processData (request TCP.BUFFERSIZE "/ 5 0.5"))
      = "|Error| -  Division by Zero".toList := by
  decide

/-! ## The response to a request that does not start with `=` -/

theorem cstr_nil_of_strlen (m : List Char) (h : strlen m = 0) : cstr m = [] :=
  List.length_eq_zero.mp h

theorem invalid_head (m token : List Char) :
    cstr (snprintf m (strlen m) ("Invalid operand format: ".toList ++ token)) = [] ∨
    (cstr (snprintf m (strlen m) ("Invalid operand format: ".toList ++ token))).head?
      = some 'I' := by
  by_cases h0 : strlen m = 0
  · left
    unfold snprintf
    rw [if_pos h0]
    exact cstr_nil_of_strlen m h0
  · rw [cstr_snprintf_any _ _ _ h0]
    by_cases h1 : strlen m - 1 = 0
    · left
      rw [h1]
      rfl
    · right
      obtain ⟨k, hk⟩ := Nat.exists_eq_succ_of_ne_zero h1
      rw [hk]
      have h2 : "Invalid operand format: ".toList ++ token
          = 'I' :: ("nvalid operand format: ".toList ++ token) := rfl
      rw [h2, List.take_succ_cons, cstr_cons 'I' _ (by decide)]
      rfl

theorem tokenLoop_error_head {α : Type} (scan : List Char → Option α) (fuel : Nat) :
    ∀ (done : List Char) (token : Option (List Char)) (rest : List Char) (ops : List α)
      (out : List Char), tokenLoop scan fuel done token rest ops = .error out →
      cstr out = [] ∨ (cstr out).head? = some 'I' := by
  induction fuel with
  | zero =>
    intro done token rest ops out h
    simp [tokenLoop] at h
  | succ fuel ih =>
    intro done token rest ops out h
    cases token with
    | none => simp [tokenLoop] at h
    | some t =>
      simp only [tokenLoop] at h
      cases hs : scan t with
      | none =>
        rw [hs] at h
        simp only [Except.error.injEq] at h
        rw [← h]
        exact invalid_head _ _
      | some v =>
        rw [hs] at h
        exact ih _ _ _ _ out h

theorem fmt2_head_kind (r : Dbl) :
    ∃ c tl, fmt2 r = c :: tl ∧ (c = '-' ∨ c.isDigit = true ∨ c = 'i' ∨ c = 'n') := by
  cases r with
  | finite s k =>
    cases s with
    | true => exact ⟨'-', _, rfl, Or.inl rfl⟩
    | false =>
      simp only [fmt2, Bool.false_eq_true, if_false, List.nil_append]
      generalize roundHalfEven (k * 100) Dbl.one = n
      obtain ⟨h1, h2, _⟩ := toDigits_run (n / 100)
      obtain ⟨d, ds, hds⟩ := List.exists_cons_of_ne_nil h1
      have hd : d.isDigit = true := h2 d (by rw [hds]; exact List.mem_cons_self d ds)
      exact ⟨d, _, by rw [hds]; rfl, Or.inr (Or.inl hd)⟩
  | inf s =>
    cases s with
    | true => exact ⟨'-', _, rfl, Or.inl rfl⟩
    | false => exact ⟨'i', _, rfl, Or.inr (Or.inr (Or.inl rfl))⟩
  | nan s =>
    cases s with
    | true => exact ⟨'-', _, rfl, Or.inl rfl⟩
    | false => exact ⟨'n', _, rfl, Or.inr (Or.inr (Or.inr rfl))⟩

theorem fmt2_head_not (r : Dbl) (x : Char) (h1 : x ≠ '-') (h2 : x.isDigit = false)
    (h3 : x ≠ 'i') (h4 : x ≠ 'n') :
    ∃ c tl, fmt2 r = c :: tl ∧ c ≠ x ∧ c ≠ NUL := by
  obtain ⟨c, tl, hc, hk⟩ := fmt2_head_kind r
  refine ⟨c, tl, hc, ?_, ?_⟩
  · intro h
    subst h
    rcases hk with h | h | h | h
    · exact h1 h
    · rw [h2] at h
      exact absurd h (by decide)
    · exact h3 h
    · exact h4 h
  · rcases hk with h | h | h | h
    · subst h
      decide
    · exact isDigit_ne_nul h
    · subst h
      decide
    · subst h
      decide

theorem head_ne_of_cons {c x : Char} {tl s : List Char} (h : c ≠ x) : c :: tl ≠ x :: s := by
  intro he
  exact h (List.cons.inj he).1

theorem unknown_ne_bye (m : List Char) (n : Nat) (hn : 2 ≤ n) (op : Char) :
    cstr (snprintf m n ("Unknown operator: ".toList ++ [op])) ≠ "Bye".toList := by
  have h0 : n ≠ 0 := by omega
  rw [cstr_snprintf_any _ _ _ h0]
  obtain ⟨k, hk⟩ : ∃ k, n - 1 = k + 1 := ⟨n - 2, by omega⟩
  have h2 : "Unknown operator: ".toList ++ [op]
      = 'U' :: ("nknown operator: ".toList ++ [op]) := rfl
  rw [hk, h2, List.take_succ_cons, cstr_cons 'U' _ (by decide)]
  exact head_ne_of_cons (by decide)

theorem tcp_answer_ne_bye (m : List Char) (op : Char) (o : Outcome) :
    cstr (TCP.answer m op o) ≠ "Bye".toList := by
  cases o with
  | value r =>
    obtain ⟨c, tl, h1, h2, h3⟩ := fmt2_head_not r 'B' (by decide) (by decide) (by decide)
      (by decide)
    simp only [TCP.answer]
    rw [cstr_snprintf_any _ _ _ (by decide), h1]
    have h4 : (c :: tl).take (TCP.BUFFERSIZE - 1) = c :: tl.take 510 := rfl
    rw [h4, cstr_cons c _ h3]
    exact head_ne_of_cons h2
  | divisionByZero =>
    simp only [TCP.answer]
    rw [cstr_strcpy _ _ (by decide)]
    decide
  | unknownOperator => exact unknown_ne_bye m _ (by decide) op

theorem udp_answer_ne_bye (m : List Char) (op : Char) (x y : Dbl) (o : Outcome) :
    cstr (UDP.answer m op x y o) ≠ "Bye".toList := by
  cases o with
  | value r =>
    obtain ⟨c, tl, h1, h2, h3⟩ := fmt2_head_not x 'B' (by decide) (by decide) (by decide)
      (by decide)
    simp only [UDP.answer, sprintf]
    rw [cstr_strcpy_any, h1]
    simp only [List.cons_append]
    rw [cstr_cons c _ h3]
    exact head_ne_of_cons h2
  | divisionByZero =>
    simp only [UDP.answer]
    rw [cstr_strcpy _ _ (by decide)]
    decide
  | unknownOperator => exact unknown_ne_bye m _ (by decide) op

theorem error_ne_bye {out : List Char} (h : cstr out = [] ∨ (cstr out).head? = some 'I') :
    cstr out ≠ "Bye".toList := by
  intro he
  rw [he] at h
  rcases h with h | h
  · exact absurd h (by decide)
  · exact absurd h (by decide)

theorem tcp_not_bye (msg : List Char) (h : msg.headD NUL ≠ '=') :
    cstr (TCP.processData msg) ≠ "Bye".toList := by
  unfold TCP.processData
  simp only [if_neg h]
  split
  · next out heq => exact error_ne_bye (tokenLoop_error_head _ _ _ _ _ _ out heq)
  · next operands m heq =>
    split
    · rw [cstr_strcpy _ _ (by decide)]
      decide
    · next hlen =>
      split
      · exact tcp_answer_ne_bye _ _ _
      · simp at hlen

theorem udp_not_bye (msg : List Char) (h : msg.headD NUL ≠ '=') :
    cstr (UDP.processData msg) ≠ "Bye".toList := by
  unfold UDP.processData
  simp only [if_neg h]
  split
  · next out heq => exact error_ne_bye (tokenLoop_error_head _ _ _ _ _ _ out heq)
  · next operands m heq =>
    split
    · rw [cstr_strcpy _ _ (by decide)]
      decide
    · next hlen =>
      split
      · exact udp_answer_ne_bye _ _ _ _ _
      · next hne =>
        exfalso
        cases operands with
        | nil => simp at hlen
        | cons a t =>
          cases t with
          | nil => simp at hlen
          | cons b t2 => exact hne a b t2 rfl

theorem invalid_text (m token : List Char) (h : 2 ≤ strlen m) :
    (cstr (snprintf m (strlen m) ("Invalid operand format: ".toList ++ token))).head? = some 'I' ∧
    ∃ (k : Nat) (t : List Char), 1 ≤ k ∧
      cstr (snprintf m (strlen m) ("Invalid operand format: ".toList ++ token))
        = cstr (("Invalid operand format: ".toList ++ t).take k) := by
  have h0 : strlen m ≠ 0 := by omega
  rw [cstr_snprintf_any m _ _ h0]
  refine ⟨?_, strlen m - 1, token, by omega, rfl⟩
  obtain ⟨j, hj⟩ : ∃ j, strlen m - 1 = j + 1 := ⟨strlen m - 2, by omega⟩
  rw [hj]
  have : ("Invalid operand format: ".toList ++ token).take (j + 1)
      = 'I' :: ("nvalid operand format: ".toList ++ token).take j := rfl
  rw [this, cstr_cons 'I' _ (by decide)]
  rfl

theorem strlen_two (a b : Char) (r : List Char) (ha : a ≠ NUL) (hb : b ≠ NUL) :
    2 ≤ strlen (a :: b :: r) := by
  unfold strlen
  rw [cstr_cons a _ ha, cstr_cons b _ hb]
  simp

theorem tokenLoop_error_text {α : Type} (scan : List Char → Option α) (a b : Char)
    (ha : a ≠ NUL) (hb : b ≠ NUL) (fuel : Nat) :
    ∀ (d : List Char) (token : Option (List Char)) (rest : List Char) (ops : List α)
      (out : List Char), tokenLoop scan fuel (a :: b :: d) token rest ops = .error out →
      (cstr out).head? = some 'I' ∧
      ∃ (k : Nat) (t : List Char), 1 ≤ k ∧
        cstr out = cstr (("Invalid operand format: ".toList ++ t).take k) := by
  induction fuel with
  | zero =>
    intro d token rest ops out h
    simp [tokenLoop] at h
  | succ fuel ih =>
    intro d token rest ops out h
    cases token with
    | none => simp [tokenLoop] at h
    | some tok =>
      simp only [tokenLoop] at h
      cases hs : scan tok with
      | none =>
        rw [hs] at h
        simp only [Except.error.injEq] at h
        rw [← h]
        exact invalid_text _ _ (strlen_two a b _ ha hb)
      | some v =>
        rw [hs] at h
        simp only at h
        exact ih (d ++ (strtok rest).2.1) _ _ _ out h

/-! ## The echo of the datagram server -/

theorem echo_no_nul (x y r : Dbl) (op : Char) (hop : op ≠ NUL) :
    ∀ c ∈ fmt2 x ++ [' ', op, ' '] ++ fmt2 y ++ [' ', '=', ' '] ++ fmt2 r, c ≠ NUL := by
  intro c hc
  simp only [List.mem_append, List.mem_cons, List.mem_singleton, List.not_mem_nil,
    or_false] at hc
  rcases hc with (((h | h) | h) | h) | h
  · exact fmt2_no_nul x c h
  · rcases h with h | h | h
    · subst h
      decide
    · subst h
      exact hop
    · subst h
      decide
  · exact fmt2_no_nul y c h
  · rcases h with h | h | h <;> subst h <;> decide
  · exact fmt2_no_nul r c h

theorem udp_processData_value (op : Char) (a b rest : List Char) (x y r : Dbl)
    (hop : op ≠ '=') (hn : op ≠ NUL)
    (ha : a ≠ []) (hta : ∀ d ∈ a, tokenByte d = true)
    (hb : b ≠ []) (htb : ∀ d ∈ b, tokenByte d = true)
    (hx : scanLf a = some x) (hy : scanLf b = some y)
    (hr : forLoop UDP.add UDP.sub UDP.mult UDP.division id Dbl.nonzero op x [y] = .value r) :
    cstr (UDP.processData (command op a b rest))
      = fmt2 x ++ [' ', op, ' '] ++ fmt2 y ++ [' ', '=', ' '] ++ fmt2 r := by
  obtain ⟨m, hm⟩ := udp_processData_two op ' ' a b NUL rest x y hop ha hta hb htb
    (by decide) hx hy
  rw [command, hm, hr]
  exact cstr_sprintf m _ (echo_no_nul x y r op hn)

theorem strtok_skip_blank (s : List Char) :
    strtok (' ' :: s) = ((strtok s).1, ' ' :: (strtok s).2.1, (strtok s).2.2) := by
  have h1 : (' ' :: s).takeWhile (fun c => decide (c = ' '))
      = ' ' :: s.takeWhile (fun c => decide (c = ' ')) := by simp [List.takeWhile]
  have h2 : (' ' :: s).dropWhile (fun c => decide (c = ' '))
      = s.dropWhile (fun c => decide (c = ' ')) := by simp [List.dropWhile]
  unfold strtok
  simp only [h1, h2]
  split
  · rfl
  · split <;> rfl

theorem tcp_processData_tokens (msg t1 u1 r1 t2 u2 r2 : List Char) (v1 v2 : Int)
    (hc : msg.headD NUL ≠ '=') (hs1 : strtok (msg.drop 2) = (some t1, u1, r1))
    (h1 : scanD t1 = some v1) (hs2 : strtok r1 = (some t2, u2, r2))
    (h2 : scanD t2 = some v2) :
    ∃ m, TCP.processData msg = TCP.answer m (msg.headD NUL)
      (forLoop TCP.add TCP.sub TCP.mult TCP.division Dbl.ofInt (fun (i : Int) => i != 0)
        (msg.headD NUL) (Dbl.ofInt v1) [v2]) := by
  obtain ⟨m, hm⟩ := tokenLoop_two scanD (msg.take 2 ++ u1) t1 t2 u2 r1 r2 v1 v2 h1 hs2 h2
  refine ⟨m, ?_⟩
  unfold TCP.processData
  simp only [if_neg hc, hs1, TCP.MAXOPERANDS, hm]
  simp

theorem udp_processData_tokens (msg t1 u1 r1 t2 u2 r2 : List Char) (v1 v2 : Dbl)
    (hc : msg.headD NUL ≠ '=') (hs1 : strtok (msg.drop 2) = (some t1, u1, r1))
    (h1 : scanLf t1 = some v1) (hs2 : strtok r1 = (some t2, u2, r2))
    (h2 : scanLf t2 = some v2) :
    ∃ m, UDP.processData msg = UDP.answer m (msg.headD NUL) v1 v2
      (forLoop UDP.add UDP.sub UDP.mult UDP.division id Dbl.nonzero
        (msg.headD NUL) v1 [v2]) := by
  obtain ⟨m, hm⟩ := tokenLoop_two scanLf (msg.take 2 ++ u1) t1 t2 u2 r1 r2 v1 v2 h1 hs2 h2
  refine ⟨m, ?_⟩
  unfold UDP.processData
  simp only [if_neg hc, hs1, UDP.MAXOPERANDS, hm]
  simp

theorem isspace_ne_eq {w : Char} (h : isspace w = true) : w ≠ '=' := by
  intro he
  subst he
  exact absurd h (by decide)

theorem cstr_unknown (m : List Char) (n : Nat) (c : Char) (hn : c ≠ NUL) (hsz : 20 ≤ n) :
    cstr (snprintf m n ("Unknown operator: ".toList ++ [c])) = "Unknown operator: ".toList ++ [c] :=
  cstr_snprintf _ _ _ (unknown_text_no_nul c hn) (by simp; omega)

/-- C12, amended: leading white space is not skipped, the operator is the first
byte of the message.  A message that starts with a white-space character is
never answered `Bye`, whatever follows (also `=`), and a command `op a b` with
two valid operands and one blank in front is answered `Unknown operator:  `,
the blank taken as the operator; a message whose first byte is `=` is answered
`Bye`. -/
theorem C12_leading_whitespace_not_skipped (w op : Char) (a b rest : List Char)
    (hw : isspace w = true)
    (ha : a ≠ []) (hta : ∀ d ∈ a, tokenByte d = true)
    (hb : b ≠ []) (htb : ∀ d ∈ b, tokenByte d = true) :
    cstr (TCP.processData (w :: rest)) ≠ "Bye".toList ∧
    cstr (UDP.processData (w :: rest)) ≠ "Bye".toList ∧
    (scanD a ≠ none → scanD b ≠ none →
      cstr (TCP.processData (' ' :: command op a b rest)) = "Unknown operator:  ".toList) ∧
    (scanLf a ≠ none → scanLf b ≠ none →
      cstr (UDP.processData (' ' :: command op a b rest)) = "Unknown operator:  ".toList) ∧
    cstr (TCP.processData ('=' :: rest)) = "Bye".toList ∧
    cstr (UDP.processData ('=' :: rest)) = "Bye".toList := by
  have hs1 : strtok ((' ' :: command op a b rest).drop 2)
      = (some a, ' ' :: (a ++ [NUL]), b ++ NUL :: rest) := by
    have : (' ' :: command op a b rest).drop 2 = ' ' :: (a ++ ' ' :: (b ++ NUL :: rest)) := rfl
    rw [this, strtok_skip_blank, strtok_blank a _ ha hta]
  have hs2 := strtok_last b rest hb htb
  refine ⟨tcp_not_bye _ (isspace_ne_eq hw), udp_not_bye _ (isspace_ne_eq hw), ?_, ?_,
    tcp_processData_bye rest, udp_processData_bye rest⟩
  · intro hsa hsb
    obtain ⟨v1, hv1⟩ := Option.ne_none_iff_exists'.mp hsa
    obtain ⟨v2, hv2⟩ := Option.ne_none_iff_exists'.mp hsb
    obtain ⟨m, hm⟩ := tcp_processData_tokens _ _ _ _ _ _ _ v1 v2
      (by simp only [List.headD_cons]; decide) hs1 hv1 hs2 hv2
    rw [hm]
    simp only [List.headD_cons]
    rw [forLoop_unknown _ _ _ _ _ _ ' ' _ _ _ (by decide) (by decide) (by decide) (by decide)]
    exact cstr_unknown m _ ' ' (by decide) (by decide)
  · intro hsa hsb
    obtain ⟨v1, hv1⟩ := Option.ne_none_iff_exists'.mp hsa
    obtain ⟨v2, hv2⟩ := Option.ne_none_iff_exists'.mp hsb
    obtain ⟨m, hm⟩ := udp_processData_tokens _ _ _ _ _ _ _ v1 v2
      (by simp only [List.headD_cons]; decide) hs1 hv1 hs2 hv2
    rw [hm]
    simp only [List.headD_cons]
    rw [forLoop_unknown _ _ _ _ _ _ ' ' _ _ _ (by decide) (by decide) (by decide) (by decide)]
    exact cstr_unknown m _ ' ' (by decide) (by decide)

/-- C12 at a blank in front of `= x` and of `+ 3 4`. -/
theorem C12_leading_whitespace_not_skipped_witness :
    cstr (TCP.processData (' ' :: '=' :: ' ' :: 'x' :: NUL :: [])) ≠ "Bye".toList ∧
    cstr (UDP.processData (' ' :: '=' :: ' ' :: 'x' :: NUL :: [])) ≠ "Bye".toList ∧
    cstr (TCP.processData (' ' :: command '+' ['3'] ['4'] [])) = "Unknown operator:  ".toList ∧
    cstr (UDP.processData (' ' :: command '+' ['3'] ['4'] [])) = "Unknown operator:  ".toList :=
  have h := C12_leading_whitespace_not_skipped ' ' '+' ['3'] ['4'] [] (by decide) (by decide)
    (by decide) (by decide) (by decide)
  ⟨(C12_leading_whitespace_not_skipped ' ' '+' ['3'] ['4'] ['=', ' ', 'x', NUL] (by decide)
      (by decide) (by decide) (by decide) (by decide)).1,
    (C12_leading_whitespace_not_skipped ' ' '+' ['3'] ['4'] ['=', ' ', 'x', NUL] (by decide)
      (by decide) (by decide) (by decide) (by decide)).2.1,
    h.2.2.1 (by decide) (by decide), h.2.2.2.1 (by decide) (by decide)⟩

set_option maxRecDepth 100000 in
set_option exponentiation.threshold 3000 in
/-- C12 fails at ` =` and at ` + 3 4`: the first is answered
`Insufficient number of operands`, not `Bye`; the second `Unknown operator:  `,
while `+ 3 4` is answered `7.00`. -/
theorem C12_counterexample_leading_blank :
    cstr (TCP.processData (request TCP.BUFFERSIZE " =")) = "Insufficient number of operands".toList ∧
    cstr (UDP.processData (request UDP.BUFFERSIZE " =")) = "Insufficient number of operands".toList ∧
    cstr (TCP.processData (request TCP.BUFFERSIZE " + 3 4")) = "Unknown operator:  ".toList ∧
    cstr (TCP.processData (request TCP.BUFFERSIZE "+ 3 4")) = "7.00".toList ∧
    cstr (UDP.processData (request UDP.BUFFERSIZE " + 3 4")) = "Unknown operator:  ".toList := by
  decide

theorem tokenLoop_invalid_first {α : Type} (scan : List Char → Option α) (fuel : Nat)
    (d t r : List Char) (ops : List α) (hs : scan t = none) :
    ∃ out, tokenLoop scan (fuel + 1) d (some t) r ops = .error out := by
  simp [tokenLoop, hs]

theorem tokenLoop_invalid_second {α : Type} (scan : List Char → Option α) (fuel : Nat)
    (d t1 t2 u r1 r2 : List Char) (ops : List α) (v : α) (h1 : scan t1 = some v)
    (hs : strtok r1 = (some t2, u, r2)) (h2 : scan t2 = none) :
    ∃ out, tokenLoop scan (fuel + 2) d (some t1) r1 ops = .error out := by
  simp [tokenLoop, h1, hs, h2]

theorem tcp_processData_error (msg out : List Char) (hc : msg.headD NUL ≠ '=')
    (h : tokenLoop scanD 2 (msg.take 2 ++ (strtok (msg.drop 2)).2.1) (strtok (msg.drop 2)).1
      (strtok (msg.drop 2)).2.2 [] = .error out) :
    cstr (TCP.processData msg) = [] ∨ (cstr (TCP.processData msg)).head? = some 'I' := by
  have h2 : TCP.processData msg = out := by
    unfold TCP.processData
    simp only [if_neg hc, TCP.MAXOPERANDS, h]
  rw [h2]
  exact tokenLoop_error_head _ _ _ _ _ _ out h

theorem udp_processData_error (msg out : List Char) (hc : msg.headD NUL ≠ '=')
    (h : tokenLoop scanLf 2 (msg.take 2 ++ (strtok (msg.drop 2)).2.1) (strtok (msg.drop 2)).1
      (strtok (msg.drop 2)).2.2 [] = .error out) :
    cstr (UDP.processData msg) = [] ∨ (cstr (UDP.processData msg)).head? = some 'I' := by
  have h2 : UDP.processData msg = out := by
    unfold UDP.processData
    simp only [if_neg hc, UDP.MAXOPERANDS, h]
  rw [h2]
  exact tokenLoop_error_head _ _ _ _ _ _ out h

theorem tcp_processData_error_text (a b : Char) (s out : List Char) (ha : a ≠ '=')
    (han : a ≠ NUL) (hbn : b ≠ NUL)
    (h : tokenLoop scanD 2 (a :: b :: (strtok s).2.1) (strtok s).1 (strtok s).2.2 []
      = .error out) :
    (cstr (TCP.processData (a :: b :: s))).head? = some 'I' ∧
    ∃ (k : Nat) (tok : List Char), 1 ≤ k ∧
      cstr (TCP.processData (a :: b :: s))
        = cstr (("Invalid operand format: ".toList ++ tok).take k) := by
  have h2 : TCP.processData (a :: b :: s) = out := by
    unfold TCP.processData
    simp only [List.headD_cons, if_neg ha, List.drop_succ_cons, List.drop_zero,
      TCP.MAXOPERANDS, List.take_succ_cons, List.take_zero, List.cons_append, List.nil_append, h]
  rw [h2]
  exact tokenLoop_error_text scanD a b han hbn _ _ _ _ _ out h

theorem udp_processData_error_text (a b : Char) (s out : List Char) (ha : a ≠ '=')
    (han : a ≠ NUL) (hbn : b ≠ NUL)
    (h : tokenLoop scanLf 2 (a :: b :: (strtok s).2.1) (strtok s).1 (strtok s).2.2 []
      = .error out) :
    (cstr (UDP.processData (a :: b :: s))).head? = some 'I' ∧
    ∃ (k : Nat) (tok : List Char), 1 ≤ k ∧
      cstr (UDP.processData (a :: b :: s))
        = cstr (("Invalid operand format: ".toList ++ tok).take k) := by
  have h2 : UDP.processData (a :: b :: s) = out := by
    unfold UDP.processData
    simp only [List.headD_cons, if_neg ha, List.drop_succ_cons, List.drop_zero,
      UDP.MAXOPERANDS, List.take_succ_cons, List.take_zero, List.cons_append, List.nil_append, h]
  rw [h2]
  exact tokenLoop_error_text scanLf a b han hbn _ _ _ _ _ out h

theorem error_ne_unknown {s : List Char} (c : Char)
    (h : s = [] ∨ s.head? = some 'I') : s ≠ "Unknown operator: ".toList ++ [c] := by
  intro he
  have h2 : "Unknown operator: ".toList ++ [c] = 'U' :: ("nknown operator: ".toList ++ [c]) :=
    rfl
  rw [he, h2] at h
  rcases h with h | h
  · exact absurd h (by simp)
  · simp only [List.head?_cons, Option.some.injEq] at h
    exact absurd h (by decide)

/-- C13, amended: the operands are checked before the operator.  For a first
character `c` other than `+ - * / =` the unknown-operator text is the response
when the first two operand tokens scan as numbers; a command with a single
valid operand is answered `Insufficient number of operands`, and a command
whose first or second operand token does not scan gets an operand error, not
the unknown-operator text: the response then consists of the first `k ≥ 1`
characters of an `Invalid operand format: ` text. -/
theorem C13_operands_before_operator (c : Char) (a b t rest : List Char)
    (h1 : c ≠ '+') (h2 : c ≠ '-') (h3 : c ≠ '*') (h4 : c ≠ '/') (h5 : c ≠ '=') (hn : c ≠ NUL)
    (ha : a ≠ []) (hta : ∀ d ∈ a, tokenByte d = true)
    (hb : b ≠ []) (htb : ∀ d ∈ b, tokenByte d = true)
    (ht : t ≠ []) (htt : ∀ d ∈ t, tokenByte d = true) :
    (scanD a ≠ none →
      (scanD b ≠ none → cstr (TCP.processData (command c a b rest))
        = "Unknown operator: ".toList ++ [c]) ∧
      cstr (TCP.processData (c :: ' ' :: (a ++ NUL :: rest)))
        = "Insufficient number of operands".toList ∧
      (scanD t = none → cstr (TCP.processData (command c a t rest))
        ≠ "Unknown operator: ".toList ++ [c])) ∧
    (scanD t = none → cstr (TCP.processData (command c t b rest))
      ≠ "Unknown operator: ".toList ++ [c]) ∧
    (scanLf a ≠ none →
      (scanLf b ≠ none → cstr (UDP.processData (command c a b rest))
        = "Unknown operator: ".toList ++ [c]) ∧
      cstr (UDP.processData (c :: ' ' :: (a ++ NUL :: rest)))
        = "Insufficient number of operands".toList ∧
      (scanLf t = none → cstr (UDP.processData (command c a t rest))
        ≠ "Unknown operator: ".toList ++ [c])) ∧
    (scanLf t = none → cstr (UDP.processData (command c t b rest))
      ≠ "Unknown operator: ".toList ++ [c]) ∧
    (scanD t = none → ∃ (k : Nat) (tok : List Char), 1 ≤ k ∧
      cstr (TCP.processData (command c t b rest))
        = cstr (("Invalid operand format: ".toList ++ tok).take k)) ∧
    (scanD a ≠ none → scanD t = none → ∃ (k : Nat) (tok : List Char), 1 ≤ k ∧
      cstr (TCP.processData (command c a t rest))
        = cstr (("Invalid operand format: ".toList ++ tok).take k)) ∧
    (scanLf t = none → ∃ (k : Nat) (tok : List Char), 1 ≤ k ∧
      cstr (UDP.processData (command c t b rest))
        = cstr (("Invalid operand format: ".toList ++ tok).take k)) ∧
    (scanLf a ≠ none → scanLf t = none → ∃ (k : Nat) (tok : List Char), 1 ≤ k ∧
      cstr (UDP.processData (command c a t rest))
        = cstr (("Invalid operand format: ".toList ++ tok).take k)) := by
  have hf1 : strtok (t ++ ' ' :: (b ++ NUL :: rest)) = (some t, t ++ [NUL], b ++ NUL :: rest) :=
    strtok_blank t _ ht htt
  have hf2 : strtok (a ++ ' ' :: (t ++ NUL :: rest)) = (some a, a ++ [NUL], t ++ NUL :: rest) :=
    strtok_blank a _ ha hta
  have hsp : (' ' : Char) ≠ NUL := by decide
  refine ⟨?_, ?_, ?_, ?_, ?_, ?_, ?_, ?_⟩
  · intro hsa
    obtain ⟨v1, hv1⟩ := Option.ne_none_iff_exists'.mp hsa
    refine ⟨?_, tcp_processData_single c ' ' a rest h5 ha hta hsa, ?_⟩
    · intro hsb
      obtain ⟨v2, hv2⟩ := Option.ne_none_iff_exists'.mp hsb
      obtain ⟨m, hm⟩ := tcp_processData_two c ' ' a b NUL rest v1 v2 h5 ha hta hb htb
        (by decide) hv1 hv2
      rw [command, hm, forLoop_unknown _ _ _ _ _ _ c _ _ _ h1 h2 h3 h4]
      exact cstr_unknown m _ c hn (by decide)
    · intro hst
      have hs1 : strtok ((command c a t rest).drop 2) = (some a, a ++ [NUL], t ++ NUL :: rest) :=
        strtok_blank a _ ha hta
      obtain ⟨out, ho⟩ := tokenLoop_invalid_second scanD 0
        ((command c a t rest).take 2 ++ (a ++ [NUL])) a t t (t ++ NUL :: rest) (NUL :: rest) []
        v1 hv1 (strtok_last t rest ht htt) hst
      exact error_ne_unknown c (tcp_processData_error _ out h5 (by rw [hs1]; exact ho))
  · intro hst
    have hs1 : strtok ((command c t b rest).drop 2) = (some t, t ++ [NUL], b ++ NUL :: rest) :=
      strtok_blank t _ ht htt
    obtain ⟨out, ho⟩ := tokenLoop_invalid_first scanD 1
      ((command c t b rest).take 2 ++ (t ++ [NUL])) t (b ++ NUL :: rest) [] hst
    exact error_ne_unknown c (tcp_processData_error _ out h5 (by rw [hs1]; exact ho))
  · intro hsa
    obtain ⟨v1, hv1⟩ := Option.ne_none_iff_exists'.mp hsa
    refine ⟨?_, udp_processData_single c ' ' a rest h5 ha hta hsa, ?_⟩
    · intro hsb
      obtain ⟨v2, hv2⟩ := Option.ne_none_iff_exists'.mp hsb
      obtain ⟨m, hm⟩ := udp_processData_two c ' ' a b NUL rest v1 v2 h5 ha hta hb htb
        (by decide) hv1 hv2
      rw [command, hm, forLoop_unknown _ _ _ _ _ _ c _ _ _ h1 h2 h3 h4]
      exact cstr_unknown m _ c hn (by decide)
    · intro hst
      have hs1 : strtok ((command c a t rest).drop 2) = (some a, a ++ [NUL], t ++ NUL :: rest) :=
        strtok_blank a _ ha hta
      obtain ⟨out, ho⟩ := tokenLoop_invalid_second scanLf 0
        ((command c a t rest).take 2 ++ (a ++ [NUL])) a t t (t ++ NUL :: rest) (NUL :: rest) []
        v1 hv1 (strtok_last t rest ht htt) hst
      exact error_ne_unknown c (udp_processData_error _ out h5 (by rw [hs1]; exact ho))
  · intro hst
    have hs1 : strtok ((command c t b rest).drop 2) = (some t, t ++ [NUL], b ++ NUL :: rest) :=
      strtok_blank t _ ht htt
    obtain ⟨out, ho⟩ := tokenLoop_invalid_first scanLf 1
      ((command c t b rest).take 2 ++ (t ++ [NUL])) t (b ++ NUL :: rest) [] hst
    exact error_ne_unknown c (udp_processData_error _ out h5 (by rw [hs1]; exact ho))
  · intro hst
    obtain ⟨out, ho⟩ := tokenLoop_invalid_first scanD 1 (c :: ' ' :: (t ++ [NUL])) t
      (b ++ NUL :: rest) [] hst
    exact (tcp_processData_error_text c ' ' _ out h5 hn hsp (by rw [hf1]; exact ho)).2
  · intro hsa hst
    obtain ⟨v1, hv1⟩ := Option.ne_none_iff_exists'.mp hsa
    obtain ⟨out, ho⟩ := tokenLoop_invalid_second scanD 0 (c :: ' ' :: (a ++ [NUL])) a t t
      (t ++ NUL :: rest) (NUL :: rest) [] v1 hv1 (strtok_last t rest ht htt) hst
    exact (tcp_processData_error_text c ' ' _ out h5 hn hsp (by rw [hf2]; exact ho)).2
  · intro hst
    obtain ⟨out, ho⟩ := tokenLoop_invalid_first scanLf 1 (c :: ' ' :: (t ++ [NUL])) t
      (b ++ NUL :: rest) [] hst
    exact (udp_processData_error_text c ' ' _ out h5 hn hsp (by rw [hf1]; exact ho)).2
  · intro hsa hst
    obtain ⟨v1, hv1⟩ := Option.ne_none_iff_exists'.mp hsa
    obtain ⟨out, ho⟩ := tokenLoop_invalid_second scanLf 0 (c :: ' ' :: (a ++ [NUL])) a t t
      (t ++ NUL :: rest) (NUL :: rest) [] v1 hv1 (strtok_last t rest ht htt) hst
    exact (udp_processData_error_text c ' ' _ out h5 hn hsp (by rw [hf2]; exact ho)).2

/-- C13 at `& 3 4`, `& 3`, `& 3 x` and `& x 4`. -/
theorem C13_operands_before_operator_witness :
    (cstr (TCP.processData (command '&' ['3'] ['4'] [])) = "Unknown operator: ".toList ++ ['&'] ∧
      cstr (TCP.processData ('&' :: ' ' :: (['3'] ++ NUL :: [])))
        = "Insufficient number of operands".toList ∧
      cstr (TCP.processData (command '&' ['3'] ['x'] []))
        ≠ "Unknown operator: ".toList ++ ['&']) ∧
    cstr (TCP.processData (command '&' ['x'] ['4'] [])) ≠ "Unknown operator: ".toList ++ ['&'] ∧
    (cstr (UDP.processData (command '&' ['3'] ['4'] [])) = "Unknown operator: ".toList ++ ['&'] ∧
      cstr (UDP.processData ('&' :: ' ' :: (['3'] ++ NUL :: [])))
        = "Insufficient number of operands".toList ∧
      cstr (UDP.processData (command '&' ['3'] ['x'] []))
        ≠ "Unknown operator: ".toList ++ ['&']) ∧
    cstr (UDP.processData (command '&' ['x'] ['4'] [])) ≠ "Unknown operator: ".toList ++ ['&'] :=
  have h := C13_operands_before_operator '&' ['3'] ['4'] ['x'] [] (by decide) (by decide)
    (by decide) (by decide) (by decide) (by decide) (by decide) (by decide) (by decide)
    (by decide) (by decide) (by decide)
  ⟨⟨(h.1 (by decide)).1 (by decide), (h.1 (by decide)).2.1, (h.1 (by decide)).2.2 (by decide)⟩,
    h.2.1 (by decide),
    ⟨(h.2.2.1 (by decide)).1 (by decide), (h.2.2.1 (by decide)).2.1,
      (h.2.2.1 (by decide)).2.2 (by decide)⟩,
    h.2.2.2.1 (by decide)⟩

set_option maxRecDepth 100000 in
/-- C13 fails at `& 3` and at `& x 4`: both servers answer the first with
`Insufficient number of operands` and the second with `In`, the start of the
invalid-operand text, not with `Unknown operator: &`. -/
theorem C13_counterexample_operand_errors_first :
    cstr (TCP.processData (request TCP.BUFFERSIZE "& 3"))
      = "Insufficient number of operands".toList ∧
    cstr (TCP.processData (request TCP.BUFFERSIZE "& x 4")) = "In".toList ∧
    cstr (UDP.processData (request UDP.BUFFERSIZE "& 3"))
      = "Insufficient number of operands".toList ∧
    cstr (UDP.processData (request UDP.BUFFERSIZE "& x 4")) = "In".toList := by
  decide

theorem replicate_nul_cases (n : Nat) :
    List.replicate n NUL = [] ∨ List.replicate n NUL = [NUL] ∨
    List.replicate n NUL = [NUL, NUL] ∨
    ∃ r, List.replicate n NUL = NUL :: NUL :: NUL :: r := by
  match n with
  | 0 => exact Or.inl rfl
  | 1 => exact Or.inr (Or.inl rfl)
  | 2 => exact Or.inr (Or.inr (Or.inl rfl))
  | k + 3 => exact Or.inr (Or.inr (Or.inr ⟨List.replicate k NUL, rfl⟩))

/-- C14, amended: both servers answer the empty message in a zero-filled buffer
(of any size) with `Insufficient number of operands`; no operand token is found
and no invalid-operand response is written. -/
theorem C14_empty_message (n : Nat) :
    cstr (TCP.processData (List.replicate n NUL)) = "Insufficient number of operands".toList ∧
    cstr (UDP.processData (List.replicate n NUL)) = "Insufficient number of operands".toList := by
  rcases replicate_nul_cases n with h | h | h | ⟨r, h⟩
  · rw [h]
    decide
  · rw [h]
    decide
  · rw [h]
    decide
  · rw [h]
    exact ⟨tcp_processData_none NUL NUL r (by decide), udp_processData_none NUL NUL r (by decide)⟩

set_option maxRecDepth 100000 in
/-- C14 fails: the empty message in a zero-filled buffer is answered
`Insufficient number of operands` by both servers, which is not the
invalid-operand text for an empty token. -/
theorem C14_counterexample_empty_message :
    cstr (TCP.processData (request TCP.BUFFERSIZE ""))
      = "Insufficient number of operands".toList ∧
    cstr (UDP.processData (request UDP.BUFFERSIZE ""))
      = "Insufficient number of operands".toList ∧
    "Insufficient number of operands".toList ≠ "Invalid operand format: ".toList := by
  decide

/-! ## The request loop of the stream server -/

theorem recvInto_cons (size : Nat) (msg : List Char) (c : Char) (more : List Char) :
    recvInto (size + 1) msg (c :: more)
      = c :: (more.take size ++ msg.drop ((more.take size).length + 1)) := by
  simp [recvInto, List.take_succ_cons]

theorem take_cons_length_pos (size : Nat) (c : Char) (more : List Char) :
    ¬ ((c :: more).take (size + 1)).length ≤ 0 := by
  simp [List.take_succ_cons]

theorem tcp_main_head (msg : List Char) (conns : List (Option (List TCP.Exchange))) :
    (TCP.main msg conns).head? = some .accept := by
  cases conns with
  | nil => rfl
  | cons c cs =>
    cases c with
    | none => rfl
    | some es =>
      simp only [TCP.main]
      split <;> rfl

theorem tcp_connection_head (msg : List Char) (es : List TCP.Exchange) :
    (TCP.connection msg es).1.head? = some .recv := by
  cases es with
  | nil => rfl
  | cons e es =>
    simp only [TCP.connection]
    split
    · rfl
    · split
      · rfl
      · split
        · rfl
        · split <;> rfl

theorem tcp_connection_bye (msg more : List Char) (sent : Int) (later : List TCP.Exchange) :
    ∃ bytes m, cstr bytes = "Bye".toList ∧
      TCP.connection msg (⟨.bytes ('=' :: more), sent⟩ :: later)
        = (.recv :: .send bytes :: (if sent = 512 then [] else [.close]), some m) := by
  have hb : TCP.BUFFERSIZE = 511 + 1 := rfl
  have hr := recvInto_cons 511 msg '=' more
  have h1 := tcp_processData_bye (more.take 511 ++ msg.drop ((more.take 511).length + 1))
  have h2 : cstr ((TCP.processData (recvInto TCP.BUFFERSIZE msg ('=' :: more))).take
      TCP.BUFFERSIZE) = "Bye".toList := by
    rw [hb, hr]
    unfold TCP.processData
    simp only [List.headD_cons, if_true]
    rfl
  refine ⟨_, TCP.processData (recvInto TCP.BUFFERSIZE msg ('=' :: more)), h2, ?_⟩
  simp only [TCP.connection]
  rw [if_neg (by rw [hb]; exact take_cons_length_pos 511 '=' more)]
  by_cases hs : sent = 512
  · subst hs
    have h3 : cstr (TCP.processData (recvInto TCP.BUFFERSIZE msg ('=' :: more)))
        = "Bye".toList := by
      rw [hb, hr]
      exact h1
    simp only [TCP.BUFFERSIZE, Nat.cast_ofNat, ne_eq, not_true_eq_false, if_false, if_true]
    exact if_pos h3
  · have hs2 : sent ≠ (TCP.BUFFERSIZE : Int) := by
      simpa [TCP.BUFFERSIZE] using hs
    rw [if_pos hs2, if_neg hs]

/-- C15: in any state of the request loop, when `recv` delivers a request whose
first byte is `=`, the stream server calls `send` with a buffer holding `Bye`,
makes no further `recv` on the connection whatever the peer would send, closes
the connection and goes back to `accept`. -/
theorem C15_terminate_ends_session (msg more : List Char) (sent : Int)
    (later : List TCP.Exchange) (conns : List (Option (List TCP.Exchange))) :
    ∃ bytes m, cstr bytes = "Bye".toList ∧
      TCP.connection msg (⟨.bytes ('=' :: more), sent⟩ :: later)
        = (.recv :: .send bytes :: (if sent = 512 then [] else [.close]), some m) ∧
      TCP.main msg (some (⟨.bytes ('=' :: more), sent⟩ :: later) :: conns)
        = .accept :: .welcome :: .recv :: .send bytes ::
          ((if sent = 512 then [] else [.close]) ++ .close :: TCP.main m conns) ∧
      (TCP.main m conns).head? = some .accept := by
  obtain ⟨bytes, m, h1, h2⟩ := tcp_connection_bye msg more sent later
  refine ⟨bytes, m, h1, h2, ?_, tcp_main_head m conns⟩
  simp only [TCP.main, h2]
  rfl

theorem tcp_connection_continue (msg : List Char) (c : Char) (more : List Char)
    (later : List TCP.Exchange) (hc : c ≠ '=') :
    TCP.connection msg (⟨.bytes (c :: more), 512⟩ :: later)
      = (.recv :: .send ((TCP.processData (recvInto TCP.BUFFERSIZE msg (c :: more))).take
            TCP.BUFFERSIZE) ::
          (TCP.connection (TCP.processData (recvInto TCP.BUFFERSIZE msg (c :: more))) later).1,
        (TCP.connection (TCP.processData (recvInto TCP.BUFFERSIZE msg (c :: more))) later).2) := by
  have hb : TCP.BUFFERSIZE = 511 + 1 := rfl
  have hnb : cstr (TCP.processData (recvInto TCP.BUFFERSIZE msg (c :: more))) ≠ "Bye".toList := by
    apply tcp_not_bye
    rw [hb, recvInto_cons]
    exact hc
  simp only [TCP.connection]
  rw [if_neg (by rw [hb]; exact take_cons_length_pos 511 c more)]
  have hs : ¬ ((512 : Int) ≠ (TCP.BUFFERSIZE : Int)) := by
    simp [TCP.BUFFERSIZE]
  rw [if_neg hs, if_neg hnb]

/-! ## The loop of the datagram server -/

theorem udp_main_head (ds : List UDP.Datagram) : (UDP.main ds).head? = some .recvfrom := by
  cases ds with
  | nil => rfl
  | cons d ds =>
    simp only [UDP.main]
    split
    · rfl
    · split
      · rfl
      · split
        · rfl
        · split <;> rfl

theorem udp_main_answered (d : UDP.Datagram) (ds : List UDP.Datagram) (c : Char)
    (more : List Char) (hr : d.received = .bytes (c :: more)) (hh : d.resolved = true) :
    UDP.main (d :: ds) = .recvfrom ::
      .sendto ((UDP.processData (recvInto UDP.BUFFERSIZE (List.replicate UDP.BUFFERSIZE NUL)
        (c :: more))).take UDP.BUFFERSIZE) d.peer ::
      (if d.sent = 256 then UDP.main ds else [.close, .exit 0]) := by
  have hb : UDP.BUFFERSIZE = 255 + 1 := rfl
  simp only [UDP.main, hr]
  rw [if_neg (by rw [hb]; exact take_cons_length_pos 255 c more)]
  have hh2 : ¬ (d.resolved = false) := by simp [hh]
  rw [if_neg hh2]
  by_cases hs : d.sent = 256
  · have hs2 : ¬ (d.sent ≠ (UDP.BUFFERSIZE : Int)) := by
      simp [UDP.BUFFERSIZE, hs]
    rw [if_neg hs2, if_pos hs]
  · have hs2 : d.sent ≠ (UDP.BUFFERSIZE : Int) := by
      simpa [UDP.BUFFERSIZE] using hs
    rw [if_pos hs2, if_neg hs]

/-- C16: a request that is not the terminate command (as every request that
gets an error response: its first byte is not `=`) and whose response is sent
in full leaves the stream session open, the next call is a `recv` on the same
connection; the datagram server goes on with the next `recvfrom`. -/
theorem C16_errors_recovered (msg : List Char) (c : Char) (more : List Char)
    (later : List TCP.Exchange) (d : UDP.Datagram) (ds : List UDP.Datagram)
    (hc : c ≠ '=') (hr : d.received = .bytes (c :: more)) (hh : d.resolved = true)
    (hs : d.sent = 256) :
    (∃ m, TCP.connection msg (⟨.bytes (c :: more), 512⟩ :: later)
        = (.recv :: .send (m.take TCP.BUFFERSIZE) :: (TCP.connection m later).1,
          (TCP.connection m later).2) ∧
      cstr m ≠ "Bye".toList ∧
      (TCP.connection m later).1.head? = some .recv) ∧
    (∃ bytes, UDP.main (d :: ds) = .recvfrom :: .sendto bytes d.peer :: UDP.main ds ∧
      (UDP.main ds).head? = some .recvfrom) := by
  constructor
  · refine ⟨_, tcp_connection_continue msg c more later hc, ?_, tcp_connection_head _ _⟩
    have hb : TCP.BUFFERSIZE = 511 + 1 := rfl
    apply tcp_not_bye
    rw [hb, recvInto_cons]
    exact hc
  · have h := udp_main_answered d ds c more hr hh
    rw [if_pos hs] at h
    exact ⟨_, h, udp_main_head ds⟩

set_option maxRecDepth 100000 in
/-- C16 at the request `+ x`, answered in full: the stream server sends its
answer and is back in `recv`; the datagram server sends its answer to the peer
and is back in `recvfrom`. -/
theorem C16_errors_recovered_witness :
    (∃ m, TCP.connection [] (⟨.bytes ('+' :: [' ', 'x']), 512⟩ :: [])
        = (.recv :: .send (m.take TCP.BUFFERSIZE) :: (TCP.connection m []).1,
          (TCP.connection m []).2) ∧
      cstr m ≠ "Bye".toList ∧
      (TCP.connection m []).1.head? = some .recv) ∧
    (∃ bytes, UDP.main (⟨.bytes ('+' :: [' ', 'x']), ⟨1, 2⟩, true, 256⟩ :: [])
        = .recvfrom :: .sendto bytes (⟨1, 2⟩ : UDP.Addr) :: UDP.main [] ∧
      (UDP.main []).head? = some .recvfrom) :=
  C16_errors_recovered [] '+' [' ', 'x'] [] ⟨.bytes ('+' :: [' ', 'x']), ⟨1, 2⟩, true, 256⟩ []
    (by decide) rfl rfl rfl

/-! ## Framing of requests, reply address, short writes, the client's send -/

theorem tcp_connection_processed (msg : List Char) (c : Char) (more : List Char) (sent : Int)
    (later : List TCP.Exchange) :
    ∃ tl, (TCP.connection msg (⟨.bytes (c :: more), sent⟩ :: later)).1
      = .recv :: .send ((TCP.processData (recvInto TCP.BUFFERSIZE msg (c :: more))).take
          TCP.BUFFERSIZE) :: tl := by
  have hb : TCP.BUFFERSIZE = 511 + 1 := rfl
  simp only [TCP.connection]
  rw [if_neg (by rw [hb]; exact take_cons_length_pos 511 c more)]
  split
  · exact ⟨_, rfl⟩
  · split
    · exact ⟨_, rfl⟩
    · exact ⟨_, rfl⟩

/-- C17, amended: the request loop of the stream server processes and answers
a request whenever `recv` has delivered at least one byte, whatever their
number; only a `recv` that delivers no byte (the peer has closed) or fails
closes the session without processing or answering anything. -/
theorem C17_any_received_bytes_processed (msg : List Char) (c : Char) (more : List Char)
    (sent : Int) (later : List TCP.Exchange) :
    TCP.connection msg (⟨.error, sent⟩ :: later) = ([.recv, .close], some msg) ∧
    TCP.connection msg (⟨.bytes [], sent⟩ :: later) = ([.recv, .close], some msg) ∧
    ∃ tl, (TCP.connection msg (⟨.bytes (c :: more), sent⟩ :: later)).1
      = .recv :: .send ((TCP.processData (recvInto TCP.BUFFERSIZE msg (c :: more))).take
          TCP.BUFFERSIZE) :: tl :=
  ⟨rfl, rfl, tcp_connection_processed msg c more sent later⟩

set_option maxRecDepth 100000 in
set_option exponentiation.threshold 3000 in
/-- C17 fails for a `recv` that delivers the six bytes of `+ 3 4` and its
terminator: the request is processed, `7.00` is sent and the session goes on
with the next `recv`. -/
theorem C17_counterexample_partial_read :
    TCP.connection (List.replicate TCP.BUFFERSIZE NUL)
        [⟨.bytes ['+', ' ', '3', ' ', '4', NUL], 512⟩]
      = ([.recv, .send (request TCP.BUFFERSIZE "7.00"), .recv], none) := by
  decide

theorem udp_sendto_peer (ds : List UDP.Datagram) :
    ∀ (bytes : List Char) (dest : UDP.Addr), UDP.Action.sendto bytes dest ∈ UDP.main ds →
      ∃ d ∈ ds, d.peer = dest := by
  induction ds with
  | nil =>
    intro bytes dest h
    simp [UDP.main] at h
  | cons d ds ih =>
    intro bytes dest h
    have later : UDP.Action.sendto bytes dest ∈ UDP.main ds → ∃ e ∈ d :: ds, e.peer = dest := by
      intro h2
      obtain ⟨e, he, hp⟩ := ih bytes dest h2
      exact ⟨e, List.mem_cons_of_mem d he, hp⟩
    simp only [UDP.main] at h
    split at h
    · rcases List.mem_cons.mp h with h1 | h1
      · cases h1
      · exact later h1
    · split at h
      · rcases List.mem_cons.mp h with h1 | h1
        · cases h1
        · exact later h1
      · split at h
        · rcases List.mem_cons.mp h with h1 | h1
          · cases h1
          · rcases List.mem_cons.mp h1 with h2 | h2
            · cases h2
            · rcases List.mem_cons.mp h2 with h3 | h3
              · cases h3
              · cases h3
        · split at h
          · rcases List.mem_cons.mp h with h1 | h1
            · cases h1
            · rcases List.mem_cons.mp h1 with h2 | h2
              · have hp : dest = d.peer := (UDP.Action.sendto.inj h2).2
                exact ⟨d, List.mem_cons_self d ds, hp.symm⟩
              · rcases List.mem_cons.mp h2 with h3 | h3
                · cases h3
                · rcases List.mem_cons.mp h3 with h4 | h4
                  · cases h4
                  · cases h4
          · rcases List.mem_cons.mp h with h1 | h1
            · cases h1
            · rcases List.mem_cons.mp h1 with h2 | h2
              · have hp : dest = d.peer := (UDP.Action.sendto.inj h2).2
                exact ⟨d, List.mem_cons_self d ds, hp.symm⟩
              · exact later h2

theorem udp_main_unresolved (d : UDP.Datagram) (ds : List UDP.Datagram) (c : Char)
    (more : List Char) (hr : d.received = .bytes (c :: more)) (hh : d.resolved = false) :
    UDP.main (d :: ds) = [.recvfrom, .close, .exit (-1)] := by
  have hb : UDP.BUFFERSIZE = 255 + 1 := rfl
  have hlen : ¬ ((c :: more).take UDP.BUFFERSIZE).length ≤ 0 := by
    rw [hb, List.take_succ_cons]
    simp
  simp only [UDP.main, hr, if_neg hlen, hh, if_true]

/-- C19 fails for a non-empty datagram whose source host `gethostbyaddr` does
not find: the server makes no `sendto` at all, it closes its socket and `main`
returns -1; the datagram behind it is never received. -/
theorem C19_counterexample_unresolved_peer :
    UDP.main [⟨.bytes "+ 3 4".toList, ⟨1, 2⟩, false, 256⟩,
        ⟨.bytes "+ 1 1".toList, ⟨1, 2⟩, true, 256⟩]
      = [.recvfrom, .close, .exit (-1)] := by
  decide

/-- C19, amended: for a non-empty datagram whose source host `gethostbyaddr`
finds, the call that follows the `recvfrom` is the `sendto` of the processed
buffer to the address that `recvfrom` stored, whatever the request is; when the
host is not found no response is sent, the socket is closed and `main` returns
-1; and no `sendto` of the loop goes to an address other than one stored by a
`recvfrom`. -/
theorem C19_reply_address (d : UDP.Datagram) (ds : List UDP.Datagram) (c : Char)
    (more : List Char) (hr : d.received = .bytes (c :: more)) :
    (d.resolved = true → ∃ tl, UDP.main (d :: ds) = .recvfrom ::
      .sendto ((UDP.processData (recvInto UDP.BUFFERSIZE (List.replicate UDP.BUFFERSIZE NUL)
        (c :: more))).take UDP.BUFFERSIZE) d.peer :: tl) ∧
    (d.resolved = false → UDP.main (d :: ds) = [.recvfrom, .close, .exit (-1)]) ∧
    (∀ (script : List UDP.Datagram) (bytes : List Char) (dest : UDP.Addr),
      UDP.Action.sendto bytes dest ∈ UDP.main script → ∃ e ∈ script, e.peer = dest) :=
  ⟨fun hh => ⟨_, udp_main_answered d ds c more hr hh⟩,
    fun hh => udp_main_unresolved d ds c more hr hh, udp_sendto_peer⟩

set_option maxRecDepth 100000 in
set_option exponentiation.threshold 3000 in
/-- C19 at the datagram `+ 3 4` from the peer `(1, 2)`. -/
theorem C19_reply_address_witness :
    (∃ tl, UDP.main (⟨.bytes ('+' :: [' ', '3', ' ', '4']), ⟨1, 2⟩, true, 256⟩ :: [])
      = .recvfrom ::
        .sendto ((UDP.processData (recvInto UDP.BUFFERSIZE (List.replicate UDP.BUFFERSIZE NUL)
          ('+' :: [' ', '3', ' ', '4']))).take UDP.BUFFERSIZE) (⟨1, 2⟩ : UDP.Addr) :: tl) ∧
    cstr (UDP.processData (recvInto UDP.BUFFERSIZE (List.replicate UDP.BUFFERSIZE NUL)
      ('+' :: [' ', '3', ' ', '4']))) = "3.00 + 4.00 = 7.00".toList :=
  ⟨(C19_reply_address ⟨.bytes ('+' :: [' ', '3', ' ', '4']), ⟨1, 2⟩, true, 256⟩ [] '+'
      [' ', '3', ' ', '4'] rfl).1 rfl, by decide⟩

/-- C20, amended: when `sendto` returns a byte count other than the size of
the buffer, the datagram server closes its socket and `main` returns `0`: the
loop ends and no further datagram is received. -/
theorem C20_short_write_ends_server (d : UDP.Datagram) (ds : List UDP.Datagram) (c : Char)
    (more : List Char) (hr : d.received = .bytes (c :: more)) (hh : d.resolved = true)
    (hs : d.sent ≠ 256) :
    UDP.main (d :: ds) = [.recvfrom,
      .sendto ((UDP.processData (recvInto UDP.BUFFERSIZE (List.replicate UDP.BUFFERSIZE NUL)
        (c :: more))).take UDP.BUFFERSIZE) d.peer, .close, .exit 0] := by
  have h := udp_main_answered d ds c more hr hh
  rw [if_neg hs] at h
  exact h

/-- C20 at a `sendto` that returns 100 for the datagram `+ 3 4`, with a second
datagram waiting. -/
theorem C20_short_write_ends_server_witness :
    UDP.main (⟨.bytes ('+' :: [' ', '3', ' ', '4']), ⟨1, 2⟩, true, 100⟩ ::
        [⟨.bytes ['+', ' ', '1', ' ', '2'], ⟨1, 2⟩, true, 256⟩])
      = [.recvfrom,
        .sendto ((UDP.processData (recvInto UDP.BUFFERSIZE (List.replicate UDP.BUFFERSIZE NUL)
          ('+' :: [' ', '3', ' ', '4']))).take UDP.BUFFERSIZE) (⟨1, 2⟩ : UDP.Addr),
        .close, .exit 0] :=
  C20_short_write_ends_server ⟨.bytes ('+' :: [' ', '3', ' ', '4']), ⟨1, 2⟩, true, 100⟩
    [⟨.bytes ['+', ' ', '1', ' ', '2'], ⟨1, 2⟩, true, 256⟩] '+' [' ', '3', ' ', '4'] rfl rfl
    (by decide)

set_option maxRecDepth 100000 in
set_option exponentiation.threshold 3000 in
/-- C20 fails: after a `sendto` that returns 100 instead of 256 the loop makes
no further `recvfrom`, although a second datagram is waiting; with a full write
it serves both. -/
theorem C20_counterexample_listener_terminates :
    (UDP.main [⟨.bytes "+ 3 4".toList, ⟨1, 2⟩, true, 100⟩,
        ⟨.bytes "+ 1 2".toList, ⟨1, 2⟩, true, 256⟩]).map
        (fun a => decide (a = UDP.Action.recvfrom))
      = [true, false, false, false] ∧
    (UDP.main [⟨.bytes "+ 3 4".toList, ⟨1, 2⟩, true, 256⟩,
        ⟨.bytes "+ 1 2".toList, ⟨1, 2⟩, true, 256⟩]).map
        (fun a => decide (a = UDP.Action.recvfrom))
      = [true, false, true, false, true] := by
  decide

set_option maxRecDepth 100000 in
set_option exponentiation.threshold 3000 in
/-- C18: `sendData` hands `send` the first `sizeof(size_t)` bytes of the
buffer, not `BUFFERSIZE`: of the line `+ 100 200` the eight bytes `+ 100 20`
(four bytes `+ 10` with a 32-bit `size_t`) without the terminator, it reports
success when that many bytes were sent, and the server answers `120.00`. -/
theorem C18_sendData_sends_size_of_size_t :
    TCPClient.sendData 8 (request TCPClient.BUFFERSIZE "+ 100 200") 8
      = ("+ 100 20".toList, 1) ∧
    TCPClient.sendData 4 (request TCPClient.BUFFERSIZE "+ 100 200") 4
      = ("+ 10".toList, 1) ∧
    (TCPClient.sendData 8 (request TCPClient.BUFFERSIZE "+ 100 200") 512).2 = -1 ∧
    cstr (TCP.processData (recvInto TCP.BUFFERSIZE (List.replicate TCP.BUFFERSIZE NUL)
      (TCPClient.sendData 8 (request TCPClient.BUFFERSIZE "+ 100 200") 8).1))
      = "120.00".toList ∧
    cstr (TCP.processData (request TCP.BUFFERSIZE "+ 100 200")) = "300.00".toList := by
  decide

/-! ## The terminate test and the loops -/

theorem cstr_take (k : Nat) : ∀ (m : List Char), cstr (m.take k) = (cstr m).take k := by
  induction k with
  | zero => intro m; simp [cstr]
  | succ k ih =>
    intro m
    cases m with
    | nil => simp [cstr]
    | cons c m =>
      by_cases hc : c = NUL
      · subst hc
        simp [cstr, List.takeWhile]
      · rw [List.take_succ_cons, cstr_cons c _ hc, cstr_cons c _ hc, List.take_succ_cons]
        exact congrArg (List.cons c) (ih m)

theorem isBye_take (m : List Char) (k : Nat) (hk : 4 ≤ k) :
    isBye (m.take k) = isBye m := by
  unfold isBye
  rw [cstr_take]
  by_cases h : (cstr m).length ≤ k
  · rw [List.take_of_length_le h]
  · have h1 : ((cstr m).take k).length = k := by
      rw [List.length_take]; omega
    have h2 : (cstr m).take k ≠ "Bye".toList := by
      intro e
      rw [e] at h1
      simp at h1
      omega
    have h3 : cstr m ≠ "Bye".toList := by
      intro e
      rw [e] at h
      simp at h
      omega
    rw [decide_eq_false h2, decide_eq_false h3]

theorem tcp_bye_iff (msg : List Char) :
    cstr (TCP.processData msg) = "Bye".toList ↔ msg.headD NUL = '=' := by
  constructor
  · intro h
    by_contra hc
    exact tcp_not_bye msg hc h
  · intro h
    cases msg with
    | nil => exact absurd h (by decide)
    | cons c rest =>
      simp only [List.headD_cons] at h
      subst h
      exact tcp_processData_bye rest

theorem udp_bye_iff (msg : List Char) :
    cstr (UDP.processData msg) = "Bye".toList ↔ msg.headD NUL = '=' := by
  constructor
  · intro h
    by_contra hc
    exact udp_not_bye msg hc h
  · intro h
    cases msg with
    | nil => exact absurd h (by decide)
    | cons c rest =>
      simp only [List.headD_cons] at h
      subst h
      exact udp_processData_bye rest

theorem tcp_connection_stops_iff (buf : List Char) (c : Char) (more : List Char)
    (later : List TCP.Exchange) :
    (∃ bytes m, TCP.connection buf (⟨.bytes (c :: more), 512⟩ :: later)
      = ([.recv, .send bytes], some m)) ↔ c = '=' := by
  constructor
  · rintro ⟨bytes, m, h⟩
    by_contra hc
    rw [tcp_connection_continue buf c more later hc] at h
    have h1 := tcp_connection_head (TCP.processData (recvInto TCP.BUFFERSIZE buf (c :: more))) later
    have h2 := congrArg Prod.fst h
    simp only [List.cons.injEq, true_and] at h2
    rw [h2.2] at h1
    simp at h1
  · intro hc
    subst hc
    obtain ⟨bytes, m, _, h⟩ := tcp_connection_bye buf more 512 later
    exact ⟨bytes, m, by simpa using h⟩

/-- C26: for every input buffer the text `processData` leaves equals "Bye"
exactly when the first byte of the input is `=`, in the stream and in the
datagram variant; the same holds for the test `strcmp(msg, "Bye") == 0` of a
client on the bytes the server sends; and a round of the stream server whose
reply is sent in full ends the request loop exactly when the request starts
with `=`. -/
theorem C26_bye_only_after_terminate (msg : List Char) :
    (cstr (TCP.processData msg) = "Bye".toList ↔ msg.headD NUL = '=') ∧
    (cstr (UDP.processData msg) = "Bye".toList ↔ msg.headD NUL = '=') ∧
    (isBye ((TCP.processData msg).take TCP.BUFFERSIZE) = true ↔ msg.headD NUL = '=') ∧
    (isBye ((UDP.processData msg).take UDP.BUFFERSIZE) = true ↔ msg.headD NUL = '=') ∧
    (∀ (c : Char) (more : List Char) (later : List TCP.Exchange),
      (∃ bytes m, TCP.connection msg (⟨.bytes (c :: more), 512⟩ :: later)
        = ([.recv, .send bytes], some m)) ↔ c = '=') := by
  refine ⟨tcp_bye_iff msg, udp_bye_iff msg, ?_, ?_, ?_⟩
  · rw [isBye_take _ _ (by decide)]
    simp only [isBye, decide_eq_true_eq]
    exact tcp_bye_iff msg
  · rw [isBye_take _ _ (by decide)]
    simp only [isBye, decide_eq_true_eq]
    exact udp_bye_iff msg
  · intro c more later
    exact tcp_connection_stops_iff msg c more later

/-! ## Datagram rounds are independent -/

theorem udp_main_ne_nil (ds : List UDP.Datagram) : UDP.main ds ≠ [] := by
  intro h
  have h1 := udp_main_head ds
  rw [h] at h1
  simp at h1

theorem udp_main_served_cons (e : UDP.Datagram) (he : UDP.served e = true) :
    ∃ round, round ≠ [] ∧ ∀ later, UDP.main (e :: later) = round ++ UDP.main later := by
  unfold UDP.served at he
  cases hr : e.received with
  | error =>
    refine ⟨[.recvfrom], by simp, ?_⟩
    intro later
    simp only [UDP.main, hr]
    rfl
  | bytes data =>
    rw [hr] at he
    simp only [Bool.or_eq_true, Bool.and_eq_true, decide_eq_true_eq] at he
    by_cases h0 : (data.take UDP.BUFFERSIZE).length ≤ 0
    · refine ⟨[.recvfrom], by simp, ?_⟩
      intro later
      simp only [UDP.main, hr, if_pos h0]
      rfl
    · rcases he with he | ⟨h1, h2⟩
      · exact absurd he h0
      · refine ⟨[.recvfrom, .sendto ((UDP.processData (recvInto UDP.BUFFERSIZE
          (List.replicate UDP.BUFFERSIZE NUL) data)).take UDP.BUFFERSIZE) e.peer], by simp, ?_⟩
        intro later
        simp only [UDP.main, hr, if_neg h0, h1, h2]
        simp

theorem udp_main_served (h : List UDP.Datagram) (hs : ∀ e ∈ h, UDP.served e = true) :
    ∀ ds, UDP.main (h ++ ds) = (UDP.main h).dropLast ++ UDP.main ds := by
  induction h with
  | nil => intro ds; rfl
  | cons e h ih =>
    intro ds
    obtain ⟨round, hne, hround⟩ := udp_main_served_cons e
      (hs e (List.mem_cons_self e h))
    rw [List.cons_append, hround, hround, ih (fun x hx => hs x (List.mem_cons_of_mem e hx)),
      List.dropLast_append_of_ne_nil _ (udp_main_ne_nil h), List.append_assoc]

/-- C25: the response the datagram server sends for a datagram is a function
of that datagram's bytes alone: after any two histories of served datagrams,
the round of a datagram with bytes `c :: more` whose peer is found makes the
same `sendto`, of the first 256 bytes of `processData` applied to these bytes
in a zero-filled buffer, and goes on in the same way. -/
theorem C25_datagram_independence (h1 h2 : List UDP.Datagram) (d : UDP.Datagram)
    (ds : List UDP.Datagram) (c : Char) (more : List Char)
    (hs1 : ∀ e ∈ h1, UDP.served e = true) (hs2 : ∀ e ∈ h2, UDP.served e = true)
    (hr : d.received = .bytes (c :: more)) (hh : d.resolved = true) :
    ∃ tl,
      UDP.main (h1 ++ d :: ds) = (UDP.main h1).dropLast ++ .recvfrom ::
        .sendto ((UDP.processData (recvInto UDP.BUFFERSIZE (List.replicate UDP.BUFFERSIZE NUL)
          (c :: more))).take UDP.BUFFERSIZE) d.peer :: tl ∧
      UDP.main (h2 ++ d :: ds) = (UDP.main h2).dropLast ++ .recvfrom ::
        .sendto ((UDP.processData (recvInto UDP.BUFFERSIZE (List.replicate UDP.BUFFERSIZE NUL)
          (c :: more))).take UDP.BUFFERSIZE) d.peer :: tl := by
  refine ⟨if d.sent = 256 then UDP.main ds else [.close, .exit 0], ?_, ?_⟩
  · rw [udp_main_served h1 hs1, udp_main_answered d ds c more hr hh]
  · rw [udp_main_served h2 hs2, udp_main_answered d ds c more hr hh]

set_option maxRecDepth 100000 in
set_option exponentiation.threshold 3000 in
/-- C25 at concrete histories: the datagram "+ 3 4" is answered "3.00 + 4.00 =
7.00" after no history and after a history of one served datagram. -/
theorem C25_datagram_independence_witness :
    ∃ tl,
      UDP.main ([] ++ (⟨.bytes "+ 3 4".toList, ⟨1, 2⟩, true, 256⟩ : UDP.Datagram) :: []) =
        (UDP.main []).dropLast ++ .recvfrom ::
        .sendto ((UDP.processData (recvInto UDP.BUFFERSIZE (List.replicate UDP.BUFFERSIZE NUL)
          ('+' :: " 3 4".toList))).take UDP.BUFFERSIZE) (⟨1, 2⟩ : UDP.Addr) :: tl ∧
      UDP.main ([⟨.bytes "* 5 6".toList, ⟨7, 8⟩, true, 256⟩] ++
          (⟨.bytes "+ 3 4".toList, ⟨1, 2⟩, true, 256⟩ : UDP.Datagram) :: []) =
        (UDP.main [⟨.bytes "* 5 6".toList, ⟨7, 8⟩, true, 256⟩]).dropLast ++ .recvfrom ::
        .sendto ((UDP.processData (recvInto UDP.BUFFERSIZE (List.replicate UDP.BUFFERSIZE NUL)
          ('+' :: " 3 4".toList))).take UDP.BUFFERSIZE) (⟨1, 2⟩ : UDP.Addr) :: tl :=
  C25_datagram_independence [] [⟨.bytes "* 5 6".toList, ⟨7, 8⟩, true, 256⟩]
    ⟨.bytes "+ 3 4".toList, ⟨1, 2⟩, true, 256⟩ [] '+' " 3 4".toList
    (by decide) (by decide) rfl rfl

/-! ## Buffers at their limits -/

theorem bitLengthAux_ge (fuel : Nat) : ∀ (n b : Nat), 2 ^ b ≤ n → n ≤ fuel →
    b + 1 ≤ bitLengthAux fuel n := by
  induction fuel with
  | zero =>
    intro n b h1 h2
    have : 0 < 2 ^ b := Nat.two_pow_pos b
    omega
  | succ fuel ih =>
    intro n b h1 h2
    have hp : 0 < 2 ^ b := Nat.two_pow_pos b
    have h0 : n ≠ 0 := by omega
    unfold bitLengthAux
    rw [if_neg h0]
    cases b with
    | zero => omega
    | succ b =>
      have h3 : 2 ^ b ≤ n / 2 := by
        rw [Nat.pow_succ] at h1
        omega
      have hp2 : 0 < 2 ^ b := Nat.two_pow_pos b
      have := ih (n / 2) b h3 (by omega)
      omega

theorem bitLength_eq (n b : Nat) (h1 : 2 ^ b ≤ n) (h2 : n < 2 ^ (b + 1)) :
    bitLength n = b + 1 := by
  have hle := bitLengthAux_le n n (b + 1) h2
  have hge := bitLengthAux_ge n n b h1 (Nat.le_refl n)
  unfold bitLength
  omega

theorem digitsVal_lt (ds : List Char) (hd : ∀ c ∈ ds, c.isDigit = true) :
    digitsVal ds < 10 ^ ds.length := by
  induction ds using List.reverseRecOn with
  | nil => decide
  | append_singleton ds d ih =>
    have h1 := ih (fun c hc => hd c (List.mem_append_left _ hc))
    have h2 : d.isDigit = true := hd d (by simp)
    have h3 : d.toNat - 48 ≤ 9 := by
      simp only [Char.isDigit, Bool.and_eq_true, decide_eq_true_eq] at h2
      have := h2.2
      have h4 : d.val.toNat ≤ 57 := by
        have := UInt32.le_def.mp this
        simpa using this
      show d.val.toNat - 48 ≤ 9
      omega
    rw [digitsVal_snoc, List.length_append, List.length_singleton, Nat.pow_succ]
    omega

theorem toDigits_length_ge (n j : Nat) (h : 10 ^ j ≤ n) : j + 1 ≤ (Nat.toDigits 10 n).length := by
  obtain ⟨_, h2, h3⟩ := toDigits_run n
  have h4 := digitsVal_lt _ h2
  rw [h3] at h4
  by_contra hc
  have h5 : (Nat.toDigits 10 n).length ≤ j := by omega
  have h6 : 10 ^ (Nat.toDigits 10 n).length ≤ 10 ^ j := Nat.pow_le_pow_right (by decide) h5
  omega

theorem fmt2_length_ge (s : Bool) (k j : Nat) (h : 10 ^ j * Dbl.one ≤ k) :
    j + 4 ≤ (fmt2 (.finite s k)).length := by
  have h1 := roundHalfEven_ge (k * 100) Dbl.one
  have h2 : 10 ^ j * 100 ≤ k * 100 / Dbl.one := by
    rw [Nat.le_div_iff_mul_le one_pos]
    calc 10 ^ j * 100 * Dbl.one = 10 ^ j * Dbl.one * 100 := by ring
      _ ≤ k * 100 := Nat.mul_le_mul_right 100 h
  simp only [fmt2]
  generalize roundHalfEven (k * 100) Dbl.one = n at h1
  have h3 : 10 ^ j ≤ n / 100 := by
    rw [Nat.le_div_iff_mul_le (by decide)]
    omega
  have h4 := toDigits_length_ge _ _ h3
  simp only [List.length_append, List.length_cons, List.length_nil]
  omega


set_option maxRecDepth 20000 in
theorem scanLf_1e125 : scanLf "1e125".toList = some (Dbl.ofDecimal false 1 125) := by
  rfl

set_option exponentiation.threshold 3000 in
theorem ofDecimal_1e125 :
    ∃ k, Dbl.ofDecimal false 1 125 = .finite false k ∧ 10 ^ 124 * Dbl.one ≤ k := by
  have hb : bitLength (1 * 10 ^ 125 * Dbl.one / 1) = 1489 + 1 :=
    bitLength_eq _ 1489 (by unfold Dbl.one; norm_num) (by unfold Dbl.one; norm_num)
  have h0 : Dbl.ofDecimal false 1 125 = Dbl.round false (1 * 10 ^ 125 * Dbl.one) 1 := rfl
  rw [h0]
  unfold Dbl.round
  rw [hb]
  refine ⟨_, if_pos ?_, ?_⟩
  · unfold roundHalfEven Dbl.one
    norm_num
  · unfold roundHalfEven Dbl.one
    norm_num

theorem strlen_sum_1e125 (x y r : Dbl) (out : List Char)
    (hx : ∃ k, x = .finite false k ∧ 10 ^ 124 * Dbl.one ≤ k)
    (hy : ∃ k, y = .finite false k ∧ 10 ^ 124 * Dbl.one ≤ k)
    (h : cstr out = fmt2 x ++ [' ', '+', ' '] ++ fmt2 y ++ [' ', '=', ' '] ++ fmt2 r) :
    256 ≤ strlen out := by
  obtain ⟨k1, rfl, h1⟩ := hx
  obtain ⟨k2, rfl, h2⟩ := hy
  have l1 := fmt2_length_ge false k1 124 h1
  have l2 := fmt2_length_ge false k2 124 h2
  unfold strlen
  rw [h]
  simp only [List.length_append, List.length_cons, List.length_nil]
  omega

set_option maxRecDepth 20000 in
/-- C22 at "+ 1e125 1e125", a request of 13 characters in the 256-byte buffer:
the text the datagram server's `sprintf` writes has at least 256 characters, so
it and its terminator do not fit the 256 bytes of the message buffer. -/
theorem C22_datagram_response_overflows :
    UDP.BUFFERSIZE ≤ strlen (UDP.processData (request UDP.BUFFERSIZE "+ 1e125 1e125")) ∧
    (request UDP.BUFFERSIZE "+ 1e125 1e125").length = UDP.BUFFERSIZE := by
  have hreq : request UDP.BUFFERSIZE "+ 1e125 1e125"
      = command '+' "1e125".toList "1e125".toList (List.replicate 242 NUL) := by decide
  refine ⟨?_, by decide⟩
  rw [hreq]
  exact strlen_sum_1e125 _ _ _ _ ofDecimal_1e125 ofDecimal_1e125
    (udp_processData_value '+' "1e125".toList "1e125".toList _ _ _ _ (by decide) (by decide)
      (by decide) (by decide) (by decide) (by decide) scanLf_1e125 scanLf_1e125 rfl)


set_option maxRecDepth 100000 in
/-- C23 at a message of exactly `BUFFERSIZE` bytes without a NUL: the buffer
handed to `processData` holds no terminator in its first `BUFFERSIZE` bytes, in
the stream server (512 bytes received into its buffer) and in the datagram
server (256 bytes received into the zero-filled buffer). -/
theorem C23_full_message_unterminated :
    NUL ∉ (recvInto TCP.BUFFERSIZE (List.replicate TCP.BUFFERSIZE NUL)
      ('+' :: ' ' :: List.replicate 510 '1')).take TCP.BUFFERSIZE ∧
    NUL ∉ (recvInto UDP.BUFFERSIZE (List.replicate UDP.BUFFERSIZE NUL)
      ('+' :: ' ' :: List.replicate 254 '1')).take UDP.BUFFERSIZE ∧
    ('+' :: ' ' :: List.replicate 510 '1').length = TCP.BUFFERSIZE ∧
    ('+' :: ' ' :: List.replicate 254 '1').length = UDP.BUFFERSIZE := by
  decide

set_option maxRecDepth 100000 in
set_option exponentiation.threshold 3000 in
/-- C29 at the received bytes "+ 100 20": on a zero-filled connection buffer
the stream server answers "120.00"; after the earlier request "* 10000 10000"
on the same connection it answers "300.00", because the bytes of the earlier
response are still in the buffer behind the eight bytes received. -/
theorem C29_response_depends_on_history :
    (TCP.connection (List.replicate 512 NUL) [⟨.bytes "+ 100 20".toList, 512⟩]).1
      = [.recv, .send ("120.00".toList ++ NUL :: '0' :: List.replicate 504 NUL), .recv] ∧
    (TCP.connection (List.replicate 512 NUL)
      [⟨.bytes ("* 10000 10000".toList ++ [NUL]), 512⟩, ⟨.bytes "+ 100 20".toList, 512⟩]).1
      = [.recv, .send (request 512 "100000000.00"), .recv,
          .send ("300.00".toList ++ NUL :: "00.00".toList ++ List.replicate 500 NUL), .recv] := by
  decide

/-! ## The clients -/

theorem receiveLoop_index (len : Nat) : ∀ (script : List Received) (total : Nat), total ≤ len →
    TCPClient.receiveLoop len total script = .blocked ∨
    TCPClient.receiveLoop len total script = .failed ∨
    TCPClient.receiveLoop len total script = .terminated len := by
  intro script
  induction script with
  | nil =>
    intro total h
    unfold TCPClient.receiveLoop
    by_cases h1 : total < len
    · left; rw [if_pos h1]
    · right; right
      rw [if_neg h1]
      congr 1
      omega
  | cons r rs ih =>
    intro total h
    unfold TCPClient.receiveLoop
    by_cases h1 : total < len
    · rw [if_pos h1]
      cases r with
      | error => right; left; rfl
      | bytes data =>
        simp only
        by_cases h2 : (data.take (len - total)).length ≤ 0
        · right; left; rw [if_pos h2]
        · rw [if_neg h2]
          apply ih
          have := List.length_take_le (len - total) data
          omega
    · right; right
      rw [if_neg h1]
      congr 1
      omega

set_option maxRecDepth 100000 in
/-- C30: whenever the stream client's `receiveData` stores its terminator, the
index is `BUFFERSIZE` = 512, one past the last element of the 512-byte buffer
(so for a reply received in one piece of 512 bytes); the datagram client's
`receiveData` stores it at index 256 of its 256-byte buffer for a full reply,
and at index -1 when the receive fails. -/
theorem C30_terminator_index_outside_buffer :
    (∀ script : List Received,
      TCPClient.receiveData TCPClient.BUFFERSIZE script = .blocked ∨
      TCPClient.receiveData TCPClient.BUFFERSIZE script = .failed ∨
      TCPClient.receiveData TCPClient.BUFFERSIZE script = .terminated TCPClient.BUFFERSIZE) ∧
    TCPClient.receiveData TCPClient.BUFFERSIZE [.bytes (request 512 "7.00")]
      = .terminated 512 ∧
    UDPClient.receiveData (.bytes (request 256 "3.00 + 4.00 = 7.00")) ⟨1, 2⟩ ⟨1, 2⟩ true
      = .returned 0 256 ∧
    UDPClient.receiveData .error ⟨1, 2⟩ ⟨1, 2⟩ true = .returned 0 (-1) ∧
    UDPClient.BUFFERSIZE = 256 := by
  refine ⟨fun script => receiveLoop_index _ script 0 (Nat.zero_le _), by decide, by decide,
    by decide, rfl⟩

/-- C21, counterexample: a reply whose source has the server's address and
another port (9999 instead of 56700) is not a hard fault; `receiveData` accepts
it and returns 0. -/
theorem C21_counterexample_port_not_compared :
    UDPClient.receiveData (.bytes "7.00".toList) ⟨1, 9999⟩ ⟨1, 56700⟩ true
      = .returned 0 4 := by
  decide

/-- C21, amended: the datagram client's `receiveData` exits exactly when the
source address of the reply differs from the address of the server; the ports
play no part; a reply from the server's address is accepted, and returned with
0 when the host of the source is found, with -1 otherwise. -/
theorem C21_reply_source_address (reply : Received) (fromAddr server : UDP.Addr)
    (resolved : Bool) :
    (UDPClient.receiveData reply fromAddr server resolved = .exit ↔ fromAddr.ip ≠ server.ip) ∧
    (∀ p q : Nat, UDPClient.receiveData reply fromAddr server resolved
      = UDPClient.receiveData reply ⟨fromAddr.ip, p⟩ ⟨server.ip, q⟩ resolved) ∧
    (fromAddr.ip = server.ip → ∃ index, UDPClient.receiveData reply fromAddr server resolved
      = .returned (if resolved = true then 0 else -1) index) := by
  refine ⟨?_, ?_, ?_⟩
  · unfold UDPClient.receiveData
    by_cases h : server.ip = fromAddr.ip
    · have h2 : ¬ fromAddr.ip ≠ server.ip := fun hc => hc h.symm
      cases resolved <;> simp [h, h2]
    · have h2 : fromAddr.ip ≠ server.ip := fun hc => h hc.symm
      simp [h, h2]
  · intro p q
    rfl
  · intro h
    have h2 : ¬ server.ip ≠ fromAddr.ip := fun hc => hc h.symm
    unfold UDPClient.receiveData
    simp only [if_neg h2]
    cases resolved
    · exact ⟨_, rfl⟩
    · exact ⟨_, rfl⟩

/-- C21 at a reply from the server's address and port. -/
theorem C21_reply_source_address_witness :
    ((1 : Nat) = 1 → ∃ index, UDPClient.receiveData (.bytes "7.00".toList) ⟨1, 56700⟩
      ⟨1, 56700⟩ true = .returned (if true = true then 0 else -1) index) :=
  (C21_reply_source_address (.bytes "7.00".toList) ⟨1, 56700⟩ ⟨1, 56700⟩ true).2.2

set_option maxRecDepth 100000 in
set_option exponentiation.threshold 3000 in
/-- C28 at the lines "+13 4" and "+3 4": the stream client's `inputString`
accepts both, reading 13 and 4, and 3 and 4; the stream server answers the
first with "7.00", the sum of 3 and 4 (the formatted value of 13 + 4 is
"17.00"), and the second with "Insufficient number of operands". -/
theorem C28_client_accepts_what_server_misreads :
    TCPClient.accepted (request 512 "+13 4") = some ('+', 13, 4) ∧
    cstr (TCP.processData (request 512 "+13 4")) = "7.00".toList ∧
    fmt2 (TCP.add (Dbl.ofInt 13) (Dbl.ofInt 4)) = "17.00".toList ∧
    TCPClient.accepted (request 512 "+3 4") = some ('+', 3, 4) ∧
    cstr (TCP.processData (request 512 "+3 4")) = "Insufficient number of operands".toList := by
  decide

/-! ## The guard before `division` -/

theorem fmt2_tokenByte (x : Dbl) : ∀ c ∈ fmt2 x, tokenByte c = true := by
  intro c hc
  cases x with
  | finite s k =>
    simp only [fmt2, List.append_assoc, List.mem_append] at hc
    generalize roundHalfEven (k * 100) Dbl.one = n at hc
    have hd1 := (digitChar_isDigit (n / 10 % 10) (Nat.mod_lt _ (by decide))).1
    have hd2 := (digitChar_isDigit (n % 10) (Nat.mod_lt _ (by decide))).1
    rcases hc with h | h | h
    · cases s with
      | true =>
        simp only [if_true, List.mem_singleton] at h
        subst h
        decide
      | false => simp at h
    · exact isDigit_tokenByte ((toDigits_run _).2.1 c h)
    · simp only [List.mem_cons, List.mem_singleton, List.not_mem_nil, or_false] at h
      rcases h with h | h | h
      · subst h
        decide
      · subst h
        exact isDigit_tokenByte hd1
      · subst h
        exact isDigit_tokenByte hd2
  | inf s =>
    have hall : ∀ e ∈ ['-', 'i', 'n', 'f'], tokenByte e = true := by decide
    cases s with
    | true => exact hall c (by simpa [fmt2] using hc)
    | false =>
      refine hall c ?_
      have : c ∈ ['i', 'n', 'f'] := by simpa [fmt2] using hc
      exact List.mem_cons_of_mem _ this
  | nan s =>
    have hall : ∀ e ∈ ['-', 'n', 'a', 'n'], tokenByte e = true := by decide
    cases s with
    | true => exact hall c (by simpa [fmt2] using hc)
    | false =>
      refine hall c ?_
      have : c ∈ ['n', 'a', 'n'] := by simpa [fmt2] using hc
      exact List.mem_cons_of_mem _ this

theorem fmt2_shape (x : Dbl) :
    ∃ (c0 c1 : Char) (t : List Char), fmt2 x = c0 :: c1 :: t ∧ t ≠ [] ∧ c0 ≠ '=' ∧
      c0 ≠ NUL ∧ c1 ≠ NUL ∧ ∀ c ∈ t, tokenByte c = true := by
  have htb := fmt2_tokenByte x
  obtain ⟨c0, tl, h0, hk⟩ := fmt2_head_kind x
  have hlen : 3 ≤ (fmt2 x).length := by
    cases x with
    | finite s k =>
      simp only [fmt2, List.length_append, List.length_cons, List.length_nil]
      omega
    | inf s => cases s <;> simp [fmt2]
    | nan s => cases s <;> simp [fmt2]
  rw [h0] at hlen htb
  cases tl with
  | nil => simp at hlen
  | cons c1 t =>
    refine ⟨c0, c1, t, h0, ?_, ?_, ?_, ?_, ?_⟩
    · intro ht
      subst ht
      simp at hlen
    · rcases hk with h | h | h | h
      · subst h; decide
      · intro he; subst he; exact absurd h (by decide)
      · subst h; decide
      · subst h; decide
    · exact tokenByte_ne_nul (htb c0 (List.mem_cons_self _ _))
    · exact tokenByte_ne_nul (htb c1 (List.mem_cons_of_mem _ (List.mem_cons_self _ _)))
    · intro c hc
      exact htb c (List.mem_cons_of_mem _ (List.mem_cons_of_mem _ hc))

theorem tcp_reparsed (c0 c1 : Char) (t rest : List Char) (h0 : c0 ≠ '=') (hn0 : c0 ≠ NUL)
    (hn1 : c1 ≠ NUL) (ht : t ≠ []) (htb : ∀ c ∈ t, tokenByte c = true) :
    cstr (TCP.processData (c0 :: c1 :: (t ++ NUL :: rest)))
        = "Insufficient number of operands".toList ∨
    ((cstr (TCP.processData (c0 :: c1 :: (t ++ NUL :: rest)))).head? = some 'I' ∧
      ∃ (k : Nat) (tok : List Char), 1 ≤ k ∧
        cstr (TCP.processData (c0 :: c1 :: (t ++ NUL :: rest)))
          = cstr (("Invalid operand format: ".toList ++ tok).take k)) := by
  cases hs : scanD t with
  | some v =>
    left
    exact tcp_processData_single c0 c1 t rest h0 ht htb (by rw [hs]; simp)
  | none =>
    right
    have hst := strtok_last t rest ht htb
    obtain ⟨out, hout⟩ := tokenLoop_invalid_first scanD 1 (c0 :: c1 :: t) t (NUL :: rest)
      ([] : List Int) hs
    have h2 : TCP.processData (c0 :: c1 :: (t ++ NUL :: rest)) = out := by
      unfold TCP.processData
      simp only [List.headD_cons, if_neg h0, List.drop_succ_cons, List.drop_zero, hst,
        TCP.MAXOPERANDS, List.take_succ_cons, List.take_zero, List.cons_append, List.nil_append,
        hout]
    rw [h2]
    exact tokenLoop_error_text scanD c0 c1 hn0 hn1 _ _ _ _ _ out hout

theorem scanLf_operator {op : Char} (hop : op = '+' ∨ op = '-' ∨ op = '*' ∨ op = '/') :
    scanLf [op] = none := by
  rcases hop with h | h | h | h <;> subst h <;> decide

theorem udp_reparsed (c0 c1 op : Char) (t more : List Char) (h0 : c0 ≠ '=') (hn0 : c0 ≠ NUL)
    (hn1 : c1 ≠ NUL) (ht : t ≠ []) (htb : ∀ c ∈ t, tokenByte c = true)
    (hop : op = '+' ∨ op = '-' ∨ op = '*' ∨ op = '/') :
    (cstr (UDP.processData (c0 :: c1 :: (t ++ ' ' :: op :: ' ' :: more)))).head? = some 'I' ∧
      ∃ (k : Nat) (tok : List Char), 1 ≤ k ∧
        cstr (UDP.processData (c0 :: c1 :: (t ++ ' ' :: op :: ' ' :: more)))
          = cstr (("Invalid operand format: ".toList ++ tok).take k) := by
  have hst := strtok_blank t (op :: ' ' :: more) ht htb
  have hopb : ∀ c ∈ [op], tokenByte c = true := by
    intro c hc
    simp only [List.mem_singleton] at hc
    subst hc
    rcases hop with h | h | h | h <;> subst h <;> decide
  have hst2 : strtok (op :: ' ' :: more) = (some [op], [op] ++ [NUL], more) :=
    strtok_blank [op] more (by simp) hopb
  have hex : ∃ out, tokenLoop scanLf 2 (c0 :: c1 :: (t ++ [NUL])) (some t) (op :: ' ' :: more)
      ([] : List Dbl) = .error out := by
    cases hs : scanLf t with
    | none => exact tokenLoop_invalid_first scanLf 1 _ t _ [] hs
    | some v =>
      exact tokenLoop_invalid_second scanLf 0 _ t [op] _ _ more [] v hs hst2
        (scanLf_operator hop)
  obtain ⟨out, hout⟩ := hex
  have h2 : UDP.processData (c0 :: c1 :: (t ++ ' ' :: op :: ' ' :: more)) = out := by
    unfold UDP.processData
    simp only [List.headD_cons, if_neg h0, List.drop_succ_cons, List.drop_zero, hst,
      UDP.MAXOPERANDS, List.take_succ_cons, List.take_zero, List.cons_append, List.nil_append,
      hout]
  rw [h2]
  exact tokenLoop_error_text scanLf c0 c1 hn0 hn1 _ _ _ _ _ out hout

theorem head_I_not_numeric {out : List Char} (h : out.head? = some 'I') :
    out ≠ "Bye".toList ∧ (∀ w : Dbl, out ≠ fmt2 w) ∧
    ∀ (a b c : Dbl) (o : Char), out ≠ fmt2 a ++ [' ', o, ' '] ++ fmt2 b ++ [' ', '=', ' '] ++ fmt2 c := by
  refine ⟨?_, ?_, ?_⟩
  · intro he
    rw [he] at h
    exact absurd h (by decide)
  · intro w he
    obtain ⟨c, tl, hc, hne, _⟩ := fmt2_head_not w 'I' (by decide) (by decide) (by decide)
      (by decide)
    rw [he, hc] at h
    simp only [List.head?_cons, Option.some.injEq] at h
    exact hne h
  · intro a b c o he
    obtain ⟨d, tl, hc, hne, _⟩ := fmt2_head_not a 'I' (by decide) (by decide) (by decide)
      (by decide)
    rw [he, hc] at h
    simp only [List.cons_append, List.head?_cons, Option.some.injEq] at h
    exact hne h

/-- C24: `processData` applied to a successful numeric response never yields a
numeric response and never "Bye".  On a buffer that holds the "%.2f" text of
any double, the stream server leaves "Insufficient number of operands" or the
first `k ≥ 1` characters of an "Invalid operand format: " text; on a buffer
that holds an "A op B = R" text with an arithmetic operator, the datagram
server leaves the first `k ≥ 1` characters of an "Invalid operand format: "
text; whatever follows the terminator in the buffer. -/
theorem C24_responses_are_not_requests (x y z : Dbl) (op : Char) (rest : List Char)
    (hop : op = '+' ∨ op = '-' ∨ op = '*' ∨ op = '/') :
    (cstr (TCP.processData (fmt2 x ++ NUL :: rest)) = "Insufficient number of operands".toList ∨
      ∃ (k : Nat) (tok : List Char), 1 ≤ k ∧ cstr (TCP.processData (fmt2 x ++ NUL :: rest))
        = cstr (("Invalid operand format: ".toList ++ tok).take k)) ∧
    cstr (TCP.processData (fmt2 x ++ NUL :: rest)) ≠ "Bye".toList ∧
    (∀ w : Dbl, cstr (TCP.processData (fmt2 x ++ NUL :: rest)) ≠ fmt2 w) ∧
    (∃ (k : Nat) (tok : List Char), 1 ≤ k ∧
      cstr (UDP.processData
          (fmt2 x ++ [' ', op, ' '] ++ fmt2 y ++ [' ', '=', ' '] ++ fmt2 z ++ NUL :: rest))
        = cstr (("Invalid operand format: ".toList ++ tok).take k)) ∧
    cstr (UDP.processData
        (fmt2 x ++ [' ', op, ' '] ++ fmt2 y ++ [' ', '=', ' '] ++ fmt2 z ++ NUL :: rest))
      ≠ "Bye".toList ∧
    (∀ (a b c : Dbl) (o : Char),
      cstr (UDP.processData
          (fmt2 x ++ [' ', op, ' '] ++ fmt2 y ++ [' ', '=', ' '] ++ fmt2 z ++ NUL :: rest))
        ≠ fmt2 a ++ [' ', o, ' '] ++ fmt2 b ++ [' ', '=', ' '] ++ fmt2 c) := by
  obtain ⟨c0, c1, t, hx, ht, h0, hn0, hn1, htb⟩ := fmt2_shape x
  have hu : fmt2 x ++ [' ', op, ' '] ++ fmt2 y ++ [' ', '=', ' '] ++ fmt2 z ++ NUL :: rest
      = c0 :: c1 :: (t ++ ' ' :: op :: ' ' :: (fmt2 y ++ [' ', '=', ' '] ++ fmt2 z ++ NUL :: rest)) := by
    rw [hx]
    simp
  have ht1 : fmt2 x ++ NUL :: rest = c0 :: c1 :: (t ++ NUL :: rest) := by
    rw [hx]
    rfl
  rw [hu, ht1]
  have htcp := tcp_reparsed c0 c1 t rest h0 hn0 hn1 ht htb
  obtain ⟨hhead, hk⟩ := udp_reparsed c0 c1 op t
    (fmt2 y ++ [' ', '=', ' '] ++ fmt2 z ++ NUL :: rest) h0 hn0 hn1 ht htb hop
  have htcphead : (cstr (TCP.processData (c0 :: c1 :: (t ++ NUL :: rest)))).head? = some 'I' := by
    rcases htcp with h | h
    · rw [h]; rfl
    · exact h.1
  have n1 := head_I_not_numeric htcphead
  have n2 := head_I_not_numeric hhead
  refine ⟨?_, n1.1, n1.2.1, hk, n2.1, n2.2.2⟩
  rcases htcp with h | h
  · exact Or.inl h
  · exact Or.inr h.2

set_option maxRecDepth 100000 in
set_option exponentiation.threshold 3000 in
/-- C24 at the responses "7.00" and "3.00 + 4.00 = 7.00": the stream server
answers the first with "Insufficient number of operands", the datagram server
answers the second with an "Invalid operand format: " text cut short. -/
theorem C24_responses_are_not_requests_witness :
    ('+' = '+' ∨ '+' = '-' ∨ '+' = '*' ∨ '+' = '/') ∧
    cstr (TCP.processData (fmt2 (Dbl.ofInt 7) ++ NUL :: [])) ≠ "Bye".toList ∧
    cstr (TCP.processData (fmt2 (Dbl.ofInt 7) ++ NUL :: []))
      = "Insufficient number of operands".toList ∧
    cstr (UDP.processData (fmt2 (Dbl.ofInt 3) ++ [' ', '+', ' '] ++ fmt2 (Dbl.ofInt 4)
        ++ [' ', '=', ' '] ++ fmt2 (Dbl.ofInt 7) ++ NUL :: [])) ≠ "Bye".toList ∧
    cstr (UDP.processData (fmt2 (Dbl.ofInt 3) ++ [' ', '+', ' '] ++ fmt2 (Dbl.ofInt 4)
        ++ [' ', '=', ' '] ++ fmt2 (Dbl.ofInt 7) ++ NUL :: [])) = "Inv".toList :=
  ⟨Or.inl rfl,
    (C24_responses_are_not_requests (Dbl.ofInt 7) (Dbl.ofInt 4) (Dbl.ofInt 7) '+' []
      (Or.inl rfl)).2.1,
    by decide,
    (C24_responses_are_not_requests (Dbl.ofInt 3) (Dbl.ofInt 4) (Dbl.ofInt 7) '+' []
      (Or.inl rfl)).2.2.2.2.1,
    by decide⟩

end Calc
